import Mathlib

/-!
# Conversational memory engine (Go package `memory`)

A shallow embedding of `internal/memory` (`types.go`, `manager.go`,
`relevance.go`, `tokenizer.go`, `storage.go`) together with theorems about it.

Modelling conventions.

* A Go `string` is a Lean `String`, that is a sequence of Unicode code points
  (the strings are taken to be valid UTF-8).  `[]rune(s)` is `s.data`,
  `string(runes)` is `String.mk runes`, `strings.Contains` is the contiguous
  sub-sequence test on code points.  The file storage, whose serializer works
  on the bytes of a string and alters those that are not valid UTF-8, has its
  own record types (`RawStockMemory`), with every string held as its bytes.
* A Go slice is a `List`.  `len` is exact (a slice that fits in memory has fewer
  than `2^63` elements).  A slice expression whose bounds are out of range makes
  the Go runtime abort the call: a function returning a value then yields
  `none`, a method mutating a record reports `Status.aborted` next to the record
  as it stands at that moment.
* Go `int` / `int64` values are `Int`; arithmetic that can leave the 64-bit
  range is wrapped explicitly with `wrapInt`.  A difference `len(xs) - k` used
  as a slice index is kept exact: for `k >= 0` it cannot leave the range, and
  for `k < 0` the exact and the wrapped value are both outside `[0, len(xs)]`.
* A `float64` is the rational it denotes (weights are finite).  The scores on
  which `FindRelevant` decides are computed as the code does, every operation
  rounded to `float64` by `roundFloat64` without fused multiply-add
  (`calculateScore64`); `calculateScore` is the same formula over the exact
  rationals.
* A method that mutates `*StockMemory` returns the record afterwards; a Go
  `error` result is an `Option Error` (`none` is the `nil` error).
* `time.Now().UnixMilli()` is an explicit argument of every function reading it.
* Library functions outside the package: `sort.Slice` is embedded from the Go
  library (`goSorter`, the pattern-defeating quicksort of Go 1.19 and later),
  and the theorems that hold for every implementation take one as a parameter
  (`SliceSorter`) with its contract as a hypothesis; `time.UnixMilli(t).Format`
  in the time zone of the process (`TimeFormat`), `filepath.Join` and the files
  of the host (`FileSystem`) are parameters; `encoding/json` is embedded on
  documents held as values (`MarshalIndent`, `Unmarshal`), the text of a
  document being left out.
* Memory is taken to be available: an allocation that the runtime accepts
  succeeds.  `make` with a capacity that the runtime rejects aborts the call.
-/

set_option autoImplicit false

namespace Memory

/-! ## Go runtime primitives -/

/-- Description of a Go `error` value. -/
abbrev Error := String

/-- Two's-complement wrap-around of Go's 64-bit `int`: the representative of `x`
modulo `2^64` in the range `[-2^63, 2^63)`. -/
def wrapInt (x : Int) : Int :=
  (x + 9223372036854775808) % 18446744073709551616 - 9223372036854775808

/-- Slice expression `xs[i:]`; `none` when the index is out of range. -/
def sliceFrom {α : Type} (xs : List α) (i : Int) : Option (List α) :=
  if 0 ≤ i ∧ i ≤ (xs.length : Int) then some (xs.drop i.toNat) else none

/-- Slice expression `xs[:i]`; `none` when the index is out of range.  (For `i`
beyond `len(xs)` Go checks against the capacity, which is not tracked here; in
`compress`, the only user, the companion `xs[i:]` is out of range for such `i`.) -/
def sliceTo {α : Type} (xs : List α) (i : Int) : Option (List α) :=
  if 0 ≤ i ∧ i ≤ (xs.length : Int) then some (xs.take i.toNat) else none

/-- The trailing `k` entries of a list, in their original order (the whole list
when it has fewer than `k` entries). -/
def lastN {α : Type} (k : Nat) (xs : List α) : List α :=
  xs.drop (xs.length - k)

/-! ## `float64` arithmetic -/

/-- The value `2^e`. -/
def pow2 (e : Int) : ℚ :=
  if 0 ≤ e then ((2 ^ e.toNat : Nat) : ℚ) else mkRat 1 (2 ^ (-e).toNat)

/-- The integer nearest to `n / d`, the even one of the two on a tie. -/
def roundHalfEven (n d : Nat) : Nat :=
  let q := n / d
  let r := n % d
  if 2 * r < d then q else if d < 2 * r then q + 1 else if q % 2 = 0 then q else q + 1

/-- Number of binary digits of `n` among its low `fuel` digits. -/
def bitsLenAux : Nat → Nat → Nat
  | 0, _ => 0
  | fuel + 1, n => if n = 0 then 0 else bitsLenAux fuel (n / 2) + 1

/-- Function `bits.Len`: the number of binary digits of `n`, `0` for `0`. -/
def bitsLen (n : Nat) : Nat :=
  bitsLenAux n n

/-- The exponent `e` with `2^e <= n / d < 2^(e+1)`, for `n, d > 0`. -/
def binade (n d : Nat) : Int :=
  let e : Int := (bitsLen n : Int) - (bitsLen d : Int)
  if (if 0 ≤ e then 2 ^ e.toNat * d ≤ n else d ≤ n * 2 ^ (-e).toNat) then e else e - 1

/-- Rounding of a real value to `float64` (IEEE 754 binary64, round to nearest,
ties to even): 53 significant bits, exponent of the last bit at least `-1074`.
The values of this embedding stay below the overflow threshold `2^1024`. -/
def roundFloat64 (x : ℚ) : ℚ :=
  if x = 0 then 0
  else
    let n := x.num.natAbs
    let d := x.den
    let e := max (binade n d - 52) (-1074)
    let m :=
      if 0 ≤ e then roundHalfEven n (d * 2 ^ e.toNat) else roundHalfEven (n * 2 ^ (-e).toNat) d
    let v := (m : ℚ) * pow2 e
    if x < 0 then -v else v

/-! ## Data model (`types.go`) -/

/-- Record `MemoryEntry`: an atomic remembered fact.  `Typ` is the Go field
`Type` (an `EntryType`, which is a string). -/
structure MemoryEntry where
  ID : String
  Typ : String
  Content : String
  Source : String
  Keywords : List String
  Timestamp : Int
  Weight : ℚ
deriving DecidableEq

/-- Record `RoundMemory`: one completed discussion round. -/
structure RoundMemory where
  Round : Int
  Query : String
  Consensus : String
  KeyPoints : List String
  Timestamp : Int
deriving DecidableEq

/-- Record `StockMemory`: the memory of one subject. -/
structure StockMemory where
  StockCode : String
  StockName : String
  Summary : String
  KeyFacts : List MemoryEntry
  RecentRounds : List RoundMemory
  TotalRounds : Int
  CreatedAt : Int
  UpdatedAt : Int
deriving DecidableEq

/-- Constructor `NewStockMemory`, at clock reading `now`. -/
def NewStockMemory (now : Int) (stockCode stockName : String) : StockMemory :=
  { StockCode := stockCode
    StockName := stockName
    Summary := ""
    KeyFacts := []
    RecentRounds := []
    TotalRounds := 0
    CreatedAt := now
    UpdatedAt := now }

/-- Record `Config`. -/
structure Config where
  MaxRecentRounds : Int
  MaxKeyFacts : Int
  MaxSummaryLength : Int
  CompressThreshold : Int
deriving DecidableEq

/-- Function `DefaultConfig`. -/
def DefaultConfig : Config :=
  { MaxRecentRounds := 3
    MaxKeyFacts := 20
    MaxSummaryLength := 300
    CompressThreshold := 5 }

/-! ## Collaborator interfaces -/

/-- Interface `Tokenizer` (`tokenizer.go`). -/
structure Tokenizer where
  Extract : String → Int → List String
  Cut : String → List String

/-- Modelled from the spec: the declaration of `DiscussionInput` is not among
the sources; it is a discussion input made of an agent name and a content, the
two fields read by `fallbackExtractKeyPoints`. -/
structure DiscussionInput where
  AgentName : String
  Content : String
deriving DecidableEq

/-- Modelled from the spec: the declaration of the `Summarizer` interface is not
among the sources; its three capabilities are those of the spec's external
interfaces, called as in `manager.go`, each either producing its result or
failing with an error. -/
structure Summarizer where
  SummarizeRounds : List RoundMemory → Except Error String
  ExtractFacts : String → String → Except Error (List MemoryEntry)
  ExtractKeyPoints : List DiscussionInput → Except Error (List String)

/-- Interface `Storage` (`storage.go`) over a backend state `σ`: every operation
returns its result together with the backend state afterwards. -/
structure Storage (σ : Type) where
  Load : σ → String → Except Error StockMemory × σ
  Save : σ → StockMemory → Option Error × σ
  Delete : σ → String → Option Error × σ
  List : σ → Except Error (List String) × σ

/-- Record `Relevance` (`relevance.go`). -/
structure Relevance where
  tokenizer : Tokenizer

/-- Constructor `NewRelevance`. -/
def NewRelevance (tokenizer : Tokenizer) : Relevance :=
  { tokenizer := tokenizer }

/-- Record `Manager` (`manager.go`); an absent summarizer is `none`. -/
structure Manager (σ : Type) where
  config : Config
  storage : Storage σ
  tokenizer : Tokenizer
  relevance : Relevance
  summarizer : Option Summarizer
  dataDir : String

/-- How a call of a method with an `error` result ended: it returned (with the
`nil` error or a failure), or the Go runtime aborted it.  The record a method
mutates in place is reported in both cases, as it stands at that moment. -/
inductive Status where
  | returned (err : Option Error)
  | aborted
deriving DecidableEq

/-! ## Fact bounding (`Manager.AddFacts`) -/

/-- Method `Manager.AddFacts`: append, then keep the trailing `MaxKeyFacts`
entries when the list has become longer than that.  The result is the record
afterwards and whether the call returned (`true`) or was aborted by the slice
expression (`false`, the record then holding the appended list). -/
def AddFacts {σ : Type} (m : Manager σ) (mem : StockMemory)
    (facts : List MemoryEntry) : StockMemory × Bool :=
  let mem := { mem with KeyFacts := mem.KeyFacts ++ facts }
  if (mem.KeyFacts.length : Int) > m.config.MaxKeyFacts then
    match sliceFrom mem.KeyFacts ((mem.KeyFacts.length : Int) - m.config.MaxKeyFacts) with
    | some kept => ({ mem with KeyFacts := kept }, true)
    | none => (mem, false)
  else
    (mem, true)

/-- A sequence of `AddFacts` calls on the same record, one per batch: the record
afterwards, and whether every call returned. -/
def AddFactsAll {σ : Type} (m : Manager σ) :
    StockMemory → List (List MemoryEntry) → StockMemory × Bool
  | mem, [] => (mem, true)
  | mem, facts :: rest =>
    let step := AddFacts m mem facts
    let run := AddFactsAll m step.1 rest
    (run.1, step.2 && run.2)

/-! ## Summary merging and compression (`manager.go`) -/

/-- Method `Manager.mergeSummaries`; `none` when the slice expression aborts.
`maxLen` is a 64-bit product and wraps.  The index `len(runes) - maxLen` is
exact, see the conventions. -/
def mergeSummaries {σ : Type} (m : Manager σ) (old new : String) : Option String :=
  if old = "" then some new
  else if new = "" then some old
  else
    let merged := old ++ "\n" ++ new
    let runes := merged.data
    let maxLen := wrapInt (m.config.MaxSummaryLength * 2)
    if (runes.length : Int) > maxLen then
      (sliceFrom runes ((runes.length : Int) - maxLen)).map String.mk
    else
      some merged

/-- Method `Manager.compress`: the record afterwards and how the call ended. -/
def compress {σ : Type} (m : Manager σ) (mem : StockMemory) : StockMemory × Status :=
  let keepCount := m.config.MaxRecentRounds
  if (mem.RecentRounds.length : Int) ≤ keepCount then
    (mem, Status.returned none)
  else
    match sliceTo mem.RecentRounds ((mem.RecentRounds.length : Int) - keepCount),
        sliceFrom mem.RecentRounds ((mem.RecentRounds.length : Int) - keepCount) with
    | some toCompress, some toKeep =>
      match m.summarizer with
      | none => ({ mem with RecentRounds := toKeep }, Status.returned none)
      | some summarizer =>
        match summarizer.SummarizeRounds toCompress with
        | Except.error err => (mem, Status.returned (some err))
        | Except.ok newSummary =>
          match mergeSummaries m mem.Summary newSummary with
          | some merged =>
            ({ mem with Summary := merged, RecentRounds := toKeep }, Status.returned none)
          | none => (mem, Status.aborted)
    | _, _ => (mem, Status.aborted)

/-! ## Round ingestion (`Manager.Save`, `Manager.AddRound`) -/

/-- Method `Manager.Save` at clock reading `now`, on backend state `st`. -/
def Save {σ : Type} (m : Manager σ) (now : Int) (st : σ) (mem : StockMemory) :
    StockMemory × Option Error × σ :=
  let mem := { mem with UpdatedAt := now }
  let saved := m.storage.Save st mem
  (mem, saved.1, saved.2)

/-- The opening statements of `AddRound`: count the round (the counter is a
64-bit `int`), stamp the new round with the counter and the clock reading `now`,
append it. -/
def appendRound (mem : StockMemory) (now : Int) (query consensus : String)
    (keyPoints : List String) : StockMemory :=
  let mem := { mem with TotalRounds := wrapInt (mem.TotalRounds + 1) }
  let round : RoundMemory :=
    { Round := mem.TotalRounds
      Query := query
      Consensus := consensus
      KeyPoints := keyPoints
      Timestamp := now }
  { mem with RecentRounds := mem.RecentRounds ++ [round] }

/-- The compression check of `AddRound`. -/
def compressCheck {σ : Type} (m : Manager σ) (mem : StockMemory) : StockMemory × Status :=
  if (mem.RecentRounds.length : Int) ≥ m.config.CompressThreshold then compress m mem
  else (mem, Status.returned none)

/-- Method `Manager.AddRound`.  `now` is the clock reading stamped on the round,
`saveNow` the one read by `Save`.  A compression failure is only printed; an
aborted compression aborts the call before the save. -/
def AddRound {σ : Type} (m : Manager σ) (now saveNow : Int) (st : σ) (mem : StockMemory)
    (query consensus : String) (keyPoints : List String) : StockMemory × Status × σ :=
  let mem := appendRound mem now query consensus keyPoints
  let checked := compressCheck m mem
  match checked.2 with
  | Status.aborted => (checked.1, Status.aborted, st)
  | Status.returned _ =>
    let saved := Save m saveNow st checked.1
    (saved.1, Status.returned saved.2.1, saved.2.2)

/-- One `AddRound` call of a sequence: its arguments, the two clock readings and
the summarizer configured at that moment (`SetLLM` may be called in between). -/
structure RoundCall where
  query : String
  consensus : String
  keyPoints : List String
  now : Int
  saveNow : Int
  summarizer : Option Summarizer

/-- A sequence of `AddRound` calls on the same record.  The caller carries on
with the record whatever each call reports; the reports are collected in call
order. -/
def AddRoundAll {σ : Type} (m : Manager σ) :
    σ → StockMemory → List RoundCall → StockMemory × List Status × σ
  | st, mem, [] => (mem, [], st)
  | st, mem, call :: rest =>
    let step := AddRound { m with summarizer := call.summarizer } call.now call.saveNow st mem
      call.query call.consensus call.keyPoints
    let run := AddRoundAll m step.2.2 step.1 rest
    (run.1, step.2.1 :: run.2.1, run.2.2)

/-! ## Relevance scoring (`relevance.go`) -/

/-- Record `ScoredEntry`. -/
structure ScoredEntry where
  Entry : MemoryEntry
  Score : ℚ
deriving DecidableEq

/-- Whether the code points `sub` occur contiguously in `runes`. -/
def containsRunes (sub : List Char) : List Char → Bool
  | [] => sub.isEmpty
  | c :: rest => sub.isPrefixOf (c :: rest) || containsRunes sub rest

/-- Library function `strings.Contains(s, substr)`. -/
def Contains (s substr : String) : Bool :=
  containsRunes substr.data s.data

/-- The counter `matches` of `calculateScore` after its loop over the query
keywords (`matches` is reserved in Lean, hence `count`): each keyword adds one when it contains or is contained in some keyword
of the fact, and one more when it occurs in the content. -/
def countMatches (queryKeywords : List String) (fact : MemoryEntry) : Nat :=
  queryKeywords.foldl
    (fun count qk =>
      let count :=
        if fact.Keywords.any (fun fk => Contains fk qk || Contains qk fk) then count + 1
        else count
      if Contains fact.Content qk then count + 1 else count)
    0

/-- The variable `age` of `timeDecay`: a 64-bit difference of millisecond
readings. -/
def ageMillis (timestamp now : Int) : Int :=
  wrapInt (now - timestamp)

/-- The variable `days` of `timeDecay`. -/
def ageDays (timestamp now : Int) : ℚ :=
  (ageMillis timestamp now : ℚ) / (24 * 60 * 60 * 1000)

/-- Method `Relevance.timeDecay`, at clock reading `now`. -/
def timeDecay (timestamp now : Int) : ℚ :=
  let days := ageDays timestamp now
  if days ≤ 7 then 1
  else max (3 / 10) (1 - (1 / 20) * (days - 7))

/-- Method `Relevance.calculateScore`; `now` is the clock reading of its
`timeDecay` call. -/
def calculateScore (queryKeywords : List String) (fact : MemoryEntry) (now : Int) : ℚ :=
  if queryKeywords.length = 0 then 0
  else
    let count := countMatches queryKeywords fact
    let score : ℚ := (count : ℚ) / ((queryKeywords.length * 2 : Nat) : ℚ)
    let score := score * max (1 / 2) fact.Weight
    let score := score * timeDecay fact.Timestamp now
    score

/-- The variable `days` of `timeDecay` as the code computes it, in `float64`:
the age is converted to `float64` and divided by the constant `86400000`. -/
def ageDays64 (timestamp now : Int) : ℚ :=
  roundFloat64 (roundFloat64 (ageMillis timestamp now : ℚ) / (24 * 60 * 60 * 1000))

/-- Method `Relevance.timeDecay` as the code computes it, in `float64`: the
constants `0.3` and `0.05` are their nearest `float64`, and each operation is
rounded on its own. -/
def timeDecay64 (timestamp now : Int) : ℚ :=
  let days := ageDays64 timestamp now
  if days ≤ 7 then 1
  else
    max (roundFloat64 (3 / 10))
      (roundFloat64 (1 - roundFloat64 (roundFloat64 (1 / 20) * roundFloat64 (days - 7))))

/-- Method `Relevance.calculateScore` as the code computes it, in `float64`:
the two counts are converted to `float64`, and the quotient and the two
products are rounded.  The weight is the stored `float64`. -/
def calculateScore64 (queryKeywords : List String) (fact : MemoryEntry) (now : Int) : ℚ :=
  if queryKeywords.length = 0 then 0
  else
    let count := countMatches queryKeywords fact
    let score : ℚ :=
      roundFloat64 (roundFloat64 (count : ℚ) /
        roundFloat64 ((queryKeywords.length * 2 : Nat) : ℚ))
    let score := roundFloat64 (score * max (1 / 2) fact.Weight)
    let score := roundFloat64 (score * timeDecay64 fact.Timestamp now)
    score

/-- An implementation of the library function `sort.Slice`, applied to the
elements and the `less` function of the call. -/
structure SliceSorter where
  sort : {α : Type} → (α → α → Bool) → List α → List α

/-- The first half of the contract of `sort.Slice`: it only rearranges the
slice. -/
def SliceSorter.Permutes (sorter : SliceSorter) : Prop :=
  ∀ {α : Type} (less : α → α → Bool) (xs : List α), (sorter.sort less xs).Perm xs

/-- The second half of the contract of `sort.Slice`: when `less` is a strict
weak ordering, no element of the result is `less` than an element before it.
The order of elements that compare equal is left to the implementation. -/
def SliceSorter.Sorts (sorter : SliceSorter) : Prop :=
  ∀ {α : Type} (less : α → α → Bool) (xs : List α),
    (∀ a, less a a = false) →
    (∀ a b c, less a b = true → less b c = true → less a c = true) →
    (∀ a b c, less a b = false → less b c = false → less a c = false) →
    (sorter.sort less xs).Pairwise (fun a b => less b a = false)

/-- The scoring loop of `FindRelevant`: the fact at position `i + k` of the
input is scored, in `float64`, at clock reading `clock (i + k)` and kept with
its score when the score exceeds the `float64` constant `0.1`. -/
def scoreFacts (queryKeywords : List String) (clock : Nat → Int) :
    Nat → List MemoryEntry → List ScoredEntry
  | _, [] => []
  | i, fact :: rest =>
    let score := calculateScore64 queryKeywords fact (clock i)
    if score > roundFloat64 (1 / 10) then
      { Entry := fact, Score := score } :: scoreFacts queryKeywords clock (i + 1) rest
    else
      scoreFacts queryKeywords clock (i + 1) rest

/-- The query keywords `FindRelevant` scores against: the tokenizer's top-10
extraction, or its segmentation when the extraction is empty. -/
def effectiveKeywords (r : Relevance) (query : String) : List String :=
  let queryKeywords := r.tokenizer.Extract query 10
  if queryKeywords.length = 0 then r.tokenizer.Cut query else queryKeywords

/-- The size in bytes of a `MemoryEntry` on a 64-bit platform: four strings of
16 bytes, a slice of 24 bytes, an `int64` and a `float64`. -/
def sizeofMemoryEntry : Int := 104

/-- The constant `maxAlloc` of the Go runtime on a platform with 48 address
bits: the largest size `makeslice` accepts. -/
def maxAlloc : Int := 281474976710656

/-- Method `Relevance.FindRelevant`.  `clock i` is the clock reading of the
score computation of `facts[i]`.  `none` when `make([]MemoryEntry, 0, limit)`
aborts: on a negative capacity, and on a capacity whose size in bytes exceeds
`maxAlloc` (exhaustion of the memory of the host is not modelled).  The
allocation `make([]ScoredEntry, 0, len(facts))` is taken to succeed: its
capacity is the length of a slice that is in memory, and it is rejected only
from 2.5e12 facts (261 TB) on. -/
def FindRelevant (r : Relevance) (sorter : SliceSorter) (clock : Nat → Int)
    (facts : List MemoryEntry) (query : String) (limit : Int) : Option (List MemoryEntry) :=
  if facts.length = 0 then some []
  else
    let queryKeywords := effectiveKeywords r query
    let scored := scoreFacts queryKeywords clock 0 facts
    let scored := sorter.sort (fun a b => decide (a.Score > b.Score)) scored
    if limit < 0 ∨ sizeofMemoryEntry * limit > maxAlloc then none
    else some ((scored.take limit.toNat).map fun s => s.Entry)

/-! ## The library function `sort.Slice` of Go (pattern-defeating quicksort) -/

/-- Call `less(i, j)` on the slice: `less` applied to the elements at `i` and
`j`. -/
def lessAt {α : Type} (less : α → α → Bool) (data : List α) (i j : Nat) : Bool :=
  match data[i]?, data[j]? with
  | some x, some y => less x y
  | _, _ => false

/-- Call `swap(i, j)` on the slice. -/
def swapAt {α : Type} (data : List α) (i j : Nat) : List α :=
  match data[i]?, data[j]? with
  | some x, some y => (data.set i y).set j x
  | _, _ => data

/-- The inner loop of `insertionSort_func`, from `j` down:
`for ; j > a && less(j, j-1); j-- { swap(j, j-1) }`. -/
def insertionShift {α : Type} (less : α → α → Bool) (a : Nat) : Nat → List α → List α
  | 0, data => data
  | j + 1, data =>
    if j + 1 > a ∧ lessAt less data (j + 1) j = true then
      insertionShift less a j (swapAt data (j + 1) j)
    else data

/-- Function `insertionSort_func`: sorts `data[a:b]` by insertion. -/
def insertionSortFunc {α : Type} (less : α → α → Bool) (data : List α) (a b : Nat) : List α :=
  (List.range' (a + 1) (b - (a + 1))).foldl (fun data i => insertionShift less a i data) data

/-- Function `siftDown_func`; the first argument bounds the number of turns of
its loop. -/
def siftDownFunc {α : Type} (less : α → α → Bool) (hi first : Nat) :
    Nat → Nat → List α → List α
  | 0, _, data => data
  | fuel + 1, root, data =>
    let child := 2 * root + 1
    if child ≥ hi then data
    else
      let child :=
        if child + 1 < hi ∧ lessAt less data (first + child) (first + child + 1) = true then
          child + 1
        else child
      if lessAt less data (first + root) (first + child) = false then data
      else siftDownFunc less hi first fuel child (swapAt data (first + root) (first + child))

/-- Function `heapSort_func`. -/
def heapSortFunc {α : Type} (less : α → α → Bool) (data : List α) (a b : Nat) : List α :=
  let first := a
  let hi := b - a
  let data :=
    (List.range ((hi - 1) / 2 + 1)).reverse.foldl
      (fun data i => siftDownFunc less hi first hi i data) data
  (List.range hi).reverse.foldl
    (fun data i => siftDownFunc less i first hi 0 (swapAt data first (first + i))) data

/-- Loop `for i <= j && less(i, a) { i++ }` of `partition_func`: the final `i`. -/
def scanLess {α : Type} (less : α → α → Bool) (data : List α) (a j : Nat) : Nat → Nat → Nat
  | 0, i => i
  | fuel + 1, i =>
    if i ≤ j ∧ lessAt less data i a = true then scanLess less data a j fuel (i + 1) else i

/-- Loop `for i <= j && !less(j, a) { j-- }` of `partition_func`: the final `j`
(here `i >= 1`, so the loop stops at `j = 0` at the latest). -/
def scanNotLess {α : Type} (less : α → α → Bool) (data : List α) (a i : Nat) : Nat → Nat
  | 0 => 0
  | j + 1 =>
    if i ≤ j + 1 ∧ lessAt less data (j + 1) a = false then scanNotLess less data a i j
    else j + 1

/-- The main loop of `partition_func`: the slice and the final `j`. -/
def partitionLoop {α : Type} (less : α → α → Bool) (a : Nat) :
    Nat → List α → Nat → Nat → List α × Nat
  | 0, data, _, j => (data, j)
  | fuel + 1, data, i, j =>
    let i := scanLess less data a j (j + 1) i
    let j := scanNotLess less data a i j
    if i > j then (data, j)
    else partitionLoop less a fuel (swapAt data i j) (i + 1) (j - 1)

/-- Function `partition_func`: the slice, the new pivot index, and whether the
slice was already partitioned. -/
def partitionFunc {α : Type} (less : α → α → Bool) (data : List α) (a b pivot : Nat) :
    List α × Nat × Bool :=
  let data := swapAt data a pivot
  let i := a + 1
  let j := b - 1
  let i := scanLess less data a j (j + 1) i
  let j := scanNotLess less data a i j
  if i > j then (swapAt data j a, j, true)
  else
    let data := swapAt data i j
    let looped := partitionLoop less a (b + 1) data (i + 1) (j - 1)
    (swapAt looped.1 looped.2 a, looped.2, false)

/-- Loop `for i <= j && !less(a, i) { i++ }` of `partitionEqual_func`. -/
def scanNotGreater {α : Type} (less : α → α → Bool) (data : List α) (a j : Nat) :
    Nat → Nat → Nat
  | 0, i => i
  | fuel + 1, i =>
    if i ≤ j ∧ lessAt less data a i = false then scanNotGreater less data a j fuel (i + 1)
    else i

/-- Loop `for i <= j && less(a, j) { j-- }` of `partitionEqual_func`. -/
def scanGreater {α : Type} (less : α → α → Bool) (data : List α) (a i : Nat) : Nat → Nat
  | 0 => 0
  | j + 1 =>
    if i ≤ j + 1 ∧ lessAt less data a (j + 1) = true then scanGreater less data a i j
    else j + 1

/-- The loop of `partitionEqual_func`: the slice and the final `i`. -/
def partitionEqualLoop {α : Type} (less : α → α → Bool) (a : Nat) :
    Nat → List α → Nat → Nat → List α × Nat
  | 0, data, i, _ => (data, i)
  | fuel + 1, data, i, j =>
    let i := scanNotGreater less data a j (j + 1) i
    let j := scanGreater less data a i j
    if i > j then (data, i)
    else partitionEqualLoop less a fuel (swapAt data i j) (i + 1) (j - 1)

/-- Function `partitionEqual_func`. -/
def partitionEqualFunc {α : Type} (less : α → α → Bool) (data : List α) (a b pivot : Nat) :
    List α × Nat :=
  partitionEqualLoop less a (b + 1) (swapAt data a pivot) (a + 1) (b - 1)

/-- Loop `for i < b && !less(i, i-1) { i++ }` of `partialInsertionSort_func`. -/
def scanOrdered {α : Type} (less : α → α → Bool) (data : List α) (b : Nat) : Nat → Nat → Nat
  | 0, i => i
  | fuel + 1, i =>
    if i < b ∧ lessAt less data i (i - 1) = false then scanOrdered less data b fuel (i + 1)
    else i

/-- Loop `for j := i - 1; j >= 1; j-- { if !less(j, j-1) { break }; swap(j, j-1) }`
of `partialInsertionSort_func`. -/
def shiftSmaller {α : Type} (less : α → α → Bool) : Nat → List α → List α
  | 0, data => data
  | j + 1, data =>
    if lessAt less data (j + 1) j = false then data
    else shiftSmaller less j (swapAt data (j + 1) j)

/-- Loop `for j := i + 1; j < b; j++ { if !less(j, j-1) { break }; swap(j, j-1) }`
of `partialInsertionSort_func`. -/
def shiftGreater {α : Type} (less : α → α → Bool) (b : Nat) : Nat → Nat → List α → List α
  | 0, _, data => data
  | fuel + 1, j, data =>
    if j < b then
      if lessAt less data j (j - 1) = false then data
      else shiftGreater less b fuel (j + 1) (swapAt data j (j - 1))
    else data

/-- The loop `for j := 0; j < maxSteps; j++` of `partialInsertionSort_func`, with
`steps` turns left: the slice and the result. -/
def partialInsertionLoop {α : Type} (less : α → α → Bool) (a b : Nat) :
    Nat → Nat → List α → List α × Bool
  | 0, _, data => (data, false)
  | steps + 1, i, data =>
    let i := scanOrdered less data b b i
    if i = b then (data, true)
    else if b - a < 50 then (data, false)
    else
      let data := swapAt data i (i - 1)
      let data := if i - a ≥ 2 then shiftSmaller less (i - 1) data else data
      let data := if b - i ≥ 2 then shiftGreater less b b (i + 1) data else data
      partialInsertionLoop less a b steps i data

/-- Function `partialInsertionSort_func`: the slice, and whether it is sorted at
the end. -/
def partialInsertionSortFunc {α : Type} (less : α → α → Bool) (data : List α) (a b : Nat) :
    List α × Bool :=
  partialInsertionLoop less a b 5 (a + 1) data

/-- Method `xorshift.Next` on a 64-bit state: the new state, which is also the
value returned. -/
def xorshiftNext (r : Nat) : Nat :=
  let r := Nat.xor r ((r <<< 13) % 18446744073709551616)
  let r := Nat.xor r (r >>> 17)
  Nat.xor r ((r <<< 5) % 18446744073709551616)

/-- Function `breakPatterns_func`. -/
def breakPatternsFunc {α : Type} (data : List α) (a b : Nat) : List α :=
  let length := b - a
  if length ≥ 8 then
    let modulus := 2 ^ bitsLen length
    let idx := a + (length / 4) * 2 - 1
    let step := fun (state : List α × Nat) (i : Nat) =>
      let random := xorshiftNext state.2
      let other := Nat.land random (modulus - 1)
      let other := if other ≥ length then other - length else other
      (swapAt state.1 (idx - 1 + i) (a + other), random)
    ((List.range 3).foldl step (data, length)).1
  else data

/-- Type `sortedHint`. -/
inductive SortedHint where
  | unknownHint
  | increasingHint
  | decreasingHint
deriving DecidableEq

/-- Function `order2_func`: the two indices in order, and the swap counter. -/
def order2Func {α : Type} (less : α → α → Bool) (data : List α) (a b swaps : Nat) :
    Nat × Nat × Nat :=
  if lessAt less data b a = true then (b, a, swaps + 1) else (a, b, swaps)

/-- Function `median_func`: the index of the median, and the swap counter. -/
def medianFunc {α : Type} (less : α → α → Bool) (data : List α) (a b c swaps : Nat) :
    Nat × Nat :=
  let first := order2Func less data a b swaps
  let second := order2Func less data first.2.1 c first.2.2
  let third := order2Func less data first.1 second.1 second.2.2
  (third.2.1, third.2.2)

/-- Function `medianAdjacent_func`. -/
def medianAdjacentFunc {α : Type} (less : α → α → Bool) (data : List α) (a swaps : Nat) :
    Nat × Nat :=
  medianFunc less data (a - 1) a (a + 1) swaps

/-- Function `choosePivot_func`. -/
def choosePivotFunc {α : Type} (less : α → α → Bool) (data : List α) (a b : Nat) :
    Nat × SortedHint :=
  let l := b - a
  let i := a + l / 4 * 1
  let j := a + l / 4 * 2
  let k := a + l / 4 * 3
  let chosen : Nat × Nat :=
    if l ≥ 8 then
      if l ≥ 50 then
        let mi := medianAdjacentFunc less data i 0
        let mj := medianAdjacentFunc less data j mi.2
        let mk := medianAdjacentFunc less data k mj.2
        medianFunc less data mi.1 mj.1 mk.1 mk.2
      else medianFunc less data i j k 0
    else (j, 0)
  if chosen.2 = 0 then (chosen.1, SortedHint.increasingHint)
  else if chosen.2 = 12 then (chosen.1, SortedHint.decreasingHint)
  else (chosen.1, SortedHint.unknownHint)

/-- Function `reverseRange_func`. -/
def reverseRangeFunc {α : Type} (data : List α) (a b : Nat) : List α :=
  (List.range ((b - a) / 2)).foldl (fun data k => swapAt data (a + k) (b - 1 - k)) data

/-- Function `pdqsort_func` on `data[a:b]`.  The first argument bounds the depth
of the calls and turns of the loop (each works on a shorter range);
`wasBalanced` and `wasPartitioned` are the two loop variables. -/
def pdqsortFunc {α : Type} (less : α → α → Bool) :
    Nat → List α → Nat → Nat → Nat → Bool → Bool → List α
  | 0, data, _, _, _, _, _ => data
  | fuel + 1, data, a, b, limit, wasBalanced, wasPartitioned =>
    let length := b - a
    if length ≤ 12 then insertionSortFunc less data a b
    else if limit = 0 then heapSortFunc less data a b
    else
      let data := if wasBalanced then data else breakPatternsFunc data a b
      let limit := if wasBalanced then limit else limit - 1
      let chosen := choosePivotFunc less data a b
      let reversed := chosen.2 = SortedHint.decreasingHint
      let data := if reversed then reverseRangeFunc data a b else data
      let pivot := if reversed then (b - 1) - (chosen.1 - a) else chosen.1
      let hint := if reversed then SortedHint.increasingHint else chosen.2
      let tried :=
        if wasBalanced ∧ wasPartitioned ∧ hint = SortedHint.increasingHint then
          partialInsertionSortFunc less data a b
        else (data, false)
      if tried.2 = true then tried.1
      else
        let data := tried.1
        if a > 0 ∧ lessAt less data (a - 1) pivot = false then
          let parted := partitionEqualFunc less data a b pivot
          pdqsortFunc less fuel parted.1 parted.2 b limit wasBalanced wasPartitioned
        else
          let parted := partitionFunc less data a b pivot
          let mid := parted.2.1
          let leftLen := mid - a
          let rightLen := b - mid
          let balanceThreshold := length / 8
          if leftLen < rightLen then
            let data := pdqsortFunc less fuel parted.1 a mid limit true true
            pdqsortFunc less fuel data (mid + 1) b limit (decide (leftLen ≥ balanceThreshold))
              parted.2.2
          else
            let data := pdqsortFunc less fuel parted.1 (mid + 1) b limit true true
            pdqsortFunc less fuel data a mid limit (decide (rightLen ≥ balanceThreshold))
              parted.2.2

/-- Function `sort.Slice`: `pdqsort_func` on the whole slice, with the limit
`bits.Len(length)`. -/
def sortSlice {α : Type} (less : α → α → Bool) (data : List α) : List α :=
  pdqsortFunc less (data.length + 1) data 0 data.length (bitsLen data.length) true true

/-- Go's own implementation of `sort.Slice`. -/
def goSorter : SliceSorter :=
  { sort := fun less xs => sortSlice less xs }

/-! ## Context assembly (`Manager.BuildContext`) -/

/-- Library calls `time.UnixMilli(t).Format(layout)` for the two layouts used by
`BuildContext`: the calendar date `2006-01-02` and the date with time of day
`2006-01-02 15:04`, in the time zone of the process. -/
structure TimeFormat where
  Date : Int → String
  DateTime : Int → String

/-- Method `Manager.BuildContext`.  The string builder is the text written so
far.  `clock i` is the clock reading of the score computation of `KeyFacts[i]`.
The result is the record after the call and the text, `none` when
`FindRelevant` aborts. -/
def BuildContext {σ : Type} (m : Manager σ) (sorter : SliceSorter) (layout : TimeFormat)
    (clock : Nat → Int) (mem : StockMemory) (currentQuery : String) :
    StockMemory × Option String :=
  let sb := ""
  let sb :=
    if mem.Summary ≠ "" then sb ++ "【历史讨论摘要】\n" ++ mem.Summary ++ "\n\n"
    else sb
  match FindRelevant m.relevance sorter clock mem.KeyFacts currentQuery 5 with
  | none => (mem, none)
  | some relevantFacts =>
    let sb :=
      if relevantFacts.length > 0 then
        relevantFacts.foldl
          (fun sb fact => sb ++ ("- [" ++ layout.Date fact.Timestamp ++ "] " ++ fact.Content ++ "\n"))
          (sb ++ "【相关历史信息】\n") ++ "\n"
      else sb
    let sb :=
      if mem.RecentRounds.length > 0 then
        mem.RecentRounds.foldl
          (fun sb round =>
            sb ++ ("[" ++ layout.DateTime round.Timestamp ++ "] 问题: " ++ round.Query ++ "\n") ++
              ("结论: " ++ round.Consensus ++ "\n\n"))
          (sb ++ "【近期讨论】\n")
      else sb
    (mem, some sb)

/-- The summary block of the context, in the words of the specification: absent
for an empty summary, otherwise the header, the summary verbatim and a blank
line. -/
def summaryBlock (summary : String) : String :=
  if summary = "" then "" else "【历史讨论摘要】\n" ++ summary ++ "\n\n"

/-- The lines of a block, one after the other. -/
def joinLines : List String → String
  | [] => ""
  | line :: rest => line ++ joinLines rest

/-- The bullet line of one relevant fact. -/
def factLine (layout : TimeFormat) (fact : MemoryEntry) : String :=
  "- [" ++ layout.Date fact.Timestamp ++ "] " ++ fact.Content ++ "\n"

/-- The facts block of the context, in the words of the specification: absent
when no fact is relevant, otherwise the header, one bullet line per fact in the
given order, and a blank line. -/
def factsBlock (layout : TimeFormat) (relevantFacts : List MemoryEntry) : String :=
  if relevantFacts = [] then ""
  else "【相关历史信息】\n" ++ joinLines (relevantFacts.map (factLine layout)) ++ "\n"

/-- The query/consensus pair of one round. -/
def roundLines (layout : TimeFormat) (round : RoundMemory) : String :=
  "[" ++ layout.DateTime round.Timestamp ++ "] 问题: " ++ round.Query ++ "\n" ++
    ("结论: " ++ round.Consensus ++ "\n\n")

/-- The rounds block of the context, in the words of the specification: absent
when no round is stored, otherwise the header and one query/consensus pair per
round in stored order. -/
def roundsBlock (layout : TimeFormat) (rounds : List RoundMemory) : String :=
  if rounds = [] then ""
  else "【近期讨论】\n" ++ joinLines (rounds.map (roundLines layout))

/-! ## Record creation, fact extraction, key points (`manager.go`) -/

/-- Method `Manager.GetOrCreate`, at clock reading `now` (read by
`NewStockMemory`), on backend state `st`: the record, the error result and the
backend state afterwards. -/
def GetOrCreate {σ : Type} (m : Manager σ) (now : Int) (st : σ)
    (stockCode stockName : String) : StockMemory × Option Error × σ :=
  let loaded := m.storage.Load st stockCode
  match loaded.1 with
  | Except.error _ => (NewStockMemory now stockCode stockName, none, loaded.2)
  | Except.ok mem => (mem, none, loaded.2)

/-- Method `Manager.ExtractAndAddFacts`.  The method is called on the
`summarizer` field without a test for `nil`: with no summarizer configured the
call dereferences a nil interface and the Go runtime aborts it. -/
def ExtractAndAddFacts {σ : Type} (m : Manager σ) (mem : StockMemory)
    (content source : String) : StockMemory × Status :=
  match m.summarizer with
  | none => (mem, Status.aborted)
  | some summarizer =>
    match summarizer.ExtractFacts content source with
    | Except.error err => (mem, Status.returned (some err))
    | Except.ok facts =>
      let added := AddFacts m mem facts
      (added.1, if added.2 then Status.returned none else Status.aborted)

/-- Method `Manager.fallbackExtractKeyPoints`: the loop appends one point per
discussion input. -/
def fallbackExtractKeyPoints (discussions : List DiscussionInput) : List String :=
  discussions.foldl
    (fun points d =>
      let runes := d.Content.data
      let content := if runes.length > 80 then String.mk (runes.take 80) ++ "..." else d.Content
      points ++ [d.AgentName ++ ": " ++ content])
    []

/-- Method `Manager.ExtractKeyPoints`. -/
def ExtractKeyPoints {σ : Type} (m : Manager σ) (discussions : List DiscussionInput) :
    Except Error (List String) :=
  match m.summarizer with
  | none => Except.ok (fallbackExtractKeyPoints discussions)
  | some summarizer => summarizer.ExtractKeyPoints discussions

/-- The key point of one discussion input, in the words of the specification:
the agent name, a colon and a blank, then the content, cut to its first 80
characters followed by an ellipsis when it is longer. -/
def keyPoint (d : DiscussionInput) : String :=
  d.AgentName ++ ": " ++
    (if d.Content.length ≤ 80 then d.Content else String.mk (d.Content.data.take 80) ++ "...")

/-! ## UTF-8 (`unicode/utf8`) -/

/-- A Go `string` as `encoding/json` and the file system see it: its bytes, each
below 256.  The bytes need not be valid UTF-8. -/
abbrev ByteString := List Nat

/-- Constant `utf8.RuneError`, the code point U+FFFD. -/
def RuneError : Nat := 65533

/-- Function `utf8.DecodeRuneInString`: the first code point of `s` and the
number of bytes encoding it; `(RuneError, 1)` when `s` does not start with a
valid encoding (a stray or missing continuation byte, an overlong form, a
surrogate, a value above U+10FFFF), `(RuneError, 0)` when `s` is empty.  The
masks `s0 & 0x1F`, `& 0x0F`, `& 0x07`, `& 0x3F` are the remainders modulo 32,
16, 8, 64, and `lo`, `hi` are the bounds of `acceptRanges` for the second
byte. -/
def DecodeRune (s : ByteString) : Nat × Nat :=
  match s with
  | [] => (RuneError, 0)
  | s0 :: rest =>
    if s0 < 128 then (s0, 1)
    else if s0 < 194 ∨ 244 < s0 then (RuneError, 1)
    else
      let sz := if s0 < 224 then 2 else if s0 < 240 then 3 else 4
      let lo := if s0 = 224 then 160 else if s0 = 240 then 144 else 128
      let hi := if s0 = 237 then 159 else if s0 = 244 then 143 else 191
      if s.length < sz then (RuneError, 1)
      else
        match rest with
        | [] => (RuneError, 1)
        | s1 :: rest =>
          if s1 < lo ∨ hi < s1 then (RuneError, 1)
          else if sz ≤ 2 then (s0 % 32 * 64 + s1 % 64, 2)
          else
            match rest with
            | [] => (RuneError, 1)
            | s2 :: rest =>
              if s2 < 128 ∨ 191 < s2 then (RuneError, 1)
              else if sz ≤ 3 then (s0 % 16 * 4096 + s1 % 64 * 64 + s2 % 64, 3)
              else
                match rest with
                | [] => (RuneError, 1)
                | s3 :: _ =>
                  if s3 < 128 ∨ 191 < s3 then (RuneError, 1)
                  else (s0 % 8 * 262144 + s1 % 64 * 4096 + s2 % 64 * 64 + s3 % 64, 4)

/-- Function `utf8.EncodeRune` on a Unicode scalar value: its one to four
bytes. -/
def EncodeRune (c : Char) : ByteString :=
  let i := c.toNat
  if i ≤ 127 then [i]
  else if i ≤ 2047 then [192 + i / 64, 128 + i % 64]
  else if i ≤ 65535 then [224 + i / 4096, 128 + i / 64 % 64, 128 + i % 64]
  else [240 + i / 262144, 128 + i / 4096 % 64, 128 + i / 64 % 64, 128 + i % 64]

/-- Function `utf8.ValidString` on the first `fuel` code points: no position at
which `DecodeRune` reports `(RuneError, 1)`. -/
def validStringAux : Nat → ByteString → Bool
  | 0, s => s.isEmpty
  | fuel + 1, s =>
    match s with
    | [] => true
    | _ :: _ =>
      if DecodeRune s = (RuneError, 1) then false
      else validStringAux fuel (s.drop (DecodeRune s).2)

/-- Function `utf8.ValidString`: the bytes are the UTF-8 encoding of a sequence
of code points. -/
def ValidString (s : ByteString) : Bool :=
  validStringAux s.length s

/-! ## JSON documents (`encoding/json`)

A document is held as the value it denotes: its text (indentation, escape
sequences, digits of a number) is not part of the embedding. -/

/-- A JSON value.  A number written with digits only (and a sign) is an
`integer`, a number written with a fraction or an exponent is a `decimal`; a
string is the sequence of code points it denotes. -/
inductive JSONValue where
  | null
  | bool (b : Bool)
  | integer (n : Int)
  | decimal (x : ℚ)
  | text (s : String)
  | array (items : List JSONValue)
  | object (members : List (String × JSONValue))

/-- Contents of a file as `json.Unmarshal` reads them: the text of a JSON
document, or bytes that are not one. -/
inductive FileData where
  | document (v : JSONValue)
  | malformed

/-- Record `MemoryEntry` as `encoding/json` sees it: the same fields, each
string held as its bytes. -/
structure RawMemoryEntry where
  ID : ByteString
  Typ : ByteString
  Content : ByteString
  Source : ByteString
  Keywords : List ByteString
  Timestamp : Int
  Weight : ℚ
deriving DecidableEq

/-- Record `RoundMemory` as `encoding/json` sees it. -/
structure RawRoundMemory where
  Round : Int
  Query : ByteString
  Consensus : ByteString
  KeyPoints : List ByteString
  Timestamp : Int
deriving DecidableEq

/-- Record `StockMemory` as `storage.go` and `encoding/json` see it.  The
records of the other sections are those all of whose strings are valid
UTF-8. -/
structure RawStockMemory where
  StockCode : ByteString
  StockName : ByteString
  Summary : ByteString
  KeyFacts : List RawMemoryEntry
  RecentRounds : List RawRoundMemory
  TotalRounds : Int
  CreatedAt : Int
  UpdatedAt : Int
deriving DecidableEq

/-- The `json` tags of `MemoryEntry`, in field order. -/
def entryTags : List String :=
  ["id", "type", "content", "source", "keywords", "timestamp", "weight"]

/-- The `json` tags of `RoundMemory`, in field order. -/
def roundTags : List String :=
  ["round", "query", "consensus", "key_points", "timestamp"]

/-- The `json` tags of `StockMemory`, in field order. -/
def stockTags : List String :=
  ["stock_code", "stock_name", "summary", "key_facts", "recent_rounds", "total_rounds",
    "created_at", "updated_at"]

/-- The code points of the JSON string that the encoder writes for a Go string
(loop of `appendString`), at most `fuel` of them: each code point that
`DecodeRune` finds, and U+FFFD for each byte at which it reports
`(RuneError, 1)`. -/
def validRunes : Nat → ByteString → List Char
  | 0, _ => []
  | fuel + 1, s =>
    match s with
    | [] => []
    | _ :: _ => Char.ofNat (DecodeRune s).1 :: validRunes fuel (s.drop (DecodeRune s).2)

/-- The JSON string that the encoder writes for a Go string. -/
def jsonString (s : ByteString) : String :=
  String.mk (validRunes s.length s)

/-- The Go string that the decoder stores for a JSON string: the UTF-8 encoding
of its code points. -/
def goString (s : String) : ByteString :=
  s.data.flatMap EncodeRune

/-- Encoding of a `string` field. -/
def marshalString (s : ByteString) : JSONValue :=
  JSONValue.text (jsonString s)

/-- Encoding of a `[]string` field.  A `nil` slice, which the encoder writes as
`null` and the decoder reads back as `nil`, is not told apart from an empty
one. -/
def marshalStrings (xs : List ByteString) : JSONValue :=
  JSONValue.array (xs.map marshalString)

/-- Encoding of a `float64` field: the shortest digits that read back as the
same value, without fraction or exponent for a whole number below `1e21`. -/
def marshalFloat (x : ℚ) : JSONValue :=
  if x.den = 1 ∧ |x| < 1000000000000000000000 then JSONValue.integer x.num
  else JSONValue.decimal x

/-- Encoding of a `MemoryEntry`: one member per field, named by its tag. -/
def marshalEntry (e : RawMemoryEntry) : JSONValue :=
  JSONValue.object
    (entryTags.zip
      [marshalString e.ID, marshalString e.Typ, marshalString e.Content, marshalString e.Source,
        marshalStrings e.Keywords, JSONValue.integer e.Timestamp, marshalFloat e.Weight])

/-- Encoding of a `RoundMemory`. -/
def marshalRound (r : RawRoundMemory) : JSONValue :=
  JSONValue.object
    (roundTags.zip
      [JSONValue.integer r.Round, marshalString r.Query, marshalString r.Consensus,
        marshalStrings r.KeyPoints, JSONValue.integer r.Timestamp])

/-- Encoding of a `StockMemory`. -/
def marshalStock (mem : RawStockMemory) : JSONValue :=
  JSONValue.object
    (stockTags.zip
      [marshalString mem.StockCode, marshalString mem.StockName, marshalString mem.Summary,
        JSONValue.array (mem.KeyFacts.map marshalEntry),
        JSONValue.array (mem.RecentRounds.map marshalRound),
        JSONValue.integer mem.TotalRounds, JSONValue.integer mem.CreatedAt,
        JSONValue.integer mem.UpdatedAt])

/-- Library function `json.MarshalIndent` on `*StockMemory`.  It fails only on a
weight that is NaN or infinite, values that the embedding does not have. -/
def MarshalIndent (mem : RawStockMemory) : Except Error JSONValue :=
  Except.ok (marshalStock mem)

/-- Function `foldRune` of the decoder: the least code point of the case-folding
orbit.  Beyond ASCII only U+017F (long s) and U+212A (Kelvin sign) fold to a
letter; the other code points, which fold to no letter of a tag, are left as
they are. -/
def foldRune (c : Char) : Char :=
  if 97 ≤ c.toNat ∧ c.toNat ≤ 122 then Char.ofNat (c.toNat - 32)
  else if c.toNat = 383 then Char.ofNat 83
  else if c.toNat = 8490 then Char.ofNat 75
  else c

/-- Function `foldName` of the decoder. -/
def foldName (name : String) : String :=
  String.mk (name.data.map foldRune)

/-- The field that the decoder fills for a member name: the one whose tag is the
name, or else the first one whose tag equals it under case folding; `none` for
a name that matches no field (the member is then skipped). -/
def fieldIndex (tags : List String) (key : String) : Option Nat :=
  match tags.findIdx? (fun tag => tag == key) with
  | some i => some i
  | none => tags.findIdx? (fun tag => foldName tag == foldName key)

/-- Decoding into a `string` holding `cur`: `null` leaves it as it is. -/
def decodeString (cur : ByteString) : JSONValue → Except Error ByteString
  | JSONValue.null => Except.ok cur
  | JSONValue.text s => Except.ok (goString s)
  | _ => Except.error "json: cannot unmarshal value into Go value of type string"

/-- Decoding into an `int` or `int64` holding `cur`. -/
def decodeInt (cur : Int) : JSONValue → Except Error Int
  | JSONValue.null => Except.ok cur
  | JSONValue.integer n =>
    if -9223372036854775808 ≤ n ∧ n ≤ 9223372036854775807 then Except.ok n
    else Except.error "json: cannot unmarshal number into Go value of type int64"
  | _ => Except.error "json: cannot unmarshal value into Go value of type int64"

/-- Library function `strconv.ParseFloat` on a number: the nearest `float64`,
an error when it is beyond the largest one. -/
def parseFloat (x : ℚ) : Except Error ℚ :=
  if |roundFloat64 x| < 2 ^ 1024 then Except.ok (roundFloat64 x)
  else Except.error "json: cannot unmarshal number into Go value of type float64"

/-- Decoding into a `float64` holding `cur`. -/
def decodeFloat (cur : ℚ) : JSONValue → Except Error ℚ
  | JSONValue.null => Except.ok cur
  | JSONValue.integer n => parseFloat n
  | JSONValue.decimal x => parseFloat x
  | _ => Except.error "json: cannot unmarshal value into Go value of type float64"

/-- Decoding into a `[]string` holding `cur`: an array replaces the slice, each
element decoded into an empty string. -/
def decodeStrings (cur : List ByteString) : JSONValue → Except Error (List ByteString)
  | JSONValue.null => Except.ok cur
  | JSONValue.array items => items.mapM (decodeString [])
  | _ => Except.error "json: cannot unmarshal value into Go value of type []string"

/-- The zero value of `MemoryEntry`. -/
def zeroEntry : RawMemoryEntry :=
  { ID := [], Typ := [], Content := [], Source := [], Keywords := [], Timestamp := 0, Weight := 0 }

/-- The zero value of `RoundMemory`. -/
def zeroRound : RawRoundMemory :=
  { Round := 0, Query := [], Consensus := [], KeyPoints := [], Timestamp := 0 }

/-- The zero value of `StockMemory`. -/
def zeroStock : RawStockMemory :=
  { StockCode := [], StockName := [], Summary := [], KeyFacts := [], RecentRounds := [],
    TotalRounds := 0, CreatedAt := 0, UpdatedAt := 0 }

/-- Decoding of one member of an object into a `MemoryEntry`. -/
def setEntryField (e : RawMemoryEntry) (key : String) (v : JSONValue) :
    Except Error RawMemoryEntry :=
  match fieldIndex entryTags key with
  | some 0 => (decodeString e.ID v).map fun x => { e with ID := x }
  | some 1 => (decodeString e.Typ v).map fun x => { e with Typ := x }
  | some 2 => (decodeString e.Content v).map fun x => { e with Content := x }
  | some 3 => (decodeString e.Source v).map fun x => { e with Source := x }
  | some 4 => (decodeStrings e.Keywords v).map fun x => { e with Keywords := x }
  | some 5 => (decodeInt e.Timestamp v).map fun x => { e with Timestamp := x }
  | some 6 => (decodeFloat e.Weight v).map fun x => { e with Weight := x }
  | _ => Except.ok e

/-- Decoding into a `MemoryEntry` holding `cur`: the members of an object are
taken in order, a later member of the same name replacing the earlier one. -/
def decodeEntry (cur : RawMemoryEntry) : JSONValue → Except Error RawMemoryEntry
  | JSONValue.null => Except.ok cur
  | JSONValue.object members => members.foldlM (fun e kv => setEntryField e kv.1 kv.2) cur
  | _ => Except.error "json: cannot unmarshal value into Go value of type memory.MemoryEntry"

/-- Decoding of one member of an object into a `RoundMemory`. -/
def setRoundField (r : RawRoundMemory) (key : String) (v : JSONValue) :
    Except Error RawRoundMemory :=
  match fieldIndex roundTags key with
  | some 0 => (decodeInt r.Round v).map fun x => { r with Round := x }
  | some 1 => (decodeString r.Query v).map fun x => { r with Query := x }
  | some 2 => (decodeString r.Consensus v).map fun x => { r with Consensus := x }
  | some 3 => (decodeStrings r.KeyPoints v).map fun x => { r with KeyPoints := x }
  | some 4 => (decodeInt r.Timestamp v).map fun x => { r with Timestamp := x }
  | _ => Except.ok r

/-- Decoding into a `RoundMemory` holding `cur`. -/
def decodeRound (cur : RawRoundMemory) : JSONValue → Except Error RawRoundMemory
  | JSONValue.null => Except.ok cur
  | JSONValue.object members => members.foldlM (fun r kv => setRoundField r kv.1 kv.2) cur
  | _ => Except.error "json: cannot unmarshal value into Go value of type memory.RoundMemory"

/-- Decoding into a `[]MemoryEntry` holding `cur`: an array replaces the slice,
each element decoded into a zero entry (the documented behaviour: the length is
reset to zero and the elements are appended). -/
def decodeEntries (cur : List RawMemoryEntry) : JSONValue → Except Error (List RawMemoryEntry)
  | JSONValue.null => Except.ok cur
  | JSONValue.array items => items.mapM (decodeEntry zeroEntry)
  | _ => Except.error "json: cannot unmarshal value into Go value of type []memory.MemoryEntry"

/-- Decoding into a `[]RoundMemory` holding `cur`. -/
def decodeRounds (cur : List RawRoundMemory) : JSONValue → Except Error (List RawRoundMemory)
  | JSONValue.null => Except.ok cur
  | JSONValue.array items => items.mapM (decodeRound zeroRound)
  | _ => Except.error "json: cannot unmarshal value into Go value of type []memory.RoundMemory"

/-- Decoding of one member of an object into a `StockMemory`. -/
def setStockField (mem : RawStockMemory) (key : String) (v : JSONValue) :
    Except Error RawStockMemory :=
  match fieldIndex stockTags key with
  | some 0 => (decodeString mem.StockCode v).map fun x => { mem with StockCode := x }
  | some 1 => (decodeString mem.StockName v).map fun x => { mem with StockName := x }
  | some 2 => (decodeString mem.Summary v).map fun x => { mem with Summary := x }
  | some 3 => (decodeEntries mem.KeyFacts v).map fun x => { mem with KeyFacts := x }
  | some 4 => (decodeRounds mem.RecentRounds v).map fun x => { mem with RecentRounds := x }
  | some 5 => (decodeInt mem.TotalRounds v).map fun x => { mem with TotalRounds := x }
  | some 6 => (decodeInt mem.CreatedAt v).map fun x => { mem with CreatedAt := x }
  | some 7 => (decodeInt mem.UpdatedAt v).map fun x => { mem with UpdatedAt := x }
  | _ => Except.ok mem

/-- Library function `json.Unmarshal` into a zero `StockMemory`, as `Load` calls
it.  A value of the wrong kind for its field makes the call return an error. -/
def Unmarshal (data : FileData) : Except Error RawStockMemory :=
  match data with
  | FileData.malformed => Except.error "invalid character looking for beginning of value"
  | FileData.document JSONValue.null => Except.ok zeroStock
  | FileData.document (JSONValue.object members) =>
    members.foldlM (fun mem kv => setStockField mem kv.1 kv.2) zeroStock
  | FileData.document _ =>
    Except.error "json: cannot unmarshal value into Go value of type memory.StockMemory"

/-- The values of a Go `int` or `int64`. -/
def isInt64 (n : Int) : Prop :=
  -9223372036854775808 ≤ n ∧ n ≤ 9223372036854775807

/-- The finite values of a Go `float64`. -/
def isFloat64 (x : ℚ) : Prop :=
  roundFloat64 x = x ∧ |x| < 2 ^ 1024

/-- Every string of the entry is valid UTF-8. -/
def RawMemoryEntry.Valid (e : RawMemoryEntry) : Prop :=
  ValidString e.ID = true ∧ ValidString e.Typ = true ∧ ValidString e.Content = true ∧
  ValidString e.Source = true ∧ ∀ s ∈ e.Keywords, ValidString s = true

/-- The numbers of the entry are values of their Go types. -/
def RawMemoryEntry.Typed (e : RawMemoryEntry) : Prop :=
  isInt64 e.Timestamp ∧ isFloat64 e.Weight

/-- Every string of the round is valid UTF-8. -/
def RawRoundMemory.Valid (r : RawRoundMemory) : Prop :=
  ValidString r.Query = true ∧ ValidString r.Consensus = true ∧
  ∀ s ∈ r.KeyPoints, ValidString s = true

/-- The numbers of the round are values of their Go types. -/
def RawRoundMemory.Typed (r : RawRoundMemory) : Prop :=
  isInt64 r.Round ∧ isInt64 r.Timestamp

/-- Every string of the record, of its facts and of its rounds is valid
UTF-8. -/
def RawStockMemory.Valid (mem : RawStockMemory) : Prop :=
  ValidString mem.StockCode = true ∧ ValidString mem.StockName = true ∧
  ValidString mem.Summary = true ∧ (∀ e ∈ mem.KeyFacts, e.Valid) ∧
  ∀ r ∈ mem.RecentRounds, r.Valid

/-- The numbers of the record, of its facts and of its rounds are values of
their Go types. -/
def RawStockMemory.Typed (mem : RawStockMemory) : Prop :=
  isInt64 mem.TotalRounds ∧ isInt64 mem.CreatedAt ∧ isInt64 mem.UpdatedAt ∧
  (∀ e ∈ mem.KeyFacts, e.Typed) ∧ ∀ r ∈ mem.RecentRounds, r.Typed

/-! ## File storage (`storage.go`) -/

/-- The files of the host, by path, and the paths on which `os.WriteFile`
fails.  A read succeeds exactly on the paths that hold a file, and returns what
was last written there (a file that can be written but not read, and other
failures of reading, are not modelled). -/
structure FileSystem where
  files : ByteString → Option FileData
  writeError : ByteString → Option Error

/-- Library function `os.ReadFile`. -/
def ReadFile (disk : FileSystem) (path : ByteString) : Except Error FileData :=
  match disk.files path with
  | some data => Except.ok data
  | none => Except.error "no such file or directory"

/-- Library function `os.WriteFile`: the error result and the files afterwards
(a failed write is taken to leave the files as they were). -/
def WriteFile (disk : FileSystem) (path : ByteString) (data : FileData) :
    Option Error × FileSystem :=
  match disk.writeError path with
  | some err => (some err, disk)
  | none => (none, { disk with files := fun p => if p = path then some data else disk.files p })

/-- Record `FileStorage` with the files it works on: the directory, the cache by
subject code, and the files of the host.  `join` is the library function
`filepath.Join`. -/
structure FileStorage where
  dir : ByteString
  cache : ByteString → Option RawStockMemory
  disk : FileSystem
  join : ByteString → ByteString → ByteString

/-- Method `FileStorage.getPath`. -/
def FileStorage.getPath (s : FileStorage) (stockCode : ByteString) : ByteString :=
  s.join s.dir (stockCode ++ goString ".json")

/-- Method `FileStorage.Load`: cache first, then the file. -/
def FileStorage.Load (s : FileStorage) (stockCode : ByteString) :
    Except Error RawStockMemory × FileStorage :=
  match s.cache stockCode with
  | some mem => (Except.ok mem, s)
  | none =>
    match ReadFile s.disk (s.getPath stockCode) with
    | Except.error err => (Except.error err, s)
    | Except.ok data =>
      match Unmarshal data with
      | Except.error err => (Except.error err, s)
      | Except.ok mem =>
        (Except.ok mem,
          { s with cache := fun code => if code = stockCode then some mem else s.cache code })

/-- Method `FileStorage.Save`: serialize, write the file, then update the
cache. -/
def FileStorage.Save (s : FileStorage) (mem : RawStockMemory) : Option Error × FileStorage :=
  match MarshalIndent mem with
  | Except.error err => (some err, s)
  | Except.ok data =>
    let written := WriteFile s.disk (s.getPath mem.StockCode) (FileData.document data)
    match written.1 with
    | some err => (some err, { s with disk := written.2 })
    | none =>
      (none,
        { s with
          disk := written.2
          cache := fun code => if code = mem.StockCode then some mem else s.cache code })

/-- Method `FileStorage.Invalidate`. -/
def FileStorage.Invalidate (s : FileStorage) (stockCode : ByteString) : FileStorage :=
  { s with cache := fun code => if code = stockCode then none else s.cache code }

/-- The round numbering invariant of a record: the rounds of `RecentRounds`
carry the consecutive numbers `TotalRounds - len + 1, ..., TotalRounds`, in this
order. -/
def consecutiveRounds (mem : StockMemory) : Prop :=
  ∀ (i : Nat) (round : RoundMemory), mem.RecentRounds[i]? = some round →
    round.Round = mem.TotalRounds - (mem.RecentRounds.length : Int) + 1 + (i : Int)

/-! ## Sample collaborators, used to instantiate the theorems -/

/-- A backend that holds no record and accepts every save. -/
def nullStorage : Storage Unit :=
  { Load := fun st _ => (Except.error "not found", st)
    Save := fun st _ => (none, st)
    Delete := fun st _ => (none, st)
    List := fun st => (Except.ok [], st) }

/-- A backend that holds no record and refuses every save. -/
def failingStorage : Storage Unit :=
  { Load := fun st _ => (Except.error "not found", st)
    Save := fun st _ => (some "disk full", st)
    Delete := fun st _ => (some "disk full", st)
    List := fun st => (Except.error "disk full", st) }

/-- A tokenizer for which the whole text is its only keyword. -/
def wholeTokenizer : Tokenizer :=
  { Extract := fun text _ => [text]
    Cut := fun text => [text] }

/-- A summarizer that always succeeds, with the given summary. -/
def constSummarizer (summary : String) : Summarizer :=
  { SummarizeRounds := fun _ => Except.ok summary
    ExtractFacts := fun _ _ => Except.ok []
    ExtractKeyPoints := fun _ => Except.ok [] }

/-- A summarizer whose every call fails. -/
def failingSummarizer : Summarizer :=
  { SummarizeRounds := fun _ => Except.error "llm unavailable"
    ExtractFacts := fun _ _ => Except.error "llm unavailable"
    ExtractKeyPoints := fun _ => Except.error "llm unavailable" }

/-- A manager over `nullStorage` and `wholeTokenizer`. -/
def sampleManager (config : Config) (summarizer : Option Summarizer) : Manager Unit :=
  { config := config
    storage := nullStorage
    tokenizer := wholeTokenizer
    relevance := NewRelevance wholeTokenizer
    summarizer := summarizer
    dataDir := "data" }

/-- An implementation of `sort.Slice` by insertion, which keeps elements that
compare equal in their original order (what Go's implementation does on a slice
of at most 12 elements). -/
def insertionSorter : SliceSorter :=
  { sort := fun less xs => List.insertionSort (fun a b => less b a = false) xs }

/-- An `AddRound` call for the question `query`, at clock reading `now`. -/
def sampleCall (query : String) (now : Int) (summarizer : Option Summarizer) : RoundCall :=
  { query := query
    consensus := "hold"
    keyPoints := []
    now := now
    saveNow := now + 1
    summarizer := summarizer }

/-- The round numbered `n`. -/
def sampleRound (n : Int) : RoundMemory :=
  { Round := n
    Query := "outlook?"
    Consensus := "hold"
    KeyPoints := ["earnings"]
    Timestamp := 1000 * n }

/-- A record of subject `AAA` with summary `old`, holding rounds 1 to 4 of 4. -/
def sampleRecord : StockMemory :=
  { NewStockMemory 0 "AAA" "Alpha" with
    Summary := "old"
    RecentRounds := [sampleRound 1, sampleRound 2, sampleRound 3, sampleRound 4]
    TotalRounds := 4 }

/-- A fact with the given content, keywords, timestamp and weight. -/
def sampleFact (content : String) (keywords : List String) (timestamp : Int) (weight : ℚ) :
    MemoryEntry :=
  { ID := "f"
    Typ := "fact"
    Content := content
    Source := "analyst"
    Keywords := keywords
    Timestamp := timestamp
    Weight := weight }

/-- A time format that prints every instant as the same day and minute. -/
def sampleLayout : TimeFormat :=
  { Date := fun _ => "2024-01-01"
    DateTime := fun _ => "2024-01-01 09:30" }

/-- A file storage on an empty directory, where every write succeeds and
`filepath.Join` puts a slash between its arguments. -/
def sampleFileStorage : FileStorage :=
  { dir := goString "data/memories"
    cache := fun _ => none
    disk := { files := fun _ => none, writeError := fun _ => none }
    join := fun dir name => dir ++ [47] ++ name }

/-- A stored fact. -/
def sampleStoredFact : RawMemoryEntry :=
  { ID := goString "f1", Typ := goString "fact", Content := goString "rates rise",
    Source := goString "analyst", Keywords := [goString "rates"], Timestamp := 1000,
    Weight := 3 / 4 }

/-- A stored round. -/
def sampleStoredRound : RawRoundMemory :=
  { Round := 1, Query := goString "q?", Consensus := goString "hold", KeyPoints := [],
    Timestamp := 2000 }

/-- A stored record with a summary in Chinese, one fact and one round. -/
def sampleStored : RawStockMemory :=
  { StockCode := goString "AAA"
    StockName := goString "Alpha"
    Summary := goString "利率上升"
    KeyFacts := [sampleStoredFact]
    RecentRounds := [sampleStoredRound]
    TotalRounds := 1
    CreatedAt := 500
    UpdatedAt := 2000 }

/-- A stored record whose summary is the single byte `0xFF`, which is not valid
UTF-8. -/
def invalidStored : RawStockMemory :=
  { zeroStock with StockCode := goString "AAA", StockName := goString "Alpha", Summary := [255] }

/-- Thirteen facts about rates, stamped at `0` with weight `1`: the second one
also carries the keyword `rates`, the others mention it in their content only. -/
def tieFacts : List MemoryEntry :=
  [sampleFact "rates a" [] 0 1, sampleFact "rates b" ["rates"] 0 1,
    sampleFact "rates c" [] 0 1, sampleFact "rates d" [] 0 1, sampleFact "rates e" [] 0 1,
    sampleFact "rates f" [] 0 1, sampleFact "rates g" [] 0 1, sampleFact "rates h" [] 0 1,
    sampleFact "rates i" [] 0 1, sampleFact "rates j" [] 0 1, sampleFact "rates k" [] 0 1,
    sampleFact "rates l" [] 0 1, sampleFact "rates m" [] 0 1]

/-! ## Auxiliary facts about lists and 64-bit arithmetic -/

theorem wrapInt_of_range (x : Int) (h1 : -9223372036854775808 ≤ x)
    (h2 : x < 9223372036854775808) : wrapInt x = x := by
  unfold wrapInt
  omega

theorem sliceFrom_of_le {α : Type} (xs : List α) (k : Int) (h0 : 0 ≤ k)
    (hk : k ≤ (xs.length : Int)) :
    sliceFrom xs ((xs.length : Int) - k) = some (lastN k.toNat xs) := by
  unfold sliceFrom lastN
  have hidx : ((xs.length : Int) - k).toNat = xs.length - k.toNat := by omega
  rw [if_pos (by omega), hidx]

theorem sliceTo_of_le {α : Type} (xs : List α) (k : Int) (h0 : 0 ≤ k)
    (hk : k ≤ (xs.length : Int)) :
    sliceTo xs ((xs.length : Int) - k) = some (xs.take (xs.length - k.toNat)) := by
  unfold sliceTo
  have hidx : ((xs.length : Int) - k).toNat = xs.length - k.toNat := by omega
  rw [if_pos (by omega), hidx]

theorem sliceFrom_of_neg {α : Type} (xs : List α) (k : Int) (hk : k < 0) :
    sliceFrom xs ((xs.length : Int) - k) = none := by
  unfold sliceFrom
  rw [if_neg (by omega)]

theorem lastN_of_length_le {α : Type} (k : Nat) (xs : List α) (h : xs.length ≤ k) :
    lastN k xs = xs := by
  unfold lastN
  rw [Nat.sub_eq_zero_of_le h, List.drop_zero]

theorem length_lastN {α : Type} (k : Nat) (xs : List α) :
    (lastN k xs).length = min k xs.length := by
  unfold lastN
  rw [List.length_drop]
  omega

theorem lastN_min {α : Type} (k : Nat) (xs : List α) :
    lastN (min k xs.length) xs = lastN k xs := by
  unfold lastN
  congr 1
  omega

theorem lastN_map {α β : Type} (g : α → β) (k : Nat) (xs : List α) :
    lastN k (xs.map g) = (lastN k xs).map g := by
  unfold lastN
  rw [List.length_map, List.map_drop]

theorem lastN_lastN_append {α : Type} (k : Nat) (xs ys : List α) :
    lastN k (lastN k xs ++ ys) = lastN k (xs ++ ys) := by
  unfold lastN
  have e : List.drop (xs.length - k) xs ++ ys = List.drop (xs.length - k) (xs ++ ys) :=
    (List.drop_append_of_le_length (Nat.sub_le _ _)).symm
  rw [e, List.drop_drop]
  congr 1
  simp only [List.length_drop, List.length_append]
  omega

/-! ## Fact bounding -/

theorem AddFacts_eq {σ : Type} (m : Manager σ) (mem : StockMemory) (facts : List MemoryEntry)
    (h : 0 ≤ m.config.MaxKeyFacts) :
    AddFacts m mem facts =
      ({ mem with KeyFacts := lastN m.config.MaxKeyFacts.toNat (mem.KeyFacts ++ facts) },
        true) := by
  unfold AddFacts
  by_cases hlen : ((mem.KeyFacts ++ facts).length : Int) > m.config.MaxKeyFacts
  · simp only [hlen, if_true]
    rw [sliceFrom_of_le _ _ h (le_of_lt hlen)]
  · simp only [hlen, if_false]
    rw [lastN_of_length_le _ _ (by omega)]

theorem AddFactsAll_eq {σ : Type} (m : Manager σ) (h : 0 ≤ m.config.MaxKeyFacts)
    (rest : List (List MemoryEntry)) :
    ∀ (mem : StockMemory) (first : List MemoryEntry),
      AddFactsAll m mem (first :: rest) =
        ({ mem with
            KeyFacts :=
              lastN m.config.MaxKeyFacts.toNat (mem.KeyFacts ++ (first :: rest).flatten) },
          true) := by
  induction rest with
  | nil =>
    intro mem first
    simp [AddFactsAll, AddFacts_eq m mem first h]
  | cons second rest ih =>
    intro mem first
    rw [AddFactsAll, AddFacts_eq m mem first h]
    simp only [ih, Bool.and_self]
    rw [lastN_lastN_append]
    simp [List.append_assoc]

/-- C1: with `MaxKeyFacts >= 0`, every call of a non-empty sequence of `AddFacts`
calls returns, and afterwards `KeyFacts` is exactly the trailing
`min(MaxKeyFacts, total)` entries of the initial facts followed by all batches,
in their original order; so it holds at most `MaxKeyFacts` entries; the other
fields are untouched; and the selection commutes with any rewriting `g` of the
entries (for instance of their weights), so no weight influences what is
dropped. -/
theorem AddFacts_keeps_trailing {σ : Type} (m : Manager σ) (mem : StockMemory)
    (first : List MemoryEntry) (rest : List (List MemoryEntry))
    (hmax : 0 ≤ m.config.MaxKeyFacts) :
    (AddFactsAll m mem (first :: rest)).2 = true ∧
    (AddFactsAll m mem (first :: rest)).1.KeyFacts =
      lastN (min m.config.MaxKeyFacts.toNat (mem.KeyFacts ++ (first :: rest).flatten).length)
        (mem.KeyFacts ++ (first :: rest).flatten) ∧
    ((AddFactsAll m mem (first :: rest)).1.KeyFacts.length : Int) ≤ m.config.MaxKeyFacts ∧
    (AddFactsAll m mem (first :: rest)).1 =
      { mem with KeyFacts := (AddFactsAll m mem (first :: rest)).1.KeyFacts } ∧
    ∀ g : MemoryEntry → MemoryEntry,
      (AddFactsAll m { mem with KeyFacts := mem.KeyFacts.map g }
          ((first :: rest).map (List.map g))).1.KeyFacts =
        (AddFactsAll m mem (first :: rest)).1.KeyFacts.map g := by
  refine ⟨?_, ?_, ?_, ?_, ?_⟩
  · rw [AddFactsAll_eq m hmax]
  · rw [AddFactsAll_eq m hmax, lastN_min]
  · rw [AddFactsAll_eq m hmax]
    simp only [length_lastN]
    omega
  · rw [AddFactsAll_eq m hmax]
  · intro g
    rw [List.map_cons, AddFactsAll_eq m hmax, AddFactsAll_eq m hmax]
    simp only
    rw [← lastN_map, List.map_append, List.map_flatten, List.map_cons]

/-- C1 at `MaxKeyFacts = 2`: three facts arrive in two batches on a record that
already holds one. -/
theorem AddFacts_keeps_trailing_witness :
    (0 : Int) ≤ (sampleManager { DefaultConfig with MaxKeyFacts := 2 } none).config.MaxKeyFacts ∧
    (AddFactsAll (sampleManager { DefaultConfig with MaxKeyFacts := 2 } none)
        { NewStockMemory 0 "AAA" "Alpha" with KeyFacts := [sampleFact "a" [] 0 1] }
        ([sampleFact "b" [] 0 0] :: [[sampleFact "c" [] 0 (1 / 2), sampleFact "d" [] 0 0]])).1.KeyFacts
      = [sampleFact "c" [] 0 (1 / 2), sampleFact "d" [] 0 0] := by
  refine ⟨by decide, ?_⟩
  rw [(AddFacts_keeps_trailing (sampleManager { DefaultConfig with MaxKeyFacts := 2 } none)
    { NewStockMemory 0 "AAA" "Alpha" with KeyFacts := [sampleFact "a" [] 0 1] }
    [sampleFact "b" [] 0 0] [[sampleFact "c" [] 0 (1 / 2), sampleFact "d" [] 0 0]]
    (by decide)).2.1]
  rfl

/-! ## Compression and round ingestion -/

theorem compress_of_le {σ : Type} (m : Manager σ) (mem : StockMemory)
    (h : (mem.RecentRounds.length : Int) ≤ m.config.MaxRecentRounds) :
    compress m mem = (mem, Status.returned none) := by
  unfold compress
  simp only [h, if_true]

theorem compress_of_neg {σ : Type} (m : Manager σ) (mem : StockMemory)
    (h : m.config.MaxRecentRounds < 0) :
    compress m mem = (mem, Status.aborted) := by
  unfold compress
  rw [if_neg (by omega), sliceFrom_of_neg _ _ h]
  cases sliceTo mem.RecentRounds ((mem.RecentRounds.length : Int) - m.config.MaxRecentRounds) <;>
    rfl

theorem compress_of_lt {σ : Type} (m : Manager σ) (mem : StockMemory)
    (h0 : 0 ≤ m.config.MaxRecentRounds)
    (h : m.config.MaxRecentRounds < (mem.RecentRounds.length : Int)) :
    compress m mem =
      match m.summarizer with
      | none =>
        ({ mem with RecentRounds := lastN m.config.MaxRecentRounds.toNat mem.RecentRounds },
          Status.returned none)
      | some summarizer =>
        match summarizer.SummarizeRounds
            (mem.RecentRounds.take
              (mem.RecentRounds.length - m.config.MaxRecentRounds.toNat)) with
        | Except.error err => (mem, Status.returned (some err))
        | Except.ok newSummary =>
          match mergeSummaries m mem.Summary newSummary with
          | some merged =>
            ({ mem with
                Summary := merged
                RecentRounds := lastN m.config.MaxRecentRounds.toNat mem.RecentRounds },
              Status.returned none)
          | none => (mem, Status.aborted) := by
  unfold compress
  rw [if_neg (by omega), sliceTo_of_le _ _ h0 (le_of_lt h), sliceFrom_of_le _ _ h0 (le_of_lt h)]

theorem compress_total {σ : Type} (m : Manager σ) (mem : StockMemory) :
    (compress m mem).1.TotalRounds = mem.TotalRounds := by
  by_cases hle : (mem.RecentRounds.length : Int) ≤ m.config.MaxRecentRounds
  · rw [compress_of_le m mem hle]
  · by_cases hneg : m.config.MaxRecentRounds < 0
    · rw [compress_of_neg m mem hneg]
    · rw [compress_of_lt m mem (by omega) (by omega)]
      cases m.summarizer with
      | none => rfl
      | some summarizer =>
        simp only
        cases summarizer.SummarizeRounds _ with
        | error err => rfl
        | ok newSummary =>
          simp only
          cases mergeSummaries m mem.Summary newSummary <;> rfl

theorem compressCheck_total {σ : Type} (m : Manager σ) (mem : StockMemory) :
    (compressCheck m mem).1.TotalRounds = mem.TotalRounds := by
  unfold compressCheck
  split_ifs
  · exact compress_total m mem
  · rfl

theorem AddRound_of_returned {σ : Type} (m : Manager σ) (now saveNow : Int) (st : σ)
    (mem : StockMemory) (query consensus : String) (keyPoints : List String)
    (err : Option Error)
    (h : (compressCheck m (appendRound mem now query consensus keyPoints)).2 =
      Status.returned err) :
    AddRound m now saveNow st mem query consensus keyPoints =
      ({ (compressCheck m (appendRound mem now query consensus keyPoints)).1 with
          UpdatedAt := saveNow },
        Status.returned (m.storage.Save st
          { (compressCheck m (appendRound mem now query consensus keyPoints)).1 with
            UpdatedAt := saveNow }).1,
        (m.storage.Save st
          { (compressCheck m (appendRound mem now query consensus keyPoints)).1 with
            UpdatedAt := saveNow }).2) := by
  unfold AddRound
  simp only [h]
  rfl

theorem AddRound_of_aborted {σ : Type} (m : Manager σ) (now saveNow : Int) (st : σ)
    (mem : StockMemory) (query consensus : String) (keyPoints : List String)
    (h : (compressCheck m (appendRound mem now query consensus keyPoints)).2 =
      Status.aborted) :
    AddRound m now saveNow st mem query consensus keyPoints =
      ((compressCheck m (appendRound mem now query consensus keyPoints)).1,
        Status.aborted, st) := by
  unfold AddRound
  simp only [h]

theorem AddRound_total {σ : Type} (m : Manager σ) (now saveNow : Int) (st : σ)
    (mem : StockMemory) (query consensus : String) (keyPoints : List String) :
    (AddRound m now saveNow st mem query consensus keyPoints).1.TotalRounds =
      wrapInt (mem.TotalRounds + 1) := by
  have hc := compressCheck_total m (appendRound mem now query consensus keyPoints)
  cases h : (compressCheck m (appendRound mem now query consensus keyPoints)).2 with
  | returned err =>
    rw [AddRound_of_returned m now saveNow st mem query consensus keyPoints err h]
    exact hc
  | aborted =>
    rw [AddRound_of_aborted m now saveNow st mem query consensus keyPoints h]
    exact hc

theorem wrapInt_double (k : Int) (h0 : 0 ≤ k) (h1 : k < 4611686018427387904) :
    wrapInt (k * 2) = k * 2 :=
  wrapInt_of_range _ (by omega) (by omega)

theorem mergeSummaries_of_nonneg {σ : Type} (m : Manager σ) (old new : String)
    (hold : old ≠ "") (hnew : new ≠ "")
    (h : 0 ≤ wrapInt (m.config.MaxSummaryLength * 2)) :
    mergeSummaries m old new =
      some (if ((old ++ "\n" ++ new).length : Int) ≤ wrapInt (m.config.MaxSummaryLength * 2)
        then old ++ "\n" ++ new
        else String.mk (lastN (wrapInt (m.config.MaxSummaryLength * 2)).toNat
          (old ++ "\n" ++ new).data)) := by
  have hl : ((old ++ "\n" ++ new).length : Int) = ((old ++ "\n" ++ new).data.length : Int) :=
    rfl
  unfold mergeSummaries
  rw [if_neg hold, if_neg hnew, hl]
  simp only
  by_cases hlen :
      ((old ++ "\n" ++ new).data.length : Int) > wrapInt (m.config.MaxSummaryLength * 2)
  · rw [if_pos hlen, if_neg (by omega), sliceFrom_of_le _ _ h (le_of_lt hlen)]
    rfl
  · rw [if_neg hlen, if_pos (by omega)]

theorem mergeSummaries_of_neg {σ : Type} (m : Manager σ) (old new : String)
    (hold : old ≠ "") (hnew : new ≠ "")
    (h : wrapInt (m.config.MaxSummaryLength * 2) < 0) :
    mergeSummaries m old new = none := by
  unfold mergeSummaries
  rw [if_neg hold, if_neg hnew]
  simp only
  rw [if_pos (by omega), sliceFrom_of_neg _ _ h]
  rfl

theorem mergeSummaries_isSome {σ : Type} (m : Manager σ) (old new : String)
    (h : 0 ≤ wrapInt (m.config.MaxSummaryLength * 2)) :
    ∃ merged, mergeSummaries m old new = some merged := by
  by_cases hold : old = ""
  · exact ⟨new, by unfold mergeSummaries; rw [if_pos hold]⟩
  · by_cases hnew : new = ""
    · exact ⟨old, by unfold mergeSummaries; rw [if_neg hold, if_pos hnew]⟩
    · exact ⟨_, mergeSummaries_of_nonneg m old new hold hnew h⟩

theorem compress_returns {σ : Type} (m : Manager σ) (mem : StockMemory)
    (h0 : 0 ≤ m.config.MaxRecentRounds)
    (h : 0 ≤ wrapInt (m.config.MaxSummaryLength * 2) ∨ m.summarizer = none) :
    ∃ err, (compress m mem).2 = Status.returned err := by
  by_cases hle : (mem.RecentRounds.length : Int) ≤ m.config.MaxRecentRounds
  · exact ⟨none, by rw [compress_of_le m mem hle]⟩
  · rw [compress_of_lt m mem h0 (by omega)]
    cases hs : m.summarizer with
    | none => exact ⟨none, rfl⟩
    | some summarizer =>
      have hm : 0 ≤ wrapInt (m.config.MaxSummaryLength * 2) := by
        rcases h with h | h
        · exact h
        · rw [hs] at h
          exact absurd h (by simp)
      simp only
      cases summarizer.SummarizeRounds _ with
      | error err => exact ⟨some err, rfl⟩
      | ok newSummary =>
        obtain ⟨merged, hmerged⟩ := mergeSummaries_isSome m mem.Summary newSummary hm
        simp only [hmerged]
        exact ⟨none, rfl⟩

theorem compressCheck_returns {σ : Type} (m : Manager σ) (mem : StockMemory)
    (h0 : 0 ≤ m.config.MaxRecentRounds)
    (h : 0 ≤ wrapInt (m.config.MaxSummaryLength * 2) ∨ m.summarizer = none) :
    ∃ err, (compressCheck m mem).2 = Status.returned err := by
  unfold compressCheck
  split_ifs
  · exact compress_returns m mem h0 h
  · exact ⟨none, rfl⟩

theorem AddRound_status {σ : Type} (m : Manager σ) (now saveNow : Int) (st : σ)
    (mem : StockMemory) (query consensus : String) (keyPoints : List String)
    (h0 : 0 ≤ m.config.MaxRecentRounds)
    (h : 0 ≤ wrapInt (m.config.MaxSummaryLength * 2) ∨ m.summarizer = none) :
    ∃ err, (AddRound m now saveNow st mem query consensus keyPoints).2.1 =
      Status.returned err := by
  obtain ⟨err, herr⟩ :=
    compressCheck_returns m (appendRound mem now query consensus keyPoints) h0 h
  rw [AddRound_of_returned m now saveNow st mem query consensus keyPoints err herr]
  exact ⟨_, rfl⟩

theorem AddRoundAll_total {σ : Type} (m : Manager σ) (calls : List RoundCall) :
    ∀ (st : σ) (mem : StockMemory), 0 ≤ mem.TotalRounds →
      mem.TotalRounds + (calls.length : Int) < 9223372036854775808 →
      (AddRoundAll m st mem calls).1.TotalRounds = mem.TotalRounds + (calls.length : Int) := by
  induction calls with
  | nil =>
    intro st mem _ _
    simp [AddRoundAll]
  | cons call rest ih =>
    intro st mem h0 hlt
    rw [List.length_cons] at hlt ⊢
    have hstep := AddRound_total { m with summarizer := call.summarizer } call.now
      call.saveNow st mem call.query call.consensus call.keyPoints
    rw [wrapInt_of_range _ (by omega) (by omega)] at hstep
    rw [AddRoundAll]
    simp only
    rw [ih _ _ (by omega) (by omega), hstep]
    omega

theorem AddRoundAll_statuses {σ : Type} (m : Manager σ) (calls : List RoundCall)
    (h0 : 0 ≤ m.config.MaxRecentRounds)
    (h : 0 ≤ wrapInt (m.config.MaxSummaryLength * 2) ∨
      ∀ call ∈ calls, call.summarizer = none) :
    ∀ (st : σ) (mem : StockMemory),
      (AddRoundAll m st mem calls).2.1.length = calls.length ∧
      ∀ status ∈ (AddRoundAll m st mem calls).2.1, ∃ err, status = Status.returned err := by
  induction calls with
  | nil =>
    intro st mem
    simp [AddRoundAll]
  | cons call rest ih =>
    intro st mem
    have hrest : 0 ≤ wrapInt (m.config.MaxSummaryLength * 2) ∨
        ∀ c ∈ rest, c.summarizer = none := by
      rcases h with h | h
      · exact Or.inl h
      · exact Or.inr fun c hc => h c (List.mem_cons_of_mem _ hc)
    have hcall : 0 ≤ wrapInt (m.config.MaxSummaryLength * 2) ∨
        ({ m with summarizer := call.summarizer } : Manager σ).summarizer = none := by
      rcases h with h | h
      · exact Or.inl h
      · exact Or.inr (h call (List.mem_cons_self _ _))
    obtain ⟨hlen, hall⟩ := ih hrest
      (AddRound { m with summarizer := call.summarizer } call.now call.saveNow st mem
        call.query call.consensus call.keyPoints).2.2
      (AddRound { m with summarizer := call.summarizer } call.now call.saveNow st mem
        call.query call.consensus call.keyPoints).1
    rw [AddRoundAll]
    simp only [List.length_cons, List.mem_cons]
    refine ⟨by rw [hlen], ?_⟩
    rintro status (rfl | hmem)
    · exact AddRound_status { m with summarizer := call.summarizer } call.now call.saveNow st
        mem call.query call.consensus call.keyPoints h0 hcall
    · exact hall status hmem

/-- C2: starting from a record with `TotalRounds = 0`, after `N` calls of
`AddRound` (`N` a count a Go `int` can hold) the record has `TotalRounds = N`,
whatever the configuration, the summarizer configured at each call, its success
or failure, the compressions that ran and the outcome of each save; every call
is accounted for, and with `MaxRecentRounds >= 0` every call returns as soon as
the summary budget does not overflow or no summarizer is configured. -/
theorem AddRound_counts_rounds {σ : Type} (m : Manager σ) (st : σ) (mem : StockMemory)
    (calls : List RoundCall) (hfresh : mem.TotalRounds = 0)
    (hmax : 0 ≤ m.config.MaxRecentRounds)
    (hN : (calls.length : Int) < 9223372036854775808) :
    (AddRoundAll m st mem calls).1.TotalRounds = (calls.length : Int) ∧
    (AddRoundAll m st mem calls).2.1.length = calls.length ∧
    (((0 ≤ m.config.MaxSummaryLength ∧ m.config.MaxSummaryLength < 4611686018427387904) ∨
        ∀ call ∈ calls, call.summarizer = none) →
      ∀ status ∈ (AddRoundAll m st mem calls).2.1, ∃ err, status = Status.returned err) := by
  have htotal := AddRoundAll_total m calls st mem (by omega) (by omega)
  rw [hfresh, zero_add] at htotal
  refine ⟨htotal, ?_, ?_⟩
  · clear htotal hfresh hN
    induction calls generalizing st mem with
    | nil => simp [AddRoundAll]
    | cons call rest ih =>
      rw [AddRoundAll]
      simp only [List.length_cons]
      rw [ih]
  · intro h
    refine (AddRoundAll_statuses m calls hmax ?_ st mem).2
    rcases h with ⟨h1, h2⟩ | h
    · left
      rw [wrapInt_double _ h1 h2]
      omega
    · exact Or.inr h

/-- C2 on six calls with thresholds 2 and 1, where the summarizer is in turn
absent, failing and succeeding, over a backend refusing every save. -/
theorem AddRound_counts_rounds_witness :
    (AddRoundAll
        ({ sampleManager { DefaultConfig with MaxRecentRounds := 1, CompressThreshold := 2 } none
            with storage := failingStorage })
        () (NewStockMemory 0 "AAA" "Alpha")
        [sampleCall "q1" 10 none, sampleCall "q2" 20 (some failingSummarizer),
          sampleCall "q3" 30 (some (constSummarizer "s")), sampleCall "q4" 40 none,
          sampleCall "q5" 50 (some (constSummarizer "t")),
          sampleCall "q6" 60 (some failingSummarizer)]).1.TotalRounds = 6 :=
  (AddRound_counts_rounds
    ({ sampleManager { DefaultConfig with MaxRecentRounds := 1, CompressThreshold := 2 } none
        with storage := failingStorage })
    () (NewStockMemory 0 "AAA" "Alpha")
    [sampleCall "q1" 10 none, sampleCall "q2" 20 (some failingSummarizer),
      sampleCall "q3" 30 (some (constSummarizer "s")), sampleCall "q4" 40 none,
      sampleCall "q5" 50 (some (constSummarizer "t")),
      sampleCall "q6" 60 (some failingSummarizer)]
    rfl (by decide) (by decide)).1

theorem compress_ok_record {σ : Type} (m : Manager σ) (mem : StockMemory)
    (h0 : 0 ≤ m.config.MaxRecentRounds)
    (h : m.config.MaxRecentRounds < (mem.RecentRounds.length : Int))
    (hok : (compress m mem).2 = Status.returned none) :
    (compress m mem).1 =
      { mem with
          Summary := (compress m mem).1.Summary
          RecentRounds := lastN m.config.MaxRecentRounds.toNat mem.RecentRounds } := by
  rw [compress_of_lt m mem h0 h] at hok ⊢
  cases hs : m.summarizer with
  | none => rfl
  | some summarizer =>
    rw [hs] at hok
    simp only at hok ⊢
    cases hr : summarizer.SummarizeRounds
        (mem.RecentRounds.take (mem.RecentRounds.length - m.config.MaxRecentRounds.toNat)) with
    | error err =>
      rw [hr] at hok
      simp at hok
    | ok newSummary =>
      rw [hr] at hok
      simp only at hok ⊢
      cases hm : mergeSummaries m mem.Summary newSummary with
      | none =>
        rw [hm] at hok
        simp at hok
      | some merged => rfl

/-- C3: when `len(RecentRounds) > MaxRecentRounds >= 0` and `compress` returns
without error, the record afterwards holds exactly the last `MaxRecentRounds`
rounds of the previous list, in their order, so `MaxRecentRounds` of them, and
`TotalRounds` (like every field other than the rounds and the summary) is
unchanged; `compress` does return without error when no summarizer is
configured, and when the summarizer succeeds on the rounds to compress and the
summary budget does not overflow; and when `len(RecentRounds) <=
MaxRecentRounds`, `compress` returns without error and leaves the whole record
unchanged. -/
theorem compress_keeps_recent {σ : Type} (m : Manager σ) (mem : StockMemory) :
    (m.config.MaxRecentRounds < (mem.RecentRounds.length : Int) →
      0 ≤ m.config.MaxRecentRounds →
      ((compress m mem).2 = Status.returned none →
        ((compress m mem).1.RecentRounds.length : Int) = m.config.MaxRecentRounds ∧
        (compress m mem).1.RecentRounds =
          lastN m.config.MaxRecentRounds.toNat mem.RecentRounds ∧
        (compress m mem).1.TotalRounds = mem.TotalRounds ∧
        (compress m mem).1 =
          { mem with
              Summary := (compress m mem).1.Summary
              RecentRounds := (compress m mem).1.RecentRounds }) ∧
      (m.summarizer = none → (compress m mem).2 = Status.returned none) ∧
      (∀ (summarizer : Summarizer) (newSummary : String),
        m.summarizer = some summarizer →
        summarizer.SummarizeRounds
            (mem.RecentRounds.take
              (mem.RecentRounds.length - m.config.MaxRecentRounds.toNat)) =
          Except.ok newSummary →
        0 ≤ m.config.MaxSummaryLength →
        m.config.MaxSummaryLength < 4611686018427387904 →
        (compress m mem).2 = Status.returned none)) ∧
    ((mem.RecentRounds.length : Int) ≤ m.config.MaxRecentRounds →
      compress m mem = (mem, Status.returned none)) := by
  refine ⟨fun hlt h0 => ⟨fun hok => ?_, fun hs => ?_, fun summarizer newSummary hs hr h1 h2 => ?_⟩,
    compress_of_le m mem⟩
  · have hrec := compress_ok_record m mem h0 hlt hok
    have hrounds : (compress m mem).1.RecentRounds =
        lastN m.config.MaxRecentRounds.toNat mem.RecentRounds := by
      rw [hrec]
    refine ⟨?_, hrounds, compress_total m mem, ?_⟩
    · rw [hrounds, length_lastN]
      omega
    · rw [hrounds]
      exact hrec
  · rw [compress_of_lt m mem h0 hlt, hs]
  · rw [compress_of_lt m mem h0 hlt, hs]
    simp only [hr]
    obtain ⟨merged, hmerged⟩ := mergeSummaries_isSome m mem.Summary newSummary
      (by rw [wrapInt_double _ h1 h2]; omega)
    rw [hmerged]

/-- C3 on `sampleRecord` (four rounds) with the default `MaxRecentRounds = 3` and
a succeeding summarizer. -/
theorem compress_keeps_recent_witness :
    (sampleManager DefaultConfig (some (constSummarizer "new"))).config.MaxRecentRounds <
      (sampleRecord.RecentRounds.length : Int) ∧
    (compress (sampleManager DefaultConfig (some (constSummarizer "new"))) sampleRecord).2 =
      Status.returned none ∧
    (compress (sampleManager DefaultConfig (some (constSummarizer "new")))
        sampleRecord).1.RecentRounds = [sampleRound 2, sampleRound 3, sampleRound 4] :=
  have h := (compress_keeps_recent (sampleManager DefaultConfig (some (constSummarizer "new")))
    sampleRecord).1 (by decide) (by decide)
  have hok := h.2.2 (constSummarizer "new") "new" rfl rfl (by decide) (by decide)
  ⟨by decide, hok, (h.1 hok).2.1⟩

/-- C4, as stated, fails at `MaxRecentRounds = -1`: the slice expressions of
`compress` abort the call before the failing summarizer is consulted, so no
failure is returned. -/
theorem compress_failure_counterexample :
    (sampleManager { DefaultConfig with MaxRecentRounds := -1 }
        (some failingSummarizer)).config.MaxRecentRounds <
      (sampleRecord.RecentRounds.length : Int) ∧
    (∀ rounds, failingSummarizer.SummarizeRounds rounds = Except.error "llm unavailable") ∧
    (compress (sampleManager { DefaultConfig with MaxRecentRounds := -1 }
        (some failingSummarizer)) sampleRecord).2 = Status.aborted ∧
    (compress (sampleManager { DefaultConfig with MaxRecentRounds := -1 }
        (some failingSummarizer)) sampleRecord).2 ≠
      Status.returned (some "llm unavailable") := by
  have h := compress_of_neg
    (sampleManager { DefaultConfig with MaxRecentRounds := -1 } (some failingSummarizer))
    sampleRecord (by decide)
  refine ⟨by decide, fun _ => rfl, ?_, ?_⟩
  · rw [h]
  · rw [h]
    simp

/-- C4 (amended): for every record with `len(RecentRounds) > MaxRecentRounds >=
0` and a configured summarizer whose `SummarizeRounds` call on the rounds to
compress fails, `compress` returns that failure and leaves the record entirely
unchanged. -/
theorem compress_failure_all_or_nothing {σ : Type} (m : Manager σ) (mem : StockMemory)
    (summarizer : Summarizer) (err : Error)
    (h0 : 0 ≤ m.config.MaxRecentRounds)
    (hlt : m.config.MaxRecentRounds < (mem.RecentRounds.length : Int))
    (hs : m.summarizer = some summarizer)
    (hfail : summarizer.SummarizeRounds
        (mem.RecentRounds.take (mem.RecentRounds.length - m.config.MaxRecentRounds.toNat)) =
      Except.error err) :
    compress m mem = (mem, Status.returned (some err)) := by
  rw [compress_of_lt m mem h0 hlt, hs]
  simp only [hfail]

/-- C4 (amended) on `sampleRecord` with the default configuration and a failing
summarizer. -/
theorem compress_failure_all_or_nothing_witness :
    compress (sampleManager DefaultConfig (some failingSummarizer)) sampleRecord =
      (sampleRecord, Status.returned (some "llm unavailable")) :=
  compress_failure_all_or_nothing (sampleManager DefaultConfig (some failingSummarizer))
    sampleRecord failingSummarizer "llm unavailable" (by decide) (by decide) rfl rfl

/-- C5: with no summarizer configured, `compress` never returns a failure and
never changes the summary; with `MaxRecentRounds >= 0` it always returns, and for
a record with `len(RecentRounds) > MaxRecentRounds >= 0` it sets `RecentRounds`
to its last `MaxRecentRounds` entries and changes nothing else.  Scenario: with
the default configuration and no summarizer, over any backend, five `AddRound`
calls on a fresh record leave three rounds after the third call and, after the
fifth, exactly the rounds 3, 4, 5 (those of the last three calls), an empty
summary and `TotalRounds = 5`. -/
theorem compress_without_summarizer {σ : Type} (m : Manager σ) (hs : m.summarizer = none) :
    (∀ mem : StockMemory,
      (∀ err, (compress m mem).2 ≠ Status.returned (some err)) ∧
      (compress m mem).1.Summary = mem.Summary ∧
      (0 ≤ m.config.MaxRecentRounds → (compress m mem).2 = Status.returned none) ∧
      (0 ≤ m.config.MaxRecentRounds →
        m.config.MaxRecentRounds < (mem.RecentRounds.length : Int) →
        compress m mem =
          ({ mem with RecentRounds := lastN m.config.MaxRecentRounds.toNat mem.RecentRounds },
            Status.returned none))) ∧
    (m.config = DefaultConfig →
      ∀ (st : σ) (now : Int) (code name : String) (c1 c2 c3 c4 c5 : RoundCall),
        c1.summarizer = none → c2.summarizer = none → c3.summarizer = none →
        c4.summarizer = none → c5.summarizer = none →
        (AddRoundAll m st (NewStockMemory now code name)
          [c1, c2, c3]).1.RecentRounds.length = 3 ∧
        (AddRoundAll m st (NewStockMemory now code name)
            [c1, c2, c3, c4, c5]).1.RecentRounds =
          [{ Round := 3, Query := c3.query, Consensus := c3.consensus,
              KeyPoints := c3.keyPoints, Timestamp := c3.now },
            { Round := 4, Query := c4.query, Consensus := c4.consensus,
              KeyPoints := c4.keyPoints, Timestamp := c4.now },
            { Round := 5, Query := c5.query, Consensus := c5.consensus,
              KeyPoints := c5.keyPoints, Timestamp := c5.now }] ∧
        (AddRoundAll m st (NewStockMemory now code name)
          [c1, c2, c3, c4, c5]).1.Summary = "" ∧
        (AddRoundAll m st (NewStockMemory now code name)
          [c1, c2, c3, c4, c5]).1.TotalRounds = 5) := by
  refine ⟨fun mem => ?_, ?_⟩
  · by_cases hle : (mem.RecentRounds.length : Int) ≤ m.config.MaxRecentRounds
    · rw [compress_of_le m mem hle]
      exact ⟨fun err => by simp, rfl, fun _ => rfl, fun _ hlt => absurd hle (by omega)⟩
    · by_cases hneg : m.config.MaxRecentRounds < 0
      · rw [compress_of_neg m mem hneg]
        exact ⟨fun err => by simp, rfl, fun h0 => absurd h0 (by omega),
          fun h0 => absurd h0 (by omega)⟩
      · rw [compress_of_lt m mem (by omega) (by omega), hs]
        exact ⟨fun err => by simp, rfl, fun _ => rfl, fun _ _ => rfl⟩
  · intro hcfg st now code name c1 c2 c3 c4 c5 _ _ _ _ h5
    simp [AddRoundAll, AddRound, appendRound, compressCheck, compress, Save, NewStockMemory,
      hcfg, DefaultConfig, wrapInt, sliceFrom, sliceTo, h5]

/-- C5 on `sampleRecord`: the oldest of its four rounds is dropped. -/
theorem compress_without_summarizer_witness :
    compress (sampleManager DefaultConfig none) sampleRecord =
      ({ sampleRecord with RecentRounds := [sampleRound 2, sampleRound 3, sampleRound 4] },
        Status.returned none) :=
  ((compress_without_summarizer (sampleManager DefaultConfig none) rfl).1 sampleRecord).2.2.2
    (by decide) (by decide)

/-! ## Summary merging -/

/-- C6, as stated, fails at `MaxSummaryLength = 2^62`: the product
`MaxSummaryLength * 2` wraps to `-2^63`, the three-character concatenation is
longer than that, and the slice expression aborts the call, although the
concatenation has at most `2 * MaxSummaryLength` characters. -/
theorem mergeSummaries_counterexample :
    ("a" : String) ≠ "" ∧ ("b" : String) ≠ "" ∧
    (0 : Int) ≤ (sampleManager { DefaultConfig with MaxSummaryLength := 4611686018427387904 }
      none).config.MaxSummaryLength ∧
    ((("a" : String) ++ "\n" ++ "b").length : Int) ≤
      2 * (sampleManager { DefaultConfig with MaxSummaryLength := 4611686018427387904 }
        none).config.MaxSummaryLength ∧
    mergeSummaries
      (sampleManager { DefaultConfig with MaxSummaryLength := 4611686018427387904 } none)
      "a" "b" = none ∧
    mergeSummaries
      (sampleManager { DefaultConfig with MaxSummaryLength := 4611686018427387904 } none)
      "a" "b" ≠ some ("a" ++ "\n" ++ "b") := by
  have h := mergeSummaries_of_neg
    (sampleManager { DefaultConfig with MaxSummaryLength := 4611686018427387904 } none)
    "a" "b" (by decide) (by decide) (by decide)
  refine ⟨by decide, by decide, by decide, by decide, h, ?_⟩
  rw [h]
  simp

/-- C6 (amended): for non-empty `old` and `new` and `0 <= MaxSummaryLength <
2^62` (so that `2 * MaxSummaryLength` fits a 64-bit `int`), `mergeSummaries`
returns `old + "\n" + new` when that has at most `2 * MaxSummaryLength`
characters, and otherwise exactly its trailing `2 * MaxSummaryLength`
characters (code points, not bytes), a string of exactly `2 *
MaxSummaryLength` characters. -/
theorem mergeSummaries_truncates {σ : Type} (m : Manager σ) (old new : String)
    (hold : old ≠ "") (hnew : new ≠ "") (h0 : 0 ≤ m.config.MaxSummaryLength)
    (h1 : m.config.MaxSummaryLength < 4611686018427387904) :
    (((old ++ "\n" ++ new).length : Int) ≤ 2 * m.config.MaxSummaryLength →
      mergeSummaries m old new = some (old ++ "\n" ++ new)) ∧
    (2 * m.config.MaxSummaryLength < ((old ++ "\n" ++ new).length : Int) →
      mergeSummaries m old new =
        some (String.mk
          (lastN (2 * m.config.MaxSummaryLength).toNat (old ++ "\n" ++ new).data)) ∧
      ∀ merged, mergeSummaries m old new = some merged →
        (merged.length : Int) = 2 * m.config.MaxSummaryLength) := by
  have hw : wrapInt (m.config.MaxSummaryLength * 2) = 2 * m.config.MaxSummaryLength := by
    rw [wrapInt_double _ h0 h1]
    ring
  have hmerge := mergeSummaries_of_nonneg m old new hold hnew (by rw [hw]; omega)
  rw [hw] at hmerge
  refine ⟨fun hle => ?_, fun hlt => ?_⟩
  · rw [hmerge, if_pos hle]
  · rw [if_neg (by omega)] at hmerge
    refine ⟨hmerge, fun merged hm => ?_⟩
    rw [hmerge] at hm
    have hm' := Option.some.inj hm
    rw [← hm']
    show ((lastN (2 * m.config.MaxSummaryLength).toNat (old ++ "\n" ++ new).data).length : Int)
      = 2 * m.config.MaxSummaryLength
    rw [length_lastN]
    have hl : ((old ++ "\n" ++ new).length : Int) =
        ((old ++ "\n" ++ new).data.length : Int) := rfl
    omega

/-- C6 (amended) on `old = "A"*400`, `new = "B"*400` and the default
`MaxSummaryLength = 300`: the result is the trailing 600 characters of the
801-character concatenation. -/
theorem mergeSummaries_truncates_witness :
    (String.mk (List.replicate 400 'A') ++ "\n" ++ String.mk (List.replicate 400 'B')).length
      = 801 ∧
    mergeSummaries (sampleManager DefaultConfig none) (String.mk (List.replicate 400 'A'))
        (String.mk (List.replicate 400 'B')) =
      some (String.mk (lastN 600
        (String.mk (List.replicate 400 'A') ++ "\n" ++
          String.mk (List.replicate 400 'B')).data)) ∧
    ∀ merged,
      mergeSummaries (sampleManager DefaultConfig none) (String.mk (List.replicate 400 'A'))
        (String.mk (List.replicate 400 'B')) = some merged →
      (merged.length : Int) = 600 := by
  have hlen : (String.mk (List.replicate 400 'A') ++ "\n" ++
      String.mk (List.replicate 400 'B')).length = 801 := by
    have hgen : ∀ l1 l2 : List Char,
        (String.mk l1 ++ "\n" ++ String.mk l2).length = l1.length + 1 + l2.length :=
      fun l1 l2 => by
        rw [String.length_append, String.length_append]
        rfl
    rw [hgen, List.length_replicate, List.length_replicate]
  have hne : ∀ c : Char, String.mk (List.replicate 400 c) ≠ "" := by
    intro c hc
    have hgen : ∀ l : List Char, (String.mk l).length = l.length := fun _ => rfl
    have hl := congrArg String.length hc
    rw [hgen, List.length_replicate] at hl
    exact absurd hl (by decide)
  have h := (mergeSummaries_truncates (sampleManager DefaultConfig none)
    (String.mk (List.replicate 400 'A')) (String.mk (List.replicate 400 'B'))
    (hne 'A') (hne 'B') (by decide) (by decide)).2 (by rw [hlen]; decide)
  exact ⟨hlen, h.1, h.2⟩

/-- C7: the empty string is a two-sided identity of `mergeSummaries`, for every
configuration and every string, however long: the other argument is returned
verbatim, with no separator and no truncation. -/
theorem mergeSummaries_empty {σ : Type} (m : Manager σ) (s : String) :
    mergeSummaries m "" s = some s ∧ mergeSummaries m s "" = some s := by
  refine ⟨?_, ?_⟩
  · unfold mergeSummaries
    rw [if_pos rfl]
  · unfold mergeSummaries
    by_cases hs : s = ""
    · rw [if_pos hs, hs]
    · rw [if_neg hs, if_pos rfl]

/-! ## Relevance scoring -/

theorem timeDecay_bounds (timestamp now : Int) :
    3 / 10 ≤ timeDecay timestamp now ∧ timeDecay timestamp now ≤ 1 := by
  unfold timeDecay
  simp only
  split_ifs with h
  · constructor <;> norm_num
  · refine ⟨le_max_left _ _, max_le (by norm_num) ?_⟩
    push_neg at h
    linarith

theorem timeDecay_antitone (t1 t2 now : Int)
    (h : ageMillis t1 now ≤ ageMillis t2 now) :
    timeDecay t2 now ≤ timeDecay t1 now := by
  have hd : ageDays t1 now ≤ ageDays t2 now := by
    unfold ageDays
    have hq : (ageMillis t1 now : ℚ) ≤ (ageMillis t2 now : ℚ) := by exact_mod_cast h
    exact div_le_div_of_nonneg_right hq (by norm_num)
  by_cases h1 : ageDays t1 now ≤ 7
  · have e1 : timeDecay t1 now = 1 := by
      unfold timeDecay
      simp only [h1, if_true]
    rw [e1]
    exact (timeDecay_bounds t2 now).2
  · have h2 : ¬ ageDays t2 now ≤ 7 := fun h2 => h1 (le_trans hd h2)
    unfold timeDecay
    simp only [h1, h2, if_false]
    exact max_le_max (le_refl _) (by linarith)

theorem countMatches_congr (queryKeywords : List String) (e1 e2 : MemoryEntry)
    (hc : e1.Content = e2.Content) (hk : e1.Keywords = e2.Keywords) :
    countMatches queryKeywords e1 = countMatches queryKeywords e2 := by
  unfold countMatches
  rw [hc, hk]

theorem calculateScore_eq (queryKeywords : List String) (fact : MemoryEntry) (now : Int) :
    calculateScore queryKeywords fact now =
      if queryKeywords = [] then 0
      else
        (countMatches queryKeywords fact : ℚ) / (2 * (queryKeywords.length : ℚ)) *
          max (1 / 2) fact.Weight * timeDecay fact.Timestamp now := by
  unfold calculateScore
  by_cases h : queryKeywords = []
  · rw [if_pos h, if_pos (by rw [h]; rfl)]
  · rw [if_neg h, if_neg (by simpa using h)]
    simp only
    congr 3
    push_cast
    ring

theorem base_nonneg (queryKeywords : List String) (fact : MemoryEntry) :
    (0 : ℚ) ≤ (countMatches queryKeywords fact : ℚ) / (2 * (queryKeywords.length : ℚ)) := by
  positivity

/-- C8: for every list of query keywords, every entry (any rational weight, any
timestamp) and every clock reading, `calculateScore` is `>= 0`, and exactly `0`
for an empty keyword list; otherwise it is `matches / (2 * len)` times `max(0.5,
weight)` times the time-decay factor.  That factor is `1` when the age is at
most 7 days and `max(0.3, 1 - 0.05 * (days - 7))` otherwise, hence always within
`[0.3, 1]`; the age in days is the 64-bit difference of the two millisecond
readings over `86400000`, which is the plain difference `now - timestamp`
whenever that fits 64 bits. -/
theorem calculateScore_nonneg (queryKeywords : List String) (fact : MemoryEntry) (now : Int) :
    0 ≤ calculateScore queryKeywords fact now ∧
    calculateScore [] fact now = 0 ∧
    calculateScore queryKeywords fact now =
      (if queryKeywords = [] then 0
      else
        (countMatches queryKeywords fact : ℚ) / (2 * (queryKeywords.length : ℚ)) *
          max (1 / 2) fact.Weight * timeDecay fact.Timestamp now) ∧
    timeDecay fact.Timestamp now =
      (if ageDays fact.Timestamp now ≤ 7 then 1
      else max (3 / 10) (1 - (1 / 20) * (ageDays fact.Timestamp now - 7))) ∧
    3 / 10 ≤ timeDecay fact.Timestamp now ∧
    timeDecay fact.Timestamp now ≤ 1 ∧
    (-9223372036854775808 ≤ now - fact.Timestamp → now - fact.Timestamp < 9223372036854775808 →
      ageDays fact.Timestamp now = ((now - fact.Timestamp : Int) : ℚ) / 86400000) := by
  refine ⟨?_, rfl, calculateScore_eq queryKeywords fact now, rfl,
    (timeDecay_bounds _ _).1, (timeDecay_bounds _ _).2, fun h1 h2 => ?_⟩
  · rw [calculateScore_eq]
    split_ifs
    · exact le_refl _
    · have hd := (timeDecay_bounds fact.Timestamp now).1
      have hw : (0 : ℚ) ≤ max (1 / 2) fact.Weight := le_trans (by norm_num) (le_max_left _ _)
      exact mul_nonneg (mul_nonneg (base_nonneg queryKeywords fact) hw)
        (le_trans (by norm_num) hd)
  · unfold ageDays ageMillis
    rw [wrapInt_of_range _ h1 h2]
    norm_num

/-- C8 on a fact stamped 37 days before the clock reading, with weight `-3`:
the decay factor is floored at `0.3` and the score is `0.15`. -/
theorem calculateScore_nonneg_witness :
    ageDays (sampleFact "rates rise" ["rates"] 0 (-3)).Timestamp 3196800000 = 37 ∧
    timeDecay (sampleFact "rates rise" ["rates"] 0 (-3)).Timestamp 3196800000 = 3 / 10 ∧
    calculateScore ["rates"] (sampleFact "rates rise" ["rates"] 0 (-3)) 3196800000 = 3 / 20 := by
  have h := calculateScore_nonneg ["rates"] (sampleFact "rates rise" ["rates"] 0 (-3)) 3196800000
  have hage := h.2.2.2.2.2.2 (by decide) (by decide)
  have hdays : ageDays (sampleFact "rates rise" ["rates"] 0 (-3)).Timestamp 3196800000 = 37 := by
    rw [hage]
    norm_num [sampleFact]
  have hdecay : timeDecay (sampleFact "rates rise" ["rates"] 0 (-3)).Timestamp 3196800000 =
      3 / 10 := by
    rw [h.2.2.2.1, hdays]
    norm_num
  refine ⟨hdays, hdecay, ?_⟩
  rw [h.2.2.1, hdecay]
  have hcount : countMatches ["rates"] (sampleFact "rates rise" ["rates"] 0 (-3)) = 2 := by
    decide
  rw [hcount]
  norm_num [sampleFact]

/-- C9: for a fixed list of query keywords and a fixed clock reading, of two
entries with the same content and keywords the one with the larger (or equal)
weight and the smaller (or equal) age scores at least as much; the age is the
variable `age` of `timeDecay`. -/
theorem calculateScore_monotone (queryKeywords : List String) (e1 e2 : MemoryEntry)
    (now : Int) (hc : e1.Content = e2.Content) (hk : e1.Keywords = e2.Keywords)
    (hw : e2.Weight ≤ e1.Weight)
    (ha : ageMillis e1.Timestamp now ≤ ageMillis e2.Timestamp now) :
    calculateScore queryKeywords e2 now ≤ calculateScore queryKeywords e1 now := by
  rw [calculateScore_eq, calculateScore_eq]
  split_ifs
  · exact le_refl _
  · rw [countMatches_congr queryKeywords e1 e2 hc hk]
    have hb := base_nonneg queryKeywords e2
    have hd := timeDecay_antitone e1.Timestamp e2.Timestamp now ha
    have hd2 := (timeDecay_bounds e2.Timestamp now).1
    have hm : max (1 / 2) e2.Weight ≤ max (1 / 2) e1.Weight := max_le_max (le_refl _) hw
    have hm2 : (0 : ℚ) ≤ max (1 / 2) e2.Weight := le_trans (by norm_num) (le_max_left _ _)
    have hm1 : (0 : ℚ) ≤ max (1 / 2) e1.Weight := le_trans hm2 hm
    exact mul_le_mul (mul_le_mul_of_nonneg_left hm hb) hd (le_trans (by norm_num) hd2)
      (mul_nonneg hb hm1)

/-- C9 on weight `1.0` at age 0 days against weight `0.1` at age 30 days. -/
theorem calculateScore_monotone_witness :
    ageMillis (sampleFact "rates rise" ["rates"] 2592000000 1).Timestamp 2592000000 = 0 ∧
    ageMillis (sampleFact "rates rise" ["rates"] 0 (1 / 10)).Timestamp 2592000000 =
      30 * 86400000 ∧
    calculateScore ["rates", "bonds"] (sampleFact "rates rise" ["rates"] 0 (1 / 10)) 2592000000 ≤
      calculateScore ["rates", "bonds"] (sampleFact "rates rise" ["rates"] 2592000000 1)
        2592000000 :=
  ⟨by decide, by decide,
    calculateScore_monotone ["rates", "bonds"] (sampleFact "rates rise" ["rates"] 2592000000 1)
      (sampleFact "rates rise" ["rates"] 0 (1 / 10)) 2592000000 rfl rfl
      (by norm_num [sampleFact]) (by decide)⟩

/-! ## The embedding of `sort.Slice` rearranges the slice -/

theorem set_cons_perm {α : Type} (h y : α) :
    ∀ (t : List α) (j : Nat), t[j]? = some y → (y :: t.set j h).Perm (h :: t) := by
  intro t
  induction t with
  | nil =>
    intro j hj
    simp at hj
  | cons a rest ih =>
    intro j hj
    cases j with
    | zero =>
      simp only [List.getElem?_cons_zero, Option.some.injEq] at hj
      subst hj
      exact List.Perm.swap _ _ _
    | succ k =>
      simp only [List.getElem?_cons_succ] at hj
      simp only [List.set_cons_succ]
      exact (List.Perm.swap a y _).trans
        (((ih k hj).cons a).trans (List.Perm.swap h a rest))

theorem swapAt_perm {α : Type} :
    ∀ (data : List α) (i j : Nat), (swapAt data i j).Perm data := by
  intro data
  induction data with
  | nil =>
    intro i j
    simp [swapAt]
  | cons h t ih =>
    intro i j
    unfold swapAt
    cases hi : (h :: t)[i]? with
    | none => exact List.Perm.refl _
    | some x =>
      cases hj : (h :: t)[j]? with
      | none => exact List.Perm.refl _
      | some y =>
        simp only
        cases i with
        | zero =>
          simp only [List.getElem?_cons_zero, Option.some.injEq] at hi
          subst hi
          cases j with
          | zero =>
            simp only [List.getElem?_cons_zero, Option.some.injEq] at hj
            subst hj
            simp
          | succ k =>
            simp only [List.getElem?_cons_succ] at hj
            simp only [List.set_cons_zero, List.set_cons_succ]
            exact set_cons_perm _ y t k hj
        | succ k =>
          simp only [List.getElem?_cons_succ] at hi
          cases j with
          | zero =>
            simp only [List.getElem?_cons_zero, Option.some.injEq] at hj
            subst hj
            simp only [List.set_cons_zero, List.set_cons_succ]
            exact set_cons_perm _ x t k hi
          | succ l =>
            simp only [List.getElem?_cons_succ] at hj
            simp only [List.set_cons_succ]
            have hswap := ih k l
            unfold swapAt at hswap
            rw [hi, hj] at hswap
            exact hswap.cons h

theorem foldl_perm {α β : Type} (f : List α → β → List α)
    (hf : ∀ data i, (f data i).Perm data) :
    ∀ (xs : List β) (data : List α), (xs.foldl f data).Perm data := by
  intro xs
  induction xs with
  | nil =>
    intro data
    exact List.Perm.refl _
  | cons x rest ih =>
    intro data
    exact (ih (f data x)).trans (hf data x)

theorem insertionShift_perm {α : Type} (less : α → α → Bool) (a : Nat) :
    ∀ (j : Nat) (data : List α), (insertionShift less a j data).Perm data := by
  intro j
  induction j with
  | zero =>
    intro data
    exact List.Perm.refl _
  | succ j ih =>
    intro data
    unfold insertionShift
    split_ifs
    · exact (ih _).trans (swapAt_perm data _ _)
    · exact List.Perm.refl _

theorem insertionSortFunc_perm {α : Type} (less : α → α → Bool) (data : List α) (a b : Nat) :
    (insertionSortFunc less data a b).Perm data :=
  foldl_perm _ (fun data i => insertionShift_perm less a i data) _ data

theorem siftDownFunc_perm {α : Type} (less : α → α → Bool) (hi first : Nat) :
    ∀ (fuel root : Nat) (data : List α),
      (siftDownFunc less hi first fuel root data).Perm data := by
  intro fuel
  induction fuel with
  | zero =>
    intro root data
    exact List.Perm.refl _
  | succ fuel ih =>
    intro root data
    unfold siftDownFunc
    simp only
    split_ifs
    all_goals first
      | exact List.Perm.refl _
      | exact (ih _ _).trans (swapAt_perm data _ _)

theorem heapSortFunc_perm {α : Type} (less : α → α → Bool) (data : List α) (a b : Nat) :
    (heapSortFunc less data a b).Perm data := by
  unfold heapSortFunc
  simp only
  exact (foldl_perm _
    (fun data i => (siftDownFunc_perm less i a (b - a) 0 _).trans (swapAt_perm data _ _)) _ _).trans
    (foldl_perm _ (fun data i => siftDownFunc_perm less (b - a) a (b - a) i data) _ data)

theorem partitionLoop_perm {α : Type} (less : α → α → Bool) (a : Nat) :
    ∀ (fuel : Nat) (data : List α) (i j : Nat),
      (partitionLoop less a fuel data i j).1.Perm data := by
  intro fuel
  induction fuel with
  | zero =>
    intro data i j
    exact List.Perm.refl _
  | succ fuel ih =>
    intro data i j
    unfold partitionLoop
    simp only
    split_ifs
    · exact List.Perm.refl _
    · exact (ih _ _ _).trans (swapAt_perm data _ _)

theorem partitionFunc_perm {α : Type} (less : α → α → Bool) (data : List α) (a b pivot : Nat) :
    (partitionFunc less data a b pivot).1.Perm data := by
  unfold partitionFunc
  simp only
  split_ifs
  · exact (swapAt_perm _ _ _).trans (swapAt_perm data _ _)
  · exact (swapAt_perm _ _ _).trans
      ((partitionLoop_perm less a _ _ _ _).trans
        ((swapAt_perm _ _ _).trans (swapAt_perm data _ _)))

theorem partitionEqualLoop_perm {α : Type} (less : α → α → Bool) (a : Nat) :
    ∀ (fuel : Nat) (data : List α) (i j : Nat),
      (partitionEqualLoop less a fuel data i j).1.Perm data := by
  intro fuel
  induction fuel with
  | zero =>
    intro data i j
    exact List.Perm.refl _
  | succ fuel ih =>
    intro data i j
    unfold partitionEqualLoop
    simp only
    split_ifs
    · exact List.Perm.refl _
    · exact (ih _ _ _).trans (swapAt_perm data _ _)

theorem partitionEqualFunc_perm {α : Type} (less : α → α → Bool) (data : List α)
    (a b pivot : Nat) : (partitionEqualFunc less data a b pivot).1.Perm data :=
  (partitionEqualLoop_perm less a _ _ _ _).trans (swapAt_perm data _ _)

theorem shiftSmaller_perm {α : Type} (less : α → α → Bool) :
    ∀ (j : Nat) (data : List α), (shiftSmaller less j data).Perm data := by
  intro j
  induction j with
  | zero =>
    intro data
    exact List.Perm.refl _
  | succ j ih =>
    intro data
    unfold shiftSmaller
    split_ifs
    · exact List.Perm.refl _
    · exact (ih _).trans (swapAt_perm data _ _)

theorem shiftGreater_perm {α : Type} (less : α → α → Bool) (b : Nat) :
    ∀ (fuel j : Nat) (data : List α), (shiftGreater less b fuel j data).Perm data := by
  intro fuel
  induction fuel with
  | zero =>
    intro j data
    exact List.Perm.refl _
  | succ fuel ih =>
    intro j data
    unfold shiftGreater
    split_ifs
    · exact List.Perm.refl _
    · exact (ih _ _).trans (swapAt_perm data _ _)
    · exact List.Perm.refl _

theorem partialInsertionLoop_perm {α : Type} (less : α → α → Bool) (a b : Nat) :
    ∀ (steps i : Nat) (data : List α),
      (partialInsertionLoop less a b steps i data).1.Perm data := by
  intro steps
  induction steps with
  | zero =>
    intro i data
    exact List.Perm.refl _
  | succ steps ih =>
    intro i data
    unfold partialInsertionLoop
    simp only
    split_ifs
    all_goals first
      | exact List.Perm.refl _
      | exact (ih _ _).trans (swapAt_perm data _ _)
      | exact (ih _ _).trans ((shiftSmaller_perm less _ _).trans (swapAt_perm data _ _))
      | exact (ih _ _).trans ((shiftGreater_perm less b _ _ _).trans (swapAt_perm data _ _))
      | exact (ih _ _).trans ((shiftGreater_perm less b _ _ _).trans
          ((shiftSmaller_perm less _ _).trans (swapAt_perm data _ _)))

theorem breakPatternsFunc_perm {α : Type} (data : List α) (a b : Nat) :
    (breakPatternsFunc data a b).Perm data := by
  unfold breakPatternsFunc
  simp only
  split_ifs
  · have hstep : ∀ (xs : List Nat) (state : List α × Nat),
        (xs.foldl
          (fun (state : List α × Nat) (i : Nat) =>
            (swapAt state.1 (a + (b - a) / 4 * 2 - 1 - 1 + i)
              (a + if Nat.land (xorshiftNext state.2) (2 ^ bitsLen (b - a) - 1) ≥ b - a then
                Nat.land (xorshiftNext state.2) (2 ^ bitsLen (b - a) - 1) - (b - a)
              else Nat.land (xorshiftNext state.2) (2 ^ bitsLen (b - a) - 1)),
              xorshiftNext state.2)) state).1.Perm state.1 := by
      intro xs
      induction xs with
      | nil =>
        intro state
        exact List.Perm.refl _
      | cons x rest ih =>
        intro state
        exact (ih _).trans (swapAt_perm state.1 _ _)
    exact hstep _ (data, b - a)
  · exact List.Perm.refl _

theorem reverseRangeFunc_perm {α : Type} (data : List α) (a b : Nat) :
    (reverseRangeFunc data a b).Perm data :=
  foldl_perm _ (fun data _ => swapAt_perm data _ _) _ data

theorem pdqsortFunc_perm {α : Type} (less : α → α → Bool) :
    ∀ (fuel : Nat) (data : List α) (a b limit : Nat) (wasBalanced wasPartitioned : Bool),
      (pdqsortFunc less fuel data a b limit wasBalanced wasPartitioned).Perm data := by
  intro fuel
  induction fuel with
  | zero =>
    intro data a b limit wasBalanced wasPartitioned
    exact List.Perm.refl _
  | succ fuel ih =>
    intro data a b limit wasBalanced wasPartitioned
    unfold pdqsortFunc
    lift_lets
    extract_lets length data1 limit1 chosen reversed data2 pivot hint tried data3 parted parted2
      mid leftLen rightLen threshold sorted1 sorted2
    have h1 : data1.Perm data := by
      show (if wasBalanced = true then data else breakPatternsFunc data a b).Perm data
      split_ifs
      · exact List.Perm.refl _
      · exact breakPatternsFunc_perm data a b
    have h2 : data2.Perm data := by
      show (if reversed then reverseRangeFunc data1 a b else data1).Perm data
      split_ifs
      · exact (reverseRangeFunc_perm data1 a b).trans h1
      · exact h1
    have h3 : data3.Perm data := by
      show (if wasBalanced = true ∧ wasPartitioned = true ∧
          hint = SortedHint.increasingHint then
        partialInsertionSortFunc less data2 a b else (data2, false)).1.Perm data
      split_ifs
      · exact (partialInsertionLoop_perm less a b _ _ data2).trans h2
      · exact h2
    have h4 : parted.1.Perm data := (partitionEqualFunc_perm less data3 a b pivot).trans h3
    have h5 : parted2.1.Perm data := (partitionFunc_perm less data3 a b pivot).trans h3
    have h6 : sorted1.Perm data := (ih _ _ _ _ _ _).trans h5
    have h7 : sorted2.Perm data := (ih _ _ _ _ _ _).trans h5
    split_ifs
    · exact insertionSortFunc_perm less data a b
    · exact heapSortFunc_perm less data a b
    · exact h3
    · exact (ih _ _ _ _ _ _).trans h4
    · exact (ih _ _ _ _ _ _).trans h6
    · exact (ih _ _ _ _ _ _).trans h7

theorem goSorter_permutes : goSorter.Permutes := by
  intro α less xs
  exact pdqsortFunc_perm less _ xs _ _ _ _ _

theorem insertionSorter_permutes : insertionSorter.Permutes := by
  intro α less xs
  exact List.perm_insertionSort (fun a b => less b a = false) xs

theorem insertionSorter_sorts : insertionSorter.Sorts := by
  intro α less xs hirr htrans hneg
  haveI : IsTotal α (fun a b => less b a = false) :=
    ⟨fun a b => by
      by_cases h : less b a = true
      · right
        cases h2 : less a b
        · rfl
        · have h3 := htrans b a b h h2
          rw [hirr b] at h3
          exact absurd h3 (by decide)
      · left
        simpa using h⟩
  haveI : IsTrans α (fun a b => less b a = false) :=
    ⟨fun a b c hab hbc => hneg c b a hbc hab⟩
  exact List.sorted_insertionSort (fun a b => less b a = false) xs

theorem threshold_gt : (1 / 10 : ℚ) < roundFloat64 (1 / 10) := by
  decide!

/-- The rounding matters at the threshold: for a fact of weight `float64(0.8)`
matching one of four query keywords in its content, the exact value of the score
formula is above `1/10`, while the score the code computes is the `float64`
constant `0.1` itself, so that `FindRelevant` leaves the fact out. -/
theorem calculateScore64_at_threshold :
    1 / 10 < calculateScore ["a", "b", "c", "d"] (sampleFact "a" [] 0 (roundFloat64 (4 / 5))) 0 ∧
    calculateScore64 ["a", "b", "c", "d"] (sampleFact "a" [] 0 (roundFloat64 (4 / 5))) 0 =
      roundFloat64 (1 / 10) ∧
    scoreFacts ["a", "b", "c", "d"] (fun _ => 0) 0 [sampleFact "a" [] 0 (roundFloat64 (4 / 5))] =
      [] := by
  decide!

theorem scoreFacts_mem (queryKeywords : List String) (clock : Nat → Int)
    (facts : List MemoryEntry) :
    ∀ (i : Nat) (s : ScoredEntry), s ∈ scoreFacts queryKeywords clock i facts →
      ∃ j, facts[j]? = some s.Entry ∧
        s.Score = calculateScore64 queryKeywords s.Entry (clock (i + j)) ∧
        roundFloat64 (1 / 10) < s.Score := by
  induction facts with
  | nil =>
    intro i s hs
    simp [scoreFacts] at hs
  | cons fact rest ih =>
    intro i s hs
    unfold scoreFacts at hs
    simp only at hs
    have hrest : s ∈ scoreFacts queryKeywords clock (i + 1) rest →
        ∃ j, (fact :: rest)[j]? = some s.Entry ∧
          s.Score = calculateScore64 queryKeywords s.Entry (clock (i + j)) ∧
          roundFloat64 (1 / 10) < s.Score := by
      intro h
      obtain ⟨j, hj, hscore, hgt⟩ := ih (i + 1) s h
      refine ⟨j + 1, by simpa using hj, ?_, hgt⟩
      rw [hscore]
      congr 2
      omega
    split_ifs at hs with hgt
    · rcases List.mem_cons.mp hs with rfl | h
      · exact ⟨0, by simp, rfl, hgt⟩
      · exact hrest h
    · exact hrest hs

theorem scoreFacts_no_keywords (clock : Nat → Int) (facts : List MemoryEntry) :
    ∀ i : Nat, scoreFacts [] clock i facts = [] := by
  induction facts with
  | nil =>
    intro i
    rfl
  | cons fact rest ih =>
    intro i
    unfold scoreFacts
    simp only
    have hzero : calculateScore64 [] fact (clock i) = 0 := rfl
    have hpos : ¬ (0 : ℚ) > roundFloat64 (1 / 10) := by
      have := threshold_gt
      intro h
      linarith
    rw [hzero, if_neg hpos]
    exact ih (i + 1)

theorem FindRelevant_isSome (r : Relevance) (sorter : SliceSorter) (clock : Nat → Int)
    (facts : List MemoryEntry) (query : String) (limit : Int) (hlimit : 0 ≤ limit)
    (hcap : sizeofMemoryEntry * limit ≤ maxAlloc) :
    ∃ result, FindRelevant r sorter clock facts query limit = some result := by
  unfold FindRelevant
  by_cases hfacts : facts.length = 0
  · exact ⟨[], by rw [if_pos hfacts]⟩
  · rw [if_neg hfacts]
    simp only
    rw [if_neg (by omega)]
    exact ⟨_, rfl⟩

/-- C10, as stated, fails for a large `limit`: `make([]MemoryEntry, 0, limit)`
is asked for `2^62` entries of 104 bytes and aborts the call, so nothing is
returned although the fact list holds a fact matching the query. -/
theorem FindRelevant_bounded_counterexample :
    (0 : Int) ≤ 4611686018427387904 ∧
    FindRelevant (NewRelevance wholeTokenizer) goSorter (fun _ => 1000)
      [sampleFact "rates rise" ["rates"] 0 1] "rates" 4611686018427387904 = none := by
  decide!

/-- C10 (amended): for every tokenizer, every implementation of `sort.Slice`
that rearranges the slice (as the one of Go does, `goSorter_permutes`), every
clock, fact list, query and `limit` with
`0 <= limit` and `104 * limit <= 2^48` (a capacity `make` accepts),
`FindRelevant` returns a list of at most `limit` entries; every returned entry
is an element `facts[j]` of the input whose score against the effective query
keywords, as computed in `float64` at the clock reading of its own score
computation, is strictly greater than the `float64` constant `0.1`, hence than
`0.1`; the effective keywords are the tokenizer's top-10 extraction, or its
segmentation when the extraction is empty; and the result is empty when the fact
list or the effective keyword list is empty. -/
theorem FindRelevant_bounded (r : Relevance) (sorter : SliceSorter) (clock : Nat → Int)
    (facts : List MemoryEntry) (query : String) (limit : Int) (hlimit : 0 ≤ limit)
    (hcap : sizeofMemoryEntry * limit ≤ maxAlloc) (hperm : sorter.Permutes) :
    ∃ result, FindRelevant r sorter clock facts query limit = some result ∧
      (result.length : Int) ≤ limit ∧
      (∀ e ∈ result, ∃ j : Nat, facts[j]? = some e ∧
        roundFloat64 (1 / 10) < calculateScore64 (effectiveKeywords r query) e (clock j) ∧
        1 / 10 < calculateScore64 (effectiveKeywords r query) e (clock j)) ∧
      effectiveKeywords r query =
        (if r.tokenizer.Extract query 10 = [] then r.tokenizer.Cut query
        else r.tokenizer.Extract query 10) ∧
      (facts = [] ∨ effectiveKeywords r query = [] → result = []) := by
  have hkw : effectiveKeywords r query =
      (if r.tokenizer.Extract query 10 = [] then r.tokenizer.Cut query
      else r.tokenizer.Extract query 10) := by
    unfold effectiveKeywords
    simp only [List.length_eq_zero]
  by_cases hfacts : facts.length = 0
  · refine ⟨[], by unfold FindRelevant; rw [if_pos hfacts], ?_, ?_, hkw, fun _ => rfl⟩
    · simpa using hlimit
    · intro e he
      simp at he
  · refine ⟨((sorter.sort (fun a b => decide (a.Score > b.Score))
        (scoreFacts (effectiveKeywords r query) clock 0 facts)).take limit.toNat).map
        fun s => s.Entry, ?_, ?_, ?_, hkw, ?_⟩
    · unfold FindRelevant
      rw [if_neg hfacts]
      simp only
      rw [if_neg (by omega)]
    · rw [List.length_map, List.length_take]
      omega
    · intro e he
      obtain ⟨s, hs, rfl⟩ := List.mem_map.mp he
      have hsorted := List.mem_of_mem_take hs
      have hscored := (hperm _ _).mem_iff.mp hsorted
      obtain ⟨j, hj, hscore, hgt⟩ := scoreFacts_mem _ clock facts 0 s hscored
      rw [zero_add] at hscore
      rw [hscore] at hgt
      exact ⟨j, hj, hgt, lt_trans threshold_gt hgt⟩
    · rintro (hnil | hnil)
      · exact absurd (by rw [hnil]; rfl) hfacts
      · rw [hnil, scoreFacts_no_keywords]
        have hsorted := hperm (fun a b : ScoredEntry => decide (a.Score > b.Score)) []
        rw [List.perm_nil.mp hsorted]
        simp

/-- C10 (amended) on two facts and the query `rates`, with `limit = 1` and Go's
`sort.Slice`: the one fact mentioning the query is returned. -/
theorem FindRelevant_bounded_witness :
    (0 : Int) ≤ 1 ∧ sizeofMemoryEntry * 1 ≤ maxAlloc ∧
    FindRelevant (NewRelevance wholeTokenizer) goSorter (fun _ => 1000)
        [sampleFact "oil falls" ["oil"] 0 1, sampleFact "rates rise" ["rates"] 0 1]
        "rates" 1 = some [sampleFact "rates rise" ["rates"] 0 1] ∧
    ∃ result,
      FindRelevant (NewRelevance wholeTokenizer) goSorter (fun _ => 1000)
        [sampleFact "oil falls" ["oil"] 0 1, sampleFact "rates rise" ["rates"] 0 1]
        "rates" 1 = some result ∧
      (result.length : Int) ≤ 1 ∧
      ∀ e ∈ result, ∃ j : Nat,
        [sampleFact "oil falls" ["oil"] 0 1, sampleFact "rates rise" ["rates"] 0 1][j]? =
          some e ∧
        roundFloat64 (1 / 10) <
          calculateScore64 (effectiveKeywords (NewRelevance wholeTokenizer) "rates") e 1000 := by
  refine ⟨by decide, by decide, by decide!, ?_⟩
  obtain ⟨result, h1, h2, h3, _⟩ :=
    FindRelevant_bounded (NewRelevance wholeTokenizer) goSorter (fun _ => 1000)
      [sampleFact "oil falls" ["oil"] 0 1, sampleFact "rates rise" ["rates"] 0 1] "rates" 1
      (by decide) (by decide) goSorter_permutes
  exact ⟨result, h1, h2, fun e he => (h3 e he).imp fun j hj => ⟨hj.1, hj.2.1⟩⟩

/-! ## Ranking -/

theorem scoreFacts_mem_of_get (queryKeywords : List String) (clock : Nat → Int)
    (facts : List MemoryEntry) :
    ∀ (i j : Nat) (e : MemoryEntry), facts[j]? = some e →
      roundFloat64 (1 / 10) < calculateScore64 queryKeywords e (clock (i + j)) →
      ({ Entry := e, Score := calculateScore64 queryKeywords e (clock (i + j)) } : ScoredEntry) ∈
        scoreFacts queryKeywords clock i facts := by
  induction facts with
  | nil =>
    intro i j e hj
    simp at hj
  | cons fact rest ih =>
    intro i j e hj hgt
    unfold scoreFacts
    simp only
    cases j with
    | zero =>
      simp only [List.getElem?_cons_zero, Option.some.injEq] at hj
      subst hj
      rw [Nat.add_zero] at hgt ⊢
      rw [if_pos hgt]
      exact List.mem_cons_self _ _
    | succ k =>
      simp only [List.getElem?_cons_succ] at hj
      have hidx : i + (k + 1) = i + 1 + k := by omega
      rw [hidx] at hgt ⊢
      have hrest := ih (i + 1) k e hj hgt
      split_ifs
      · exact List.mem_cons_of_mem _ hrest
      · exact hrest

theorem scoreFacts_mem_iff (queryKeywords : List String) (clock : Nat → Int)
    (facts : List MemoryEntry) (s : ScoredEntry) :
    s ∈ scoreFacts queryKeywords clock 0 facts ↔
      ∃ j : Nat, facts[j]? = some s.Entry ∧
        s.Score = calculateScore64 queryKeywords s.Entry (clock j) ∧
        roundFloat64 (1 / 10) < s.Score := by
  constructor
  · intro hs
    obtain ⟨j, hj, hscore, hgt⟩ := scoreFacts_mem queryKeywords clock facts 0 s hs
    rw [zero_add] at hscore
    exact ⟨j, hj, hscore, hgt⟩
  · rintro ⟨j, hj, hscore, hgt⟩
    have h := scoreFacts_mem_of_get queryKeywords clock facts 0 j s.Entry hj
      (by rw [zero_add, ← hscore]; exact hgt)
    rw [zero_add, ← hscore] at h
    exact h

theorem sorter_descending (sorter : SliceSorter) (hsorts : sorter.Sorts)
    (scored : List ScoredEntry) :
    (sorter.sort (fun a b => decide (a.Score > b.Score)) scored).Pairwise
      (fun a b => b.Score ≤ a.Score) := by
  have h := hsorts (fun a b : ScoredEntry => decide (a.Score > b.Score)) scored
    (fun a => by simp)
    (fun a b c hab hbc => by
      simp only [decide_eq_true_eq] at hab hbc ⊢
      exact lt_trans hbc hab)
    (fun a b c hab hbc => by
      simp only [decide_eq_false_iff_not, not_lt] at hab hbc ⊢
      exact le_trans hab hbc)
  refine h.imp ?_
  intro a b hba
  simpa using hba

/-- C11, as stated, fails on ties from 13 scored facts on, where Go's
`sort.Slice` leaves the insertion sort: of the thirteen `tieFacts`, all scoring
`0.5` but the second, which scores `1`, the seventh is returned right after the
second, before the third, fourth and fifth that precede it in the input, and
the first is not among the five returned. -/
theorem FindRelevant_stable_counterexample :
    calculateScore64 (effectiveKeywords (NewRelevance wholeTokenizer) "rates")
        (sampleFact "rates c" [] 0 1) 1000 =
      calculateScore64 (effectiveKeywords (NewRelevance wholeTokenizer) "rates")
        (sampleFact "rates g" [] 0 1) 1000 ∧
    tieFacts[2]? = some (sampleFact "rates c" [] 0 1) ∧
    tieFacts[6]? = some (sampleFact "rates g" [] 0 1) ∧
    FindRelevant (NewRelevance wholeTokenizer) goSorter (fun _ => 1000) tieFacts "rates" 5 =
      some [sampleFact "rates b" ["rates"] 0 1, sampleFact "rates g" [] 0 1,
        sampleFact "rates c" [] 0 1, sampleFact "rates d" [] 0 1,
        sampleFact "rates e" [] 0 1] := by
  decide!

/-- C11 (amended): for every fact list, query, `limit` with `0 <= limit` and
`104 * limit <= 2^48`, and every implementation of `sort.Slice` meeting its
contract, `FindRelevant` returns the entries of the first `limit` elements of a
list `ranked` that is a rearrangement of the facts whose `float64` score exceeds
the `float64` constant `0.1` (each with the score computed for it), in
descending order of score; so no entry left out scores more than a returned
one.  The relative order of entries with equal scores is left to
`sort.Slice`. -/
theorem FindRelevant_ranked (r : Relevance) (sorter : SliceSorter) (clock : Nat → Int)
    (facts : List MemoryEntry) (query : String) (limit : Int) (hlimit : 0 ≤ limit)
    (hcap : sizeofMemoryEntry * limit ≤ maxAlloc) (hperm : sorter.Permutes)
    (hsorts : sorter.Sorts) :
    ∃ ranked : List ScoredEntry,
      ranked.Perm (scoreFacts (effectiveKeywords r query) clock 0 facts) ∧
      ranked.Pairwise (fun a b => b.Score ≤ a.Score) ∧
      FindRelevant r sorter clock facts query limit =
        some ((ranked.take limit.toNat).map fun s => s.Entry) ∧
      (∀ s ∈ ranked.take limit.toNat, ∀ t ∈ ranked.drop limit.toNat, t.Score ≤ s.Score) ∧
      ∀ s : ScoredEntry, s ∈ ranked ↔
        ∃ j : Nat, facts[j]? = some s.Entry ∧
          s.Score = calculateScore64 (effectiveKeywords r query) s.Entry (clock j) ∧
          roundFloat64 (1 / 10) < s.Score := by
  have hdesc := sorter_descending sorter hsorts
    (scoreFacts (effectiveKeywords r query) clock 0 facts)
  have hsorted := hperm (fun a b : ScoredEntry => decide (a.Score > b.Score))
    (scoreFacts (effectiveKeywords r query) clock 0 facts)
  refine ⟨sorter.sort (fun a b => decide (a.Score > b.Score))
    (scoreFacts (effectiveKeywords r query) clock 0 facts), hsorted, hdesc, ?_, ?_, ?_⟩
  · unfold FindRelevant
    by_cases hfacts : facts.length = 0
    · rw [if_pos hfacts]
      have hnil : facts = [] := List.length_eq_zero.mp hfacts
      have hempty := hsorted
      rw [hnil] at hempty ⊢
      rw [show scoreFacts (effectiveKeywords r query) clock 0 [] = [] from rfl] at hempty ⊢
      rw [List.perm_nil.mp hempty]
      simp
    · rw [if_neg hfacts]
      simp only
      rw [if_neg (by omega)]
  · intro s hs t ht
    have hsplit := hdesc
    rw [← List.take_append_drop limit.toNat
      (sorter.sort (fun a b => decide (a.Score > b.Score))
        (scoreFacts (effectiveKeywords r query) clock 0 facts))] at hsplit
    exact (List.pairwise_append.mp hsplit).2.2 s hs t ht
  · intro s
    rw [hsorted.mem_iff]
    exact scoreFacts_mem_iff _ clock facts s

/-- C11 (amended) on two facts and the query `rates`, with the insertion sort
(which meets the contract) and with the embedding of Go's sort: the fact
matching the query in its content and its keywords comes before the one
matching in its content only. -/
theorem FindRelevant_ranked_witness :
    (0 : Int) ≤ 5 ∧ sizeofMemoryEntry * 5 ≤ maxAlloc ∧
    FindRelevant (NewRelevance wholeTokenizer) insertionSorter (fun _ => 1000)
        [sampleFact "rates fall" [] 0 1, sampleFact "rates rise" ["rates"] 0 1] "rates" 5 =
      some [sampleFact "rates rise" ["rates"] 0 1, sampleFact "rates fall" [] 0 1] ∧
    FindRelevant (NewRelevance wholeTokenizer) goSorter (fun _ => 1000)
        [sampleFact "rates fall" [] 0 1, sampleFact "rates rise" ["rates"] 0 1] "rates" 5 =
      some [sampleFact "rates rise" ["rates"] 0 1, sampleFact "rates fall" [] 0 1] ∧
    ∃ ranked : List ScoredEntry,
      ranked.Pairwise (fun a b => b.Score ≤ a.Score) ∧
      FindRelevant (NewRelevance wholeTokenizer) insertionSorter (fun _ => 1000)
          [sampleFact "rates fall" [] 0 1, sampleFact "rates rise" ["rates"] 0 1] "rates" 5 =
        some ((ranked.take 5).map fun s => s.Entry) := by
  refine ⟨by decide, by decide, by decide!, by decide!, ?_⟩
  obtain ⟨ranked, _, hdesc, hres, _⟩ :=
    FindRelevant_ranked (NewRelevance wholeTokenizer) insertionSorter (fun _ => 1000)
      [sampleFact "rates fall" [] 0 1, sampleFact "rates rise" ["rates"] 0 1] "rates" 5
      (by decide) (by decide) insertionSorter_permutes insertionSorter_sorts
  exact ⟨ranked, hdesc, hres⟩

/-! ## Context assembly -/

theorem foldl_append_lines {α : Type} (line : α → String) (xs : List α) :
    ∀ sb : String, xs.foldl (fun sb x => sb ++ line x) sb = sb ++ joinLines (xs.map line) := by
  induction xs with
  | nil =>
    intro sb
    simp [joinLines]
  | cons x rest ih =>
    intro sb
    rw [List.foldl_cons, ih, List.map_cons, joinLines, String.append_assoc]

theorem String.ne_empty_of_append_right (a b : String) (hb : b ≠ "") : a ++ b ≠ "" := by
  intro h
  have hl := congrArg String.length h
  rw [String.length_append] at hl
  have hb' : b.length ≠ 0 := by
    intro h0
    exact hb (String.ext (List.length_eq_zero.mp h0))
  have : ("" : String).length = 0 := rfl
  omega

theorem String.ne_empty_of_append_left (a b : String) (ha : a ≠ "") : a ++ b ≠ "" := by
  intro h
  have hl := congrArg String.length h
  rw [String.length_append] at hl
  have ha' : a.length ≠ 0 := by
    intro h0
    exact ha (String.ext (List.length_eq_zero.mp h0))
  have : ("" : String).length = 0 := rfl
  omega

theorem summaryBlock_empty_iff (summary : String) : summaryBlock summary = "" ↔ summary = "" := by
  unfold summaryBlock
  constructor
  · intro h
    by_contra hs
    rw [if_neg hs] at h
    exact String.ne_empty_of_append_right _ _ (by decide) h
  · intro h
    rw [if_pos h]

theorem factsBlock_empty_iff (layout : TimeFormat) (relevantFacts : List MemoryEntry) :
    factsBlock layout relevantFacts = "" ↔ relevantFacts = [] := by
  unfold factsBlock
  constructor
  · intro h
    by_contra hs
    rw [if_neg hs] at h
    exact String.ne_empty_of_append_right _ _ (by decide) h
  · intro h
    rw [if_pos h]

theorem roundsBlock_empty_iff (layout : TimeFormat) (rounds : List RoundMemory) :
    roundsBlock layout rounds = "" ↔ rounds = [] := by
  unfold roundsBlock
  constructor
  · intro h
    by_contra hs
    rw [if_neg hs] at h
    exact String.ne_empty_of_append_left _ _ (by decide) h
  · intro h
    rw [if_pos h]

theorem BuildContext_blocks {σ : Type} (m : Manager σ) (sorter : SliceSorter)
    (layout : TimeFormat) (clock : Nat → Int) (mem : StockMemory) (currentQuery : String)
    (relevantFacts : List MemoryEntry)
    (h : FindRelevant m.relevance sorter clock mem.KeyFacts currentQuery 5 =
      some relevantFacts) :
    BuildContext m sorter layout clock mem currentQuery =
      (mem, some (summaryBlock mem.Summary ++ factsBlock layout relevantFacts ++
        roundsBlock layout mem.RecentRounds)) := by
  unfold BuildContext
  simp only [h]
  congr 2
  have hsum : (if mem.Summary ≠ "" then ("" : String) ++ "【历史讨论摘要】\n" ++ mem.Summary ++ "\n\n"
      else "") = summaryBlock mem.Summary := by
    unfold summaryBlock
    by_cases hs : mem.Summary = ""
    · rw [if_pos hs, if_neg (by simpa using hs)]
    · rw [if_neg hs, if_pos hs, String.empty_append]
  rw [hsum]
  have hfacts : (if relevantFacts.length > 0 then
        relevantFacts.foldl
          (fun sb fact =>
            sb ++ ("- [" ++ layout.Date fact.Timestamp ++ "] " ++ fact.Content ++ "\n"))
          (summaryBlock mem.Summary ++ "【相关历史信息】\n") ++ "\n"
      else summaryBlock mem.Summary) =
      summaryBlock mem.Summary ++ factsBlock layout relevantFacts := by
    unfold factsBlock
    by_cases hr : relevantFacts = []
    · rw [if_pos hr, if_neg (by rw [hr]; simp), String.append_empty]
    · rw [if_neg hr, if_pos (List.length_pos.mpr hr)]
      change List.foldl (fun sb fact => sb ++ factLine layout fact) _ relevantFacts ++ "\n" = _
      rw [foldl_append_lines (factLine layout) relevantFacts]
      simp only [String.append_assoc]
  rw [hfacts]
  unfold roundsBlock
  by_cases hr : mem.RecentRounds = []
  · rw [if_pos hr, if_neg (by rw [hr]; simp), String.append_empty]
  · rw [if_neg hr, if_pos (List.length_pos.mpr hr)]
    have hfold : ∀ sb : String,
        mem.RecentRounds.foldl
          (fun sb round =>
            sb ++ ("[" ++ layout.DateTime round.Timestamp ++ "] 问题: " ++ round.Query ++ "\n") ++
              ("结论: " ++ round.Consensus ++ "\n\n")) sb =
        mem.RecentRounds.foldl (fun sb round => sb ++ roundLines layout round) sb := by
      intro sb
      congr 1
      funext sb round
      unfold roundLines
      rw [String.append_assoc]
    rw [hfold, foldl_append_lines (roundLines layout) mem.RecentRounds]
    simp only [String.append_assoc]


theorem calculateScore64_congr (queryKeywords : List String) (fact : MemoryEntry)
    (now1 now2 : Int)
    (h : timeDecay64 fact.Timestamp now1 = timeDecay64 fact.Timestamp now2) :
    calculateScore64 queryKeywords fact now1 = calculateScore64 queryKeywords fact now2 := by
  unfold calculateScore64
  simp only [h]

theorem scoreFacts_congr (queryKeywords : List String) (clock1 clock2 : Nat → Int)
    (facts : List MemoryEntry) :
    ∀ i : Nat,
      (∀ (j : Nat) (fact : MemoryEntry), facts[j]? = some fact →
        timeDecay64 fact.Timestamp (clock1 (i + j)) =
          timeDecay64 fact.Timestamp (clock2 (i + j))) →
      scoreFacts queryKeywords clock1 i facts = scoreFacts queryKeywords clock2 i facts := by
  induction facts with
  | nil =>
    intro i _
    rfl
  | cons fact rest ih =>
    intro i h
    have h0 : calculateScore64 queryKeywords fact (clock1 i) =
        calculateScore64 queryKeywords fact (clock2 i) :=
      calculateScore64_congr queryKeywords fact _ _ (by simpa using h 0 fact (by simp))
    have hrest := ih (i + 1) (fun j e hj => by
      have := h (j + 1) e (by simpa using hj)
      rw [show i + (j + 1) = i + 1 + j by omega] at this
      exact this)
    unfold scoreFacts
    simp only
    rw [h0, hrest]

theorem FindRelevant_congr (r : Relevance) (sorter : SliceSorter) (clock1 clock2 : Nat → Int)
    (facts : List MemoryEntry) (query : String) (limit : Int)
    (h : ∀ (j : Nat) (fact : MemoryEntry), facts[j]? = some fact →
      timeDecay64 fact.Timestamp (clock1 j) = timeDecay64 fact.Timestamp (clock2 j)) :
    FindRelevant r sorter clock1 facts query limit =
      FindRelevant r sorter clock2 facts query limit := by
  have hscored := scoreFacts_congr (effectiveKeywords r query) clock1 clock2 facts 0
    (fun j fact hj => by rw [zero_add]; exact h j fact hj)
  unfold FindRelevant
  simp only [hscored]

theorem timeDecay64_fresh (timestamp now : Int) (h : ageDays64 timestamp now ≤ 7) :
    timeDecay64 timestamp now = 1 := by
  unfold timeDecay64
  simp only
  rw [if_pos h]

/-- C12: `BuildContext` returns the concatenation, in this order, of the summary
block (empty iff the summary is empty, otherwise header, summary verbatim, blank
line), the facts block (empty iff `FindRelevant(KeyFacts, query, 5)` returns
nothing, otherwise header, one bullet line per returned fact in returned order,
blank line) and the rounds block (empty iff there is no recent round, otherwise
header and one query/consensus pair per round in stored order).  So with an
empty summary and no round the output is exactly the facts block, and with
moreover no relevant fact it is the empty string. -/
theorem BuildContext_sections {σ : Type} (m : Manager σ) (sorter : SliceSorter)
    (layout : TimeFormat) (clock : Nat → Int) (mem : StockMemory) (currentQuery : String) :
    ∃ relevantFacts,
      FindRelevant m.relevance sorter clock mem.KeyFacts currentQuery 5 = some relevantFacts ∧
      (BuildContext m sorter layout clock mem currentQuery).2 =
        some (summaryBlock mem.Summary ++ factsBlock layout relevantFacts ++
          roundsBlock layout mem.RecentRounds) ∧
      (summaryBlock mem.Summary = "" ↔ mem.Summary = "") ∧
      (factsBlock layout relevantFacts = "" ↔ relevantFacts = []) ∧
      (roundsBlock layout mem.RecentRounds = "" ↔ mem.RecentRounds = []) ∧
      (mem.Summary = "" → mem.RecentRounds = [] →
        (BuildContext m sorter layout clock mem currentQuery).2 =
          some (factsBlock layout relevantFacts)) ∧
      (mem.Summary = "" → relevantFacts = [] → mem.RecentRounds = [] →
        (BuildContext m sorter layout clock mem currentQuery).2 = some "") := by
  obtain ⟨relevantFacts, hrel⟩ :=
    FindRelevant_isSome m.relevance sorter clock mem.KeyFacts currentQuery 5 (by decide)
      (by decide)
  have htext := BuildContext_blocks m sorter layout clock mem currentQuery relevantFacts hrel
  refine ⟨relevantFacts, hrel, by rw [htext], summaryBlock_empty_iff _,
    factsBlock_empty_iff _ _, roundsBlock_empty_iff _ _, ?_, ?_⟩
  · intro hs hr
    rw [htext, (summaryBlock_empty_iff _).mpr hs, hr, (roundsBlock_empty_iff layout []).mpr rfl,
      String.empty_append, String.append_empty]
  · intro hs hf hr
    rw [htext, (summaryBlock_empty_iff _).mpr hs, hr, hf,
      (roundsBlock_empty_iff layout []).mpr rfl, (factsBlock_empty_iff layout []).mpr rfl]
    rfl

/-- C12 on a record with an empty summary, one relevant fact and no round: the
output is the facts block alone. -/
theorem BuildContext_sections_witness :
    (BuildContext (sampleManager DefaultConfig none) insertionSorter sampleLayout (fun _ => 1000)
        { NewStockMemory 0 "AAA" "Alpha" with KeyFacts := [sampleFact "rates rise" ["rates"] 0 1] }
        "rates").2 =
      some "【相关历史信息】\n- [2024-01-01] rates rise\n\n" := by
  obtain ⟨relevantFacts, hrel, _, _, _, _, honly, _⟩ :=
    BuildContext_sections (sampleManager DefaultConfig none) insertionSorter sampleLayout
      (fun _ => 1000)
      { NewStockMemory 0 "AAA" "Alpha" with KeyFacts := [sampleFact "rates rise" ["rates"] 0 1] }
      "rates"
  have hfound : FindRelevant (sampleManager DefaultConfig none).relevance insertionSorter
      (fun _ => 1000) [sampleFact "rates rise" ["rates"] 0 1] "rates" 5 =
      some [sampleFact "rates rise" ["rates"] 0 1] := by
    decide!
  have hsame : relevantFacts = [sampleFact "rates rise" ["rates"] 0 1] :=
    Option.some.inj (hrel.symm.trans hfound)
  rw [honly rfl rfl, hsame]
  decide


/-- C13, as stated, fails: the score of a fact decays with the clock reading
taken while scoring it, so the same record and query give the facts block at
one moment and, a hundred days later, when the `float64` score of the fact has
fallen from `0.25` under the threshold `0.1`, the empty string. -/
theorem BuildContext_deterministic_counterexample :
    (BuildContext (sampleManager DefaultConfig none) goSorter sampleLayout (fun _ => 0)
        { NewStockMemory 0 "AAA" "Alpha" with KeyFacts := [sampleFact "rates rise" [] 0 0] }
        "rates").2 =
      some "【相关历史信息】\n- [2024-01-01] rates rise\n\n" ∧
    (BuildContext (sampleManager DefaultConfig none) goSorter sampleLayout
        (fun _ => 8640000000)
        { NewStockMemory 0 "AAA" "Alpha" with KeyFacts := [sampleFact "rates rise" [] 0 0] }
        "rates").2 = some "" ∧
    calculateScore64 ["rates"] (sampleFact "rates rise" [] 0 0) 0 = 1 / 4 ∧
    calculateScore64 ["rates"] (sampleFact "rates rise" [] 0 0) 8640000000 <
      roundFloat64 (1 / 10) := by
  decide!

/-- C13 (amended): `BuildContext` leaves the record unchanged, and for a given
tokenizer, implementation of `sort.Slice` and process time zone its output
depends on the moment of the call only through the time decay factor that
`timeDecay` computes for each key fact when it is scored: two calls with the
same record and query at which every key fact has the same decay factor return
the same text.  That is so when the clock readings are the same, and when every
key fact is at most 7 days old at both calls (the factor is then `1`). -/
theorem BuildContext_deterministic {σ : Type} (m : Manager σ) (sorter : SliceSorter)
    (layout : TimeFormat) (clock1 clock2 : Nat → Int) (mem : StockMemory)
    (currentQuery : String)
    (hdecay : ∀ (j : Nat) (fact : MemoryEntry), mem.KeyFacts[j]? = some fact →
      clock1 j = clock2 j ∨
      (ageDays64 fact.Timestamp (clock1 j) ≤ 7 ∧ ageDays64 fact.Timestamp (clock2 j) ≤ 7) ∨
      timeDecay64 fact.Timestamp (clock1 j) = timeDecay64 fact.Timestamp (clock2 j)) :
    BuildContext m sorter layout clock1 mem currentQuery =
      BuildContext m sorter layout clock2 mem currentQuery ∧
    (BuildContext m sorter layout clock1 mem currentQuery).1 = mem := by
  refine ⟨?_, ?_⟩
  · unfold BuildContext
    rw [FindRelevant_congr m.relevance sorter clock1 clock2 mem.KeyFacts currentQuery 5
      (fun j fact hj => by
        rcases hdecay j fact hj with h | ⟨h1, h2⟩ | h
        · rw [h]
        · rw [timeDecay64_fresh _ _ h1, timeDecay64_fresh _ _ h2]
        · exact h)]
  · obtain ⟨relevantFacts, hrel⟩ :=
      FindRelevant_isSome m.relevance sorter clock1 mem.KeyFacts currentQuery 5 (by decide)
        (by decide)
    rw [BuildContext_blocks m sorter layout clock1 mem currentQuery relevantFacts hrel]

/-- C13 (amended) on a record with one fact stamped at `0`, read one second and
three days later: the fact is less than 7 days old at both calls, and both
return the same facts block. -/
theorem BuildContext_deterministic_witness :
    BuildContext (sampleManager DefaultConfig none) goSorter sampleLayout
        (fun _ => 1000)
        { NewStockMemory 0 "AAA" "Alpha" with KeyFacts := [sampleFact "rates rise" [] 0 0] }
        "rates" =
      BuildContext (sampleManager DefaultConfig none) goSorter sampleLayout
        (fun _ => 259200000)
        { NewStockMemory 0 "AAA" "Alpha" with KeyFacts := [sampleFact "rates rise" [] 0 0] }
        "rates" ∧
    (BuildContext (sampleManager DefaultConfig none) goSorter sampleLayout
        (fun _ => 259200000)
        { NewStockMemory 0 "AAA" "Alpha" with KeyFacts := [sampleFact "rates rise" [] 0 0] }
        "rates").2 = some "【相关历史信息】\n- [2024-01-01] rates rise\n\n" :=
  ⟨(BuildContext_deterministic (sampleManager DefaultConfig none) goSorter sampleLayout
    (fun _ => 1000) (fun _ => 259200000)
    { NewStockMemory 0 "AAA" "Alpha" with KeyFacts := [sampleFact "rates rise" [] 0 0] }
    "rates"
    (fun j fact hj => by
      cases j with
      | zero =>
        have hfact : fact = sampleFact "rates rise" [] 0 0 := by
          simpa [NewStockMemory] using hj.symm
        subst hfact
        exact Or.inr (Or.inl (by decide!))
      | succ k => simp [NewStockMemory] at hj)).1, by decide!⟩

/-! ## Record creation -/

/-- C14: `GetOrCreate` never returns an error, for every backend, backend state,
code and name; it returns the loaded record when the load succeeds, and whenever
the load fails, for whatever reason, a record with the given code and name,
`TotalRounds = 0`, an empty summary, no key fact and no recent round. -/
theorem GetOrCreate_never_fails {σ : Type} (m : Manager σ) (now : Int) (st : σ)
    (stockCode stockName : String) :
    (GetOrCreate m now st stockCode stockName).2.1 = none ∧
    (∀ mem, (m.storage.Load st stockCode).1 = Except.ok mem →
      (GetOrCreate m now st stockCode stockName).1 = mem) ∧
    (∀ err, (m.storage.Load st stockCode).1 = Except.error err →
      (GetOrCreate m now st stockCode stockName).1 = NewStockMemory now stockCode stockName ∧
      (GetOrCreate m now st stockCode stockName).1.StockCode = stockCode ∧
      (GetOrCreate m now st stockCode stockName).1.StockName = stockName ∧
      (GetOrCreate m now st stockCode stockName).1.TotalRounds = 0 ∧
      (GetOrCreate m now st stockCode stockName).1.Summary = "" ∧
      (GetOrCreate m now st stockCode stockName).1.KeyFacts = [] ∧
      (GetOrCreate m now st stockCode stockName).1.RecentRounds = []) := by
  unfold GetOrCreate
  simp only
  refine ⟨?_, ?_, ?_⟩
  · cases (m.storage.Load st stockCode).1 <;> rfl
  · intro mem h
    rw [h]
  · intro err h
    rw [h]
    exact ⟨rfl, rfl, rfl, rfl, rfl, rfl, rfl⟩

/-- C14 on a backend holding no record. -/
theorem GetOrCreate_never_fails_witness :
    GetOrCreate (sampleManager DefaultConfig none) 42 () "AAA" "Alpha" =
      (NewStockMemory 42 "AAA" "Alpha", none, ()) ∧
    (GetOrCreate (sampleManager DefaultConfig none) 42 () "AAA" "Alpha").1.TotalRounds = 0 :=
  ⟨rfl,
    ((GetOrCreate_never_fails (sampleManager DefaultConfig none) 42 () "AAA" "Alpha").2.2
      "not found" rfl).2.2.2.1⟩


/-! ## File storage -/

theorem Char.toNat_ofNat_of_valid (n : Nat) (h : n < 55296 ∨ 57343 < n ∧ n < 1114112) :
    (Char.ofNat n).toNat = n := by
  have hv : n.isValidChar := h
  unfold Char.ofNat
  rw [dif_pos hv]
  rfl

theorem EncodeRune_ofNat (n : Nat) (h : n < 55296 ∨ 57343 < n ∧ n < 1114112) :
    EncodeRune (Char.ofNat n) =
      if n ≤ 127 then [n]
      else if n ≤ 2047 then [192 + n / 64, 128 + n % 64]
      else if n ≤ 65535 then [224 + n / 4096, 128 + n / 64 % 64, 128 + n % 64]
      else [240 + n / 262144, 128 + n / 4096 % 64, 128 + n / 64 % 64, 128 + n % 64] := by
  unfold EncodeRune
  simp only [Char.toNat_ofNat_of_valid n h]

theorem DecodeRune_cases (s : ByteString) (hs : s ≠ []) (h : DecodeRune s ≠ (RuneError, 1)) :
    (∃ s0 rest, s = s0 :: rest ∧ s0 < 128 ∧ DecodeRune s = (s0, 1)) ∨
    (∃ s0 s1 rest, s = s0 :: s1 :: rest ∧ 194 ≤ s0 ∧ s0 < 224 ∧ 128 ≤ s1 ∧ s1 ≤ 191 ∧
      DecodeRune s = (s0 % 32 * 64 + s1 % 64, 2)) ∨
    (∃ s0 s1 s2 rest, s = s0 :: s1 :: s2 :: rest ∧ 224 ≤ s0 ∧ s0 < 240 ∧
      128 ≤ s1 ∧ s1 ≤ 191 ∧ (s0 = 224 → 160 ≤ s1) ∧ (s0 = 237 → s1 ≤ 159) ∧
      128 ≤ s2 ∧ s2 ≤ 191 ∧
      DecodeRune s = (s0 % 16 * 4096 + s1 % 64 * 64 + s2 % 64, 3)) ∨
    (∃ s0 s1 s2 s3 rest, s = s0 :: s1 :: s2 :: s3 :: rest ∧ 240 ≤ s0 ∧ s0 ≤ 244 ∧
      128 ≤ s1 ∧ s1 ≤ 191 ∧ (s0 = 240 → 144 ≤ s1) ∧ (s0 = 244 → s1 ≤ 143) ∧
      128 ≤ s2 ∧ s2 ≤ 191 ∧ 128 ≤ s3 ∧ s3 ≤ 191 ∧
      DecodeRune s = (s0 % 8 * 262144 + s1 % 64 * 4096 + s2 % 64 * 64 + s3 % 64, 4)) := by
  rcases s with _ | ⟨s0, rest⟩
  · exact absurd rfl hs
  by_cases h1 : s0 < 128
  · exact Or.inl ⟨s0, rest, rfl, h1, by simp [DecodeRune, h1]⟩
  by_cases h2 : s0 < 194 ∨ 244 < s0
  · exact absurd (by simp [DecodeRune, h1, h2]) h
  rcases rest with _ | ⟨s1, rest⟩
  · refine absurd ?_ h
    unfold DecodeRune
    simp only [if_neg h1, if_neg h2]
    split_ifs <;> rfl
  by_cases hlo : s1 < (if s0 = 224 then 160 else if s0 = 240 then 144 else 128) ∨
      (if s0 = 237 then 159 else if s0 = 244 then 143 else 191) < s1
  · refine absurd ?_ h
    unfold DecodeRune
    simp only [if_neg h1, if_neg h2, if_pos hlo]
    split_ifs <;> rfl
  have hr1 : 128 ≤ s1 ∧ s1 ≤ 191 ∧ (s0 = 224 → 160 ≤ s1) ∧ (s0 = 240 → 144 ≤ s1) ∧
      (s0 = 237 → s1 ≤ 159) ∧ (s0 = 244 → s1 ≤ 143) := by
    split_ifs at hlo <;> omega
  by_cases hsz2 : s0 < 224
  · refine Or.inr (Or.inl ⟨s0, s1, rest, rfl, by omega, hsz2, hr1.1, hr1.2.1, ?_⟩)
    unfold DecodeRune
    simp only [if_neg h1, if_neg h2, if_neg hlo, if_pos hsz2]
    simp
  rcases rest with _ | ⟨s2, rest⟩
  · refine absurd ?_ h
    unfold DecodeRune
    simp only [if_neg h1, if_neg h2, if_neg hlo, if_neg hsz2]
    split_ifs <;> simp_all
  by_cases hc2 : s2 < 128 ∨ 191 < s2
  · refine absurd ?_ h
    unfold DecodeRune
    simp only [if_neg h1, if_neg h2, if_neg hlo, if_neg hsz2, if_pos hc2]
    split_ifs <;> simp_all
  by_cases hsz3 : s0 < 240
  · refine Or.inr (Or.inr (Or.inl ⟨s0, s1, s2, rest, rfl, by omega, hsz3, hr1.1, hr1.2.1,
      hr1.2.2.1, hr1.2.2.2.2.1, by omega, by omega, ?_⟩))
    unfold DecodeRune
    simp only [if_neg h1, if_neg h2, if_neg hlo, if_neg hsz2, if_neg hc2, if_pos hsz3]
    simp
  rcases rest with _ | ⟨s3, rest⟩
  · refine absurd ?_ h
    unfold DecodeRune
    simp only [if_neg h1, if_neg h2, if_neg hlo, if_neg hsz2, if_neg hc2, if_neg hsz3]
    simp
  by_cases hc3 : s3 < 128 ∨ 191 < s3
  · refine absurd ?_ h
    unfold DecodeRune
    simp only [if_neg h1, if_neg h2, if_neg hlo, if_neg hsz2, if_neg hc2, if_neg hsz3, if_pos hc3]
    simp
  refine Or.inr (Or.inr (Or.inr ⟨s0, s1, s2, s3, rest, rfl, by omega, by omega, hr1.1, hr1.2.1,
    hr1.2.2.2.1, hr1.2.2.2.2.2, by omega, by omega, by omega, by omega, ?_⟩))
  unfold DecodeRune
  simp only [if_neg h1, if_neg h2, if_neg hlo, if_neg hsz2, if_neg hc2, if_neg hsz3, if_neg hc3]
  simp

theorem DecodeRune_valid (s : ByteString) (hs : s ≠ []) (h : DecodeRune s ≠ (RuneError, 1)) :
    EncodeRune (Char.ofNat (DecodeRune s).1) = s.take (DecodeRune s).2 ∧
    1 ≤ (DecodeRune s).2 := by
  rcases DecodeRune_cases s hs h with ⟨s0, rest, rfl, h0, hd⟩ |
    ⟨s0, s1, rest, rfl, h0, h0', h1, h1', hd⟩ |
    ⟨s0, s1, s2, rest, rfl, h0, h0', h1, h1', ha, hb, h2, h2', hd⟩ |
    ⟨s0, s1, s2, s3, rest, rfl, h0, h0', h1, h1', ha, hb, h2, h2', h3, h3', hd⟩
  · rw [hd]
    refine ⟨?_, le_refl _⟩
    rw [EncodeRune_ofNat _ (by omega), if_pos (by omega)]
    rfl
  · rw [hd]
    refine ⟨?_, by simp⟩
    rw [EncodeRune_ofNat _ (by omega), if_neg (by omega), if_pos (by omega)]
    simp only [List.take_succ_cons, List.take_zero]
    congr 1
    · omega
    · congr 1
      omega
  · rw [hd]
    refine ⟨?_, by simp⟩
    have hv : s0 % 16 * 4096 + s1 % 64 * 64 + s2 % 64 < 55296 ∨
        57343 < s0 % 16 * 4096 + s1 % 64 * 64 + s2 % 64 ∧
          s0 % 16 * 4096 + s1 % 64 * 64 + s2 % 64 < 1114112 := by
      omega
    rw [EncodeRune_ofNat _ hv, if_neg (by omega), if_neg (by omega), if_pos (by omega)]
    simp only [List.take_succ_cons, List.take_zero]
    congr 1
    · omega
    · congr 1
      · omega
      · congr 1
        omega
  · rw [hd]
    refine ⟨?_, by simp⟩
    rw [EncodeRune_ofNat _ (by omega), if_neg (by omega), if_neg (by omega), if_neg (by omega)]
    simp only [List.take_succ_cons, List.take_zero]
    congr 1
    · omega
    · congr 1
      · omega
      · congr 1
        · omega
        · congr 1
          omega

theorem validRunes_encode :
    ∀ (fuel : Nat) (s : ByteString), s.length ≤ fuel → validStringAux fuel s = true →
      (validRunes fuel s).flatMap EncodeRune = s := by
  intro fuel
  induction fuel with
  | zero =>
    intro s hlen _
    have : s = [] := List.length_eq_zero.mp (Nat.le_zero.mp hlen)
    subst this
    rfl
  | succ fuel ih =>
    intro s hlen hvalid
    cases s with
    | nil => rfl
    | cons b rest =>
      unfold validStringAux at hvalid
      simp only at hvalid
      by_cases herr : DecodeRune (b :: rest) = (RuneError, 1)
      · rw [if_pos herr] at hvalid
        exact absurd hvalid (by decide)
      · rw [if_neg herr] at hvalid
        obtain ⟨henc, hsize⟩ := DecodeRune_valid (b :: rest) (by simp) herr
        unfold validRunes
        simp only [List.flatMap_cons]
        rw [henc, ih _ (by rw [List.length_drop]; simp only [List.length_cons] at hlen ⊢; omega)
          hvalid]
        exact List.take_append_drop _ _

theorem goString_jsonString (s : ByteString) (h : ValidString s = true) :
    goString (jsonString s) = s :=
  validRunes_encode s.length s (le_refl _) h

theorem decodeString_marshal (cur s : ByteString) (h : ValidString s = true) :
    decodeString cur (marshalString s) = Except.ok s := by
  unfold marshalString decodeString
  simp only
  rw [goString_jsonString s h]

theorem mapM_marshal {α β : Type} (f : α → β) (g : β → Except Error α) (xs : List α)
    (h : ∀ x ∈ xs, g (f x) = Except.ok x) : (xs.map f).mapM g = Except.ok xs := by
  induction xs with
  | nil => rfl
  | cons x rest ih =>
    rw [List.map_cons, List.mapM_cons, h x (List.mem_cons_self _ _),
      ih (fun y hy => h y (List.mem_cons_of_mem _ hy))]
    rfl

theorem decodeStrings_marshal (cur xs : List ByteString) (h : ∀ s ∈ xs, ValidString s = true) :
    decodeStrings cur (marshalStrings xs) = Except.ok xs := by
  unfold marshalStrings decodeStrings
  simp only
  exact mapM_marshal marshalString (decodeString []) xs
    (fun s hs => decodeString_marshal [] s (h s hs))

theorem decodeInt_marshal (cur n : Int) (h : isInt64 n) :
    decodeInt cur (JSONValue.integer n) = Except.ok n := by
  unfold decodeInt
  exact if_pos h

theorem decodeFloat_marshal (cur x : ℚ) (h : isFloat64 x) :
    decodeFloat cur (marshalFloat x) = Except.ok x := by
  unfold marshalFloat
  split_ifs with hint
  · have hx : ((x.num : Int) : ℚ) = x := Rat.coe_int_num_of_den_eq_one hint.1
    unfold decodeFloat parseFloat
    simp only
    rw [hx, h.1, if_pos h.2]
  · unfold decodeFloat parseFloat
    simp only
    rw [h.1, if_pos h.2]

theorem Except.ok_bind {α β : Type} (x : α) (f : α → Except Error β) :
    (Except.ok x >>= f) = f x :=
  rfl

theorem setEntryField_marshal (e : RawMemoryEntry) (s0 s1 s2 s3 : ByteString)
    (ks : List ByteString) (t : Int) (w : ℚ)
    (h0 : ValidString s0 = true) (h1 : ValidString s1 = true) (h2 : ValidString s2 = true)
    (h3 : ValidString s3 = true) (h4 : ∀ s ∈ ks, ValidString s = true) (h5 : isInt64 t)
    (h6 : isFloat64 w) :
    setEntryField e "id" (marshalString s0) = Except.ok { e with ID := s0 } ∧
    setEntryField e "type" (marshalString s1) = Except.ok { e with Typ := s1 } ∧
    setEntryField e "content" (marshalString s2) = Except.ok { e with Content := s2 } ∧
    setEntryField e "source" (marshalString s3) = Except.ok { e with Source := s3 } ∧
    setEntryField e "keywords" (marshalStrings ks) = Except.ok { e with Keywords := ks } ∧
    setEntryField e "timestamp" (JSONValue.integer t) = Except.ok { e with Timestamp := t } ∧
    setEntryField e "weight" (marshalFloat w) = Except.ok { e with Weight := w } := by
  have i0 : fieldIndex entryTags "id" = some 0 := by decide
  have i1 : fieldIndex entryTags "type" = some 1 := by decide
  have i2 : fieldIndex entryTags "content" = some 2 := by decide
  have i3 : fieldIndex entryTags "source" = some 3 := by decide
  have i4 : fieldIndex entryTags "keywords" = some 4 := by decide
  have i5 : fieldIndex entryTags "timestamp" = some 5 := by decide
  have i6 : fieldIndex entryTags "weight" = some 6 := by decide
  unfold setEntryField
  rw [i0, i1, i2, i3, i4, i5, i6]
  simp only
  rw [decodeString_marshal _ _ h0, decodeString_marshal _ _ h1, decodeString_marshal _ _ h2,
    decodeString_marshal _ _ h3, decodeStrings_marshal _ _ h4, decodeInt_marshal _ _ h5,
    decodeFloat_marshal _ _ h6]
  exact ⟨rfl, rfl, rfl, rfl, rfl, rfl, rfl⟩

theorem decodeEntry_marshal (e : RawMemoryEntry) (hv : e.Valid) (ht : e.Typed) :
    decodeEntry zeroEntry (marshalEntry e) = Except.ok e := by
  obtain ⟨h0, h1, h2, h3, h4⟩ := hv
  obtain ⟨h5, h6⟩ := ht
  have hset := fun cur => setEntryField_marshal cur _ _ _ _ _ _ _ h0 h1 h2 h3 h4 h5 h6
  unfold marshalEntry decodeEntry
  simp only [entryTags, List.zip_cons_cons, List.zip_nil_right, List.foldlM_cons, List.foldlM_nil]
  rw [(hset _).1, Except.ok_bind, (hset _).2.1, Except.ok_bind, (hset _).2.2.1, Except.ok_bind,
    (hset _).2.2.2.1, Except.ok_bind, (hset _).2.2.2.2.1, Except.ok_bind,
    (hset _).2.2.2.2.2.1, Except.ok_bind, (hset _).2.2.2.2.2.2, Except.ok_bind]
  rfl

theorem setRoundField_marshal (r : RawRoundMemory) (n : Int) (s1 s2 : ByteString)
    (ks : List ByteString) (t : Int)
    (h0 : isInt64 n) (h1 : ValidString s1 = true) (h2 : ValidString s2 = true)
    (h3 : ∀ s ∈ ks, ValidString s = true) (h4 : isInt64 t) :
    setRoundField r "round" (JSONValue.integer n) = Except.ok { r with Round := n } ∧
    setRoundField r "query" (marshalString s1) = Except.ok { r with Query := s1 } ∧
    setRoundField r "consensus" (marshalString s2) = Except.ok { r with Consensus := s2 } ∧
    setRoundField r "key_points" (marshalStrings ks) = Except.ok { r with KeyPoints := ks } ∧
    setRoundField r "timestamp" (JSONValue.integer t) = Except.ok { r with Timestamp := t } := by
  have i0 : fieldIndex roundTags "round" = some 0 := by decide
  have i1 : fieldIndex roundTags "query" = some 1 := by decide
  have i2 : fieldIndex roundTags "consensus" = some 2 := by decide
  have i3 : fieldIndex roundTags "key_points" = some 3 := by decide
  have i4 : fieldIndex roundTags "timestamp" = some 4 := by decide
  unfold setRoundField
  rw [i0, i1, i2, i3, i4]
  simp only
  rw [decodeInt_marshal _ _ h0, decodeString_marshal _ _ h1, decodeString_marshal _ _ h2,
    decodeStrings_marshal _ _ h3, decodeInt_marshal _ _ h4]
  exact ⟨rfl, rfl, rfl, rfl, rfl⟩

theorem decodeRound_marshal (r : RawRoundMemory) (hv : r.Valid) (ht : r.Typed) :
    decodeRound zeroRound (marshalRound r) = Except.ok r := by
  obtain ⟨h1, h2, h3⟩ := hv
  obtain ⟨h0, h4⟩ := ht
  have hset := fun cur => setRoundField_marshal cur _ _ _ _ _ h0 h1 h2 h3 h4
  unfold marshalRound decodeRound
  simp only [roundTags, List.zip_cons_cons, List.zip_nil_right, List.foldlM_cons, List.foldlM_nil]
  rw [(hset _).1, Except.ok_bind, (hset _).2.1, Except.ok_bind, (hset _).2.2.1, Except.ok_bind,
    (hset _).2.2.2.1, Except.ok_bind, (hset _).2.2.2.2, Except.ok_bind]
  rfl

theorem setStockField_marshal (mem : RawStockMemory) (s0 s1 s2 : ByteString)
    (facts : List RawMemoryEntry) (rounds : List RawRoundMemory) (n5 n6 n7 : Int)
    (h0 : ValidString s0 = true) (h1 : ValidString s1 = true) (h2 : ValidString s2 = true)
    (h3 : ∀ e ∈ facts, e.Valid ∧ e.Typed) (h4 : ∀ r ∈ rounds, r.Valid ∧ r.Typed)
    (h5 : isInt64 n5) (h6 : isInt64 n6) (h7 : isInt64 n7) :
    setStockField mem "stock_code" (marshalString s0) = Except.ok { mem with StockCode := s0 } ∧
    setStockField mem "stock_name" (marshalString s1) = Except.ok { mem with StockName := s1 } ∧
    setStockField mem "summary" (marshalString s2) = Except.ok { mem with Summary := s2 } ∧
    setStockField mem "key_facts" (JSONValue.array (facts.map marshalEntry)) =
      Except.ok { mem with KeyFacts := facts } ∧
    setStockField mem "recent_rounds" (JSONValue.array (rounds.map marshalRound)) =
      Except.ok { mem with RecentRounds := rounds } ∧
    setStockField mem "total_rounds" (JSONValue.integer n5) =
      Except.ok { mem with TotalRounds := n5 } ∧
    setStockField mem "created_at" (JSONValue.integer n6) =
      Except.ok { mem with CreatedAt := n6 } ∧
    setStockField mem "updated_at" (JSONValue.integer n7) =
      Except.ok { mem with UpdatedAt := n7 } := by
  have i0 : fieldIndex stockTags "stock_code" = some 0 := by decide
  have i1 : fieldIndex stockTags "stock_name" = some 1 := by decide
  have i2 : fieldIndex stockTags "summary" = some 2 := by decide
  have i3 : fieldIndex stockTags "key_facts" = some 3 := by decide
  have i4 : fieldIndex stockTags "recent_rounds" = some 4 := by decide
  have i5 : fieldIndex stockTags "total_rounds" = some 5 := by decide
  have i6 : fieldIndex stockTags "created_at" = some 6 := by decide
  have i7 : fieldIndex stockTags "updated_at" = some 7 := by decide
  have hfacts : decodeEntries mem.KeyFacts (JSONValue.array (facts.map marshalEntry)) =
      Except.ok facts :=
    mapM_marshal marshalEntry (decodeEntry zeroEntry) facts
      (fun e he => decodeEntry_marshal e (h3 e he).1 (h3 e he).2)
  have hrounds : decodeRounds mem.RecentRounds (JSONValue.array (rounds.map marshalRound)) =
      Except.ok rounds :=
    mapM_marshal marshalRound (decodeRound zeroRound) rounds
      (fun r hr => decodeRound_marshal r (h4 r hr).1 (h4 r hr).2)
  unfold setStockField
  rw [i0, i1, i2, i3, i4, i5, i6, i7]
  simp only
  rw [decodeString_marshal _ _ h0, decodeString_marshal _ _ h1, decodeString_marshal _ _ h2,
    hfacts, hrounds, decodeInt_marshal _ _ h5, decodeInt_marshal _ _ h6,
    decodeInt_marshal _ _ h7]
  exact ⟨rfl, rfl, rfl, rfl, rfl, rfl, rfl, rfl⟩

theorem Unmarshal_marshalStock (mem : RawStockMemory) (hv : mem.Valid) (ht : mem.Typed) :
    Unmarshal (FileData.document (marshalStock mem)) = Except.ok mem := by
  obtain ⟨h0, h1, h2, hfv, hrv⟩ := hv
  obtain ⟨h5, h6, h7, hft, hrt⟩ := ht
  have hset := fun cur => setStockField_marshal cur _ _ _ _ _ _ _ _ h0 h1 h2
    (fun e he => ⟨hfv e he, hft e he⟩) (fun r hr => ⟨hrv r hr, hrt r hr⟩) h5 h6 h7
  unfold marshalStock Unmarshal
  simp only [stockTags, List.zip_cons_cons, List.zip_nil_right, List.foldlM_cons, List.foldlM_nil]
  rw [(hset _).1, Except.ok_bind, (hset _).2.1, Except.ok_bind, (hset _).2.2.1, Except.ok_bind,
    (hset _).2.2.2.1, Except.ok_bind, (hset _).2.2.2.2.1, Except.ok_bind,
    (hset _).2.2.2.2.2.1, Except.ok_bind, (hset _).2.2.2.2.2.2.1, Except.ok_bind,
    (hset _).2.2.2.2.2.2.2, Except.ok_bind]
  rfl

theorem FileStorage.Save_ok (s : FileStorage) (mem : RawStockMemory)
    (h : (FileStorage.Save s mem).1 = none) :
    (FileStorage.Save s mem).2.cache mem.StockCode = some mem ∧
    (FileStorage.Save s mem).2.disk.files (s.getPath mem.StockCode) =
      some (FileData.document (marshalStock mem)) ∧
    (FileStorage.Save s mem).2.getPath mem.StockCode = s.getPath mem.StockCode := by
  unfold FileStorage.Save at h ⊢
  unfold MarshalIndent at h ⊢
  simp only at h ⊢
  unfold WriteFile at h ⊢
  cases hw : s.disk.writeError (s.getPath mem.StockCode) with
  | some err =>
    rw [hw] at h
    simp at h
  | none =>
    refine ⟨?_, ?_, ?_⟩
    · simp
    · simp
    · rfl

/-- C15, as stated, fails for a record one of whose strings is not valid UTF-8:
`MarshalIndent` writes U+FFFD for the byte `0xFF` of the summary without
reporting an error, so `Save` succeeds, a `Load` served from the cache returns
the record, and a `Load` after `Invalidate` returns a record whose summary is
the three bytes `EF BF BD`. -/
theorem FileStorage_round_trip_counterexample :
    (FileStorage.Save sampleFileStorage invalidStored).1 = none ∧
    (FileStorage.Load (FileStorage.Save sampleFileStorage invalidStored).2
        invalidStored.StockCode).1 = Except.ok invalidStored ∧
    (FileStorage.Load
        (FileStorage.Invalidate (FileStorage.Save sampleFileStorage invalidStored).2
          invalidStored.StockCode)
        invalidStored.StockCode).1 =
      Except.ok { invalidStored with Summary := [239, 191, 189] } ∧
    invalidStored.Summary = [255] ∧
    ({ invalidStored with Summary := [239, 191, 189] } : RawStockMemory) ≠ invalidStored :=
  ⟨rfl, rfl, rfl, rfl, by decide⟩

/-- C15 (amended): for every record all of whose strings are valid UTF-8 (its
integers and weights being values of their Go types) and every storage state,
if `Save` succeeds then the file of the record holds the JSON object with one
member per field under its `json` tag; a following `Load` of the code of the
record succeeds and returns a record equal to the saved one in all fields, both
when the cache entry is still present and when `Invalidate` has cleared it in
between, so that the record is decoded again from the file. -/
theorem FileStorage_round_trip (s : FileStorage) (mem : RawStockMemory)
    (hvalid : mem.Valid) (htyped : mem.Typed)
    (hsave : (FileStorage.Save s mem).1 = none) :
    (FileStorage.Load (FileStorage.Save s mem).2 mem.StockCode).1 = Except.ok mem ∧
    (FileStorage.Invalidate (FileStorage.Save s mem).2 mem.StockCode).cache mem.StockCode =
      none ∧
    (FileStorage.Invalidate (FileStorage.Save s mem).2 mem.StockCode).disk.files
        (s.getPath mem.StockCode) = some (FileData.document (marshalStock mem)) ∧
    (FileStorage.Load (FileStorage.Invalidate (FileStorage.Save s mem).2 mem.StockCode)
      mem.StockCode).1 = Except.ok mem := by
  obtain ⟨hcache, hfile, hpath⟩ := FileStorage.Save_ok s mem hsave
  refine ⟨?_, ?_, ?_, ?_⟩
  · unfold FileStorage.Load
    rw [hcache]
  · simp [FileStorage.Invalidate]
  · exact hfile
  · have hpath2 : (FileStorage.Invalidate (FileStorage.Save s mem).2 mem.StockCode).getPath
        mem.StockCode = s.getPath mem.StockCode := hpath
    unfold FileStorage.Load
    have hnone : (FileStorage.Invalidate (FileStorage.Save s mem).2 mem.StockCode).cache
        mem.StockCode = none := by
      simp [FileStorage.Invalidate]
    rw [hnone]
    simp only
    rw [hpath2]
    have hread : ReadFile (FileStorage.Invalidate (FileStorage.Save s mem).2 mem.StockCode).disk
        (s.getPath mem.StockCode) = Except.ok (FileData.document (marshalStock mem)) := by
      unfold ReadFile
      have hfile2 : (FileStorage.Invalidate (FileStorage.Save s mem).2 mem.StockCode).disk.files
          (s.getPath mem.StockCode) = some (FileData.document (marshalStock mem)) := hfile
      rw [hfile2]
    rw [hread]
    simp only
    rw [Unmarshal_marshalStock mem hvalid htyped]

theorem sampleStored_valid : sampleStored.Valid := by
  refine ⟨by decide, by decide, by decide, ?_, ?_⟩
  · intro e he
    have : e = sampleStoredFact := by simpa [sampleStored] using he
    subst this
    refine ⟨by decide, by decide, by decide, by decide, ?_⟩
    intro s hs
    have : s = goString "rates" := by simpa [sampleStoredFact] using hs
    subst this
    decide
  · intro r hr
    have : r = sampleStoredRound := by simpa [sampleStored] using hr
    subst this
    refine ⟨by decide, by decide, ?_⟩
    intro s hs
    simp [sampleStoredRound] at hs

theorem sampleStored_typed : sampleStored.Typed := by
  refine ⟨by unfold isInt64; decide, by unfold isInt64; decide, by unfold isInt64; decide, ?_, ?_⟩
  · intro e he
    have : e = sampleStoredFact := by simpa [sampleStored] using he
    subst this
    exact ⟨by unfold isInt64; decide, by decide!, by decide!⟩
  · intro r hr
    have : r = sampleStoredRound := by simpa [sampleStored] using hr
    subst this
    exact ⟨by unfold isInt64; decide, by unfold isInt64; decide⟩

theorem sampleStored_document :
    marshalStock sampleStored =
      JSONValue.object
        [("stock_code", JSONValue.text "AAA"), ("stock_name", JSONValue.text "Alpha"),
          ("summary", JSONValue.text "利率上升"),
          ("key_facts", JSONValue.array
            [JSONValue.object
              [("id", JSONValue.text "f1"), ("type", JSONValue.text "fact"),
                ("content", JSONValue.text "rates rise"), ("source", JSONValue.text "analyst"),
                ("keywords", JSONValue.array [JSONValue.text "rates"]),
                ("timestamp", JSONValue.integer 1000), ("weight", JSONValue.decimal (3 / 4))]]),
          ("recent_rounds", JSONValue.array
            [JSONValue.object
              [("round", JSONValue.integer 1), ("query", JSONValue.text "q?"),
                ("consensus", JSONValue.text "hold"), ("key_points", JSONValue.array []),
                ("timestamp", JSONValue.integer 2000)]]),
          ("total_rounds", JSONValue.integer 1), ("created_at", JSONValue.integer 500),
          ("updated_at", JSONValue.integer 2000)] := by
  have h1 : jsonString (goString "AAA") = "AAA" := by decide
  have h2 : jsonString (goString "Alpha") = "Alpha" := by decide
  have h3 : jsonString (goString "利率上升") = "利率上升" := by decide
  have h4 : jsonString (goString "f1") = "f1" := by decide
  have h5 : jsonString (goString "fact") = "fact" := by decide
  have h6 : jsonString (goString "rates rise") = "rates rise" := by decide
  have h7 : jsonString (goString "analyst") = "analyst" := by decide
  have h8 : jsonString (goString "rates") = "rates" := by decide
  have h9 : jsonString (goString "q?") = "q?" := by decide
  have h10 : jsonString (goString "hold") = "hold" := by decide
  have hw : marshalFloat (3 / 4) = JSONValue.decimal (3 / 4) := by
    unfold marshalFloat
    rw [if_neg (by decide!)]
  unfold marshalStock marshalEntry marshalRound marshalStrings marshalString sampleStored
    sampleStoredFact sampleStoredRound
  simp only [List.map_cons, List.map_nil, h1, h2, h3, h4, h5, h6, h7, h8, h9, h10, hw]
  rfl

/-- C15 (amended) on a record with a summary in Chinese, one fact and one round,
saved into an empty directory: the file `data/memories/AAA.json` holds the
document shown, and the record read back after `Invalidate` is the saved one. -/
theorem FileStorage_round_trip_witness :
    sampleStored.Valid ∧ sampleStored.Typed ∧
    (FileStorage.Save sampleFileStorage sampleStored).1 = none ∧
    sampleFileStorage.getPath sampleStored.StockCode = goString "data/memories/AAA.json" ∧
    marshalStock sampleStored =
      JSONValue.object
        [("stock_code", JSONValue.text "AAA"), ("stock_name", JSONValue.text "Alpha"),
          ("summary", JSONValue.text "利率上升"),
          ("key_facts", JSONValue.array
            [JSONValue.object
              [("id", JSONValue.text "f1"), ("type", JSONValue.text "fact"),
                ("content", JSONValue.text "rates rise"), ("source", JSONValue.text "analyst"),
                ("keywords", JSONValue.array [JSONValue.text "rates"]),
                ("timestamp", JSONValue.integer 1000), ("weight", JSONValue.decimal (3 / 4))]]),
          ("recent_rounds", JSONValue.array
            [JSONValue.object
              [("round", JSONValue.integer 1), ("query", JSONValue.text "q?"),
                ("consensus", JSONValue.text "hold"), ("key_points", JSONValue.array []),
                ("timestamp", JSONValue.integer 2000)]]),
          ("total_rounds", JSONValue.integer 1), ("created_at", JSONValue.integer 500),
          ("updated_at", JSONValue.integer 2000)] ∧
    (FileStorage.Load
        (FileStorage.Invalidate (FileStorage.Save sampleFileStorage sampleStored).2
          sampleStored.StockCode)
        sampleStored.StockCode).1 = Except.ok sampleStored :=
  ⟨sampleStored_valid, sampleStored_typed, rfl, by decide, sampleStored_document,
    (FileStorage_round_trip sampleFileStorage sampleStored sampleStored_valid sampleStored_typed
      rfl).2.2.2⟩


/-! ## Key points and fact extraction -/

theorem fallbackExtractKeyPoints_eq (discussions : List DiscussionInput) :
    fallbackExtractKeyPoints discussions = discussions.map keyPoint := by
  have hstep : ∀ d : DiscussionInput,
      (d.AgentName ++ ": " ++
        (if d.Content.data.length > 80 then String.mk (d.Content.data.take 80) ++ "..."
        else d.Content)) = keyPoint d := by
    intro d
    unfold keyPoint
    have hl : d.Content.length = d.Content.data.length := rfl
    by_cases h : d.Content.data.length > 80
    · rw [if_pos h, if_neg (by omega)]
    · rw [if_neg h, if_pos (by omega)]
  have hfold : ∀ (ds : List DiscussionInput) (points : List String),
      ds.foldl
        (fun points d =>
          let runes := d.Content.data
          let content :=
            if runes.length > 80 then String.mk (runes.take 80) ++ "..." else d.Content
          points ++ [d.AgentName ++ ": " ++ content])
        points = points ++ ds.map keyPoint := by
    intro ds
    induction ds with
    | nil =>
      intro points
      simp
    | cons d rest ih =>
      intro points
      rw [List.foldl_cons, ih]
      simp only [hstep, List.map_cons, List.append_assoc, List.singleton_append]
  unfold fallbackExtractKeyPoints
  rw [hfold, List.nil_append]

/-- C16: with no summarizer configured, `ExtractKeyPoints` never fails and
returns, for every list of discussion inputs, a list of the same length and
order whose `i`-th element is the agent name, `": "`, and the content, unchanged
when it has at most 80 characters and otherwise its first 80 characters followed
by `"..."` (characters are code points, not bytes). -/
theorem ExtractKeyPoints_fallback {σ : Type} (m : Manager σ)
    (discussions : List DiscussionInput) (hs : m.summarizer = none) :
    ∃ points, ExtractKeyPoints m discussions = Except.ok points ∧
      points.length = discussions.length ∧
      points = discussions.map keyPoint ∧
      ∀ (i : Nat) (d : DiscussionInput), discussions[i]? = some d →
        points[i]? =
          some (d.AgentName ++ ": " ++
            (if d.Content.length ≤ 80 then d.Content
            else String.mk (d.Content.data.take 80) ++ "...")) := by
  refine ⟨discussions.map keyPoint, ?_, List.length_map _ _, rfl, ?_⟩
  · unfold ExtractKeyPoints
    rw [hs, fallbackExtractKeyPoints_eq]
  · intro i d hd
    rw [List.getElem?_map, hd]
    rfl

/-- C16 on a short content and a content of 81 characters. -/
theorem ExtractKeyPoints_fallback_witness :
    ExtractKeyPoints (sampleManager DefaultConfig none)
        [{ AgentName := "bull", Content := "buy" },
          { AgentName := "bear", Content := String.mk (List.replicate 81 'x') }] =
      Except.ok ["bull: buy", "bear: " ++ String.mk (List.replicate 80 'x') ++ "..."] := by
  obtain ⟨points, hpoints, _, hmap, _⟩ :=
    ExtractKeyPoints_fallback (sampleManager DefaultConfig none)
      [{ AgentName := "bull", Content := "buy" },
        { AgentName := "bear", Content := String.mk (List.replicate 81 'x') }] rfl
  rw [hpoints, hmap]
  exact congrArg Except.ok (by decide)

/-- C17: `ExtractAndAddFacts` on a manager with no summarizer configured does not
return: the call of `ExtractFacts` on the nil `summarizer` field is aborted by
the Go runtime, the record being unchanged; with a summarizer whose fact
extraction fails, the failure is returned and the record is unchanged. -/
theorem ExtractAndAddFacts_without_summarizer {σ : Type} (m : Manager σ) (mem : StockMemory)
    (content source : String) :
    (m.summarizer = none → ExtractAndAddFacts m mem content source = (mem, Status.aborted)) ∧
    (∀ (summarizer : Summarizer) (err : Error), m.summarizer = some summarizer →
      summarizer.ExtractFacts content source = Except.error err →
      ExtractAndAddFacts m mem content source = (mem, Status.returned (some err))) := by
  refine ⟨fun hs => ?_, fun summarizer err hs hfail => ?_⟩
  · unfold ExtractAndAddFacts
    rw [hs]
  · unfold ExtractAndAddFacts
    rw [hs]
    simp only [hfail]

/-- C17 on a manager built without a summarizer. -/
theorem ExtractAndAddFacts_without_summarizer_witness :
    ExtractAndAddFacts (sampleManager DefaultConfig none) sampleRecord "rates rise" "analyst" =
      (sampleRecord, Status.aborted) ∧
    ExtractAndAddFacts (sampleManager DefaultConfig none) sampleRecord "rates rise" "analyst" ≠
      (sampleRecord, Status.returned (some "no summarizer")) :=
  ⟨(ExtractAndAddFacts_without_summarizer (sampleManager DefaultConfig none) sampleRecord
      "rates rise" "analyst").1 rfl,
    by
      rw [(ExtractAndAddFacts_without_summarizer (sampleManager DefaultConfig none) sampleRecord
        "rates rise" "analyst").1 rfl]
      simp⟩


/-! ## Outcome of round ingestion -/

theorem compressCheck_of_failure {σ : Type} (m : Manager σ) (mem : StockMemory)
    (summarizer : Summarizer) (err : Error)
    (hs : m.summarizer = some summarizer)
    (h0 : 0 ≤ m.config.MaxRecentRounds)
    (hlt : m.config.MaxRecentRounds < (mem.RecentRounds.length : Int))
    (hfail : summarizer.SummarizeRounds
        (mem.RecentRounds.take (mem.RecentRounds.length - m.config.MaxRecentRounds.toNat)) =
      Except.error err) :
    (compressCheck m mem).1 = mem ∧ ∃ e, (compressCheck m mem).2 = Status.returned e := by
  unfold compressCheck
  split_ifs
  · rw [compress_of_lt m mem h0 hlt, hs]
    simp [hfail]
  · exact ⟨rfl, _, rfl⟩

/-- C18: `AddRound` returns a failure exactly when its final save is reached and
fails, with that failure, for every configuration, record and summarizer
behaviour; with `MaxRecentRounds >= 0` the call returns the result of the save
as soon as the summary budget does not overflow or no summarizer is configured;
and when the summarizer fails during the compression and the save succeeds,
`AddRound` succeeds and `RecentRounds` is the previous list followed by the new
round, numbered by the incremented counter. -/
theorem AddRound_fails_iff_save_fails {σ : Type} (m : Manager σ) (now saveNow : Int) (st : σ)
    (mem : StockMemory) (query consensus : String) (keyPoints : List String) :
    (∀ err, (AddRound m now saveNow st mem query consensus keyPoints).2.1 =
        Status.returned (some err) ↔
      ((compressCheck m (appendRound mem now query consensus keyPoints)).2 ≠ Status.aborted ∧
        (m.storage.Save st
          { (compressCheck m (appendRound mem now query consensus keyPoints)).1 with
            UpdatedAt := saveNow }).1 = some err)) ∧
    (0 ≤ m.config.MaxRecentRounds →
      ((0 ≤ m.config.MaxSummaryLength ∧ m.config.MaxSummaryLength < 4611686018427387904) ∨
        m.summarizer = none) →
      (AddRound m now saveNow st mem query consensus keyPoints).2.1 =
        Status.returned (m.storage.Save st
          { (compressCheck m (appendRound mem now query consensus keyPoints)).1 with
            UpdatedAt := saveNow }).1) ∧
    (∀ (summarizer : Summarizer) (failure : Error),
      m.summarizer = some summarizer →
      0 ≤ m.config.MaxRecentRounds →
      m.config.MaxRecentRounds < (mem.RecentRounds.length : Int) + 1 →
      summarizer.SummarizeRounds
          ((appendRound mem now query consensus keyPoints).RecentRounds.take
            ((appendRound mem now query consensus keyPoints).RecentRounds.length -
              m.config.MaxRecentRounds.toNat)) = Except.error failure →
      (m.storage.Save st
        { appendRound mem now query consensus keyPoints with UpdatedAt := saveNow }).1 = none →
      (AddRound m now saveNow st mem query consensus keyPoints).2.1 = Status.returned none ∧
      (AddRound m now saveNow st mem query consensus keyPoints).1.RecentRounds =
        mem.RecentRounds ++
          [{ Round := wrapInt (mem.TotalRounds + 1), Query := query, Consensus := consensus,
              KeyPoints := keyPoints, Timestamp := now }]) := by
  refine ⟨fun err => ?_, fun h0 h => ?_, fun summarizer failure hs h0 hlt hfail hsave => ?_⟩
  · cases hc : (compressCheck m (appendRound mem now query consensus keyPoints)).2 with
    | returned e =>
      rw [AddRound_of_returned m now saveNow st mem query consensus keyPoints e hc]
      simp
    | aborted =>
      rw [AddRound_of_aborted m now saveNow st mem query consensus keyPoints hc]
      simp
  · have hm : 0 ≤ wrapInt (m.config.MaxSummaryLength * 2) ∨ m.summarizer = none := by
      rcases h with ⟨h1, h2⟩ | h
      · left
        rw [wrapInt_double _ h1 h2]
        omega
      · exact Or.inr h
    obtain ⟨e, he⟩ :=
      compressCheck_returns m (appendRound mem now query consensus keyPoints) h0 hm
    rw [AddRound_of_returned m now saveNow st mem query consensus keyPoints e he]
  · have hlen : ((appendRound mem now query consensus keyPoints).RecentRounds.length : Int) =
        (mem.RecentRounds.length : Int) + 1 := by
      simp [appendRound]
    obtain ⟨hrec, e, he⟩ := compressCheck_of_failure m
      (appendRound mem now query consensus keyPoints) summarizer failure hs h0
      (by rw [hlen]; exact hlt) hfail
    rw [AddRound_of_returned m now saveNow st mem query consensus keyPoints e he, hrec]
    exact ⟨by rw [hsave], rfl⟩

/-- C18 with a failing summarizer, on a backend refusing every save and on one
accepting it: the call fails in the first case only. -/
theorem AddRound_fails_iff_save_fails_witness :
    (AddRound
        ({ sampleManager DefaultConfig (some failingSummarizer) with storage := failingStorage })
        10 11 () sampleRecord "q5" "hold" []).2.1 = Status.returned (some "disk full") ∧
    (AddRound (sampleManager DefaultConfig (some failingSummarizer))
        10 11 () sampleRecord "q5" "hold" []).2.1 = Status.returned none :=
  ⟨(AddRound_fails_iff_save_fails
      ({ sampleManager DefaultConfig (some failingSummarizer) with storage := failingStorage })
      10 11 () sampleRecord "q5" "hold" []).2.1 (by decide) (Or.inl (by decide)),
    ((AddRound_fails_iff_save_fails (sampleManager DefaultConfig (some failingSummarizer))
      10 11 () sampleRecord "q5" "hold" []).2.2 failingSummarizer "llm unavailable" rfl
      (by decide) (by decide) rfl rfl).1⟩


theorem compressCheck_bounds {σ : Type} (m : Manager σ) (mem : StockMemory)
    (h0 : 0 ≤ m.config.MaxRecentRounds)
    (hs : ∀ summarizer, m.summarizer = some summarizer →
      ∃ summary, summarizer.SummarizeRounds
        (mem.RecentRounds.take (mem.RecentRounds.length - m.config.MaxRecentRounds.toNat)) =
          Except.ok summary)
    (err : Option Error) (hret : (compressCheck m mem).2 = Status.returned err) :
    ((compressCheck m mem).1.RecentRounds.length : Int) ≤
      max m.config.MaxRecentRounds (m.config.CompressThreshold - 1) := by
  unfold compressCheck at hret ⊢
  split_ifs at hret ⊢ with hthr
  · by_cases hle : (mem.RecentRounds.length : Int) ≤ m.config.MaxRecentRounds
    · rw [compress_of_le m mem hle]
      exact le_trans hle (le_max_left _ _)
    · have hlt : m.config.MaxRecentRounds < (mem.RecentRounds.length : Int) := by omega
      have hkeep : ((lastN m.config.MaxRecentRounds.toNat mem.RecentRounds).length : Int) ≤
          max m.config.MaxRecentRounds (m.config.CompressThreshold - 1) := by
        rw [length_lastN]
        refine le_trans ?_ (le_max_left _ _)
        omega
      rw [compress_of_lt m mem h0 hlt] at hret ⊢
      cases hsum : m.summarizer with
      | none => exact hkeep
      | some summarizer =>
        obtain ⟨summary, hsummary⟩ := hs summarizer hsum
        rw [hsum] at hret
        simp only [hsummary] at hret ⊢
        cases hmerge : mergeSummaries m mem.Summary summary with
        | none =>
          rw [hmerge] at hret
          simp at hret
        | some merged => exact hkeep
  · show (mem.RecentRounds.length : Int) ≤ _
    exact le_trans (by omega) (le_max_right _ _)

/-- C19: with `MaxRecentRounds >= 0`, for every starting record, when no
summarizer is configured or the summarizer succeeds on the rounds to compress,
after `AddRound` returns the record holds at most `max(MaxRecentRounds,
CompressThreshold - 1)` recent rounds, which is at most 4 with the default
configuration; the call does return when the summary budget does not overflow
or no summarizer is configured. -/
theorem AddRound_bounds_recent {σ : Type} (m : Manager σ) (now saveNow : Int) (st : σ)
    (mem : StockMemory) (query consensus : String) (keyPoints : List String)
    (h0 : 0 ≤ m.config.MaxRecentRounds)
    (hs : ∀ summarizer, m.summarizer = some summarizer →
      ∃ summary, summarizer.SummarizeRounds
        ((appendRound mem now query consensus keyPoints).RecentRounds.take
          ((appendRound mem now query consensus keyPoints).RecentRounds.length -
            m.config.MaxRecentRounds.toNat)) = Except.ok summary) :
    (∀ err, (AddRound m now saveNow st mem query consensus keyPoints).2.1 =
        Status.returned err →
      ((AddRound m now saveNow st mem query consensus keyPoints).1.RecentRounds.length : Int) ≤
        max m.config.MaxRecentRounds (m.config.CompressThreshold - 1)) ∧
    (m.config = DefaultConfig →
      ∀ err, (AddRound m now saveNow st mem query consensus keyPoints).2.1 =
          Status.returned err →
        (AddRound m now saveNow st mem query consensus keyPoints).1.RecentRounds.length ≤ 4) ∧
    (((0 ≤ m.config.MaxSummaryLength ∧ m.config.MaxSummaryLength < 4611686018427387904) ∨
        m.summarizer = none) →
      ∃ err, (AddRound m now saveNow st mem query consensus keyPoints).2.1 =
        Status.returned err) := by
  have hbound : ∀ err, (AddRound m now saveNow st mem query consensus keyPoints).2.1 =
      Status.returned err →
      ((AddRound m now saveNow st mem query consensus keyPoints).1.RecentRounds.length : Int) ≤
        max m.config.MaxRecentRounds (m.config.CompressThreshold - 1) := by
    intro err hret
    cases hc : (compressCheck m (appendRound mem now query consensus keyPoints)).2 with
    | returned e =>
      rw [AddRound_of_returned m now saveNow st mem query consensus keyPoints e hc]
      exact compressCheck_bounds m _ h0 hs e hc
    | aborted =>
      rw [AddRound_of_aborted m now saveNow st mem query consensus keyPoints hc] at hret
      simp at hret
  refine ⟨hbound, fun hcfg err hret => ?_, fun h => ?_⟩
  · have hb := hbound err hret
    rw [hcfg] at hb
    have hmax : max DefaultConfig.MaxRecentRounds (DefaultConfig.CompressThreshold - 1) = 4 := by
      decide
    rw [hmax] at hb
    omega
  · have hm : 0 ≤ wrapInt (m.config.MaxSummaryLength * 2) ∨ m.summarizer = none := by
      rcases h with ⟨h1, h2⟩ | h
      · left
        rw [wrapInt_double _ h1 h2]
        omega
      · exact Or.inr h
    exact AddRound_status m now saveNow st mem query consensus keyPoints h0 hm

/-- C19 on `sampleRecord` (four rounds) with the default configuration and no
summarizer: the fifth round triggers the compression and three rounds remain. -/
theorem AddRound_bounds_recent_witness :
    (AddRound (sampleManager DefaultConfig none) 10 11 () sampleRecord "q5" "hold" []).2.1 =
      Status.returned none ∧
    (AddRound (sampleManager DefaultConfig none) 10 11 () sampleRecord "q5" "hold"
      []).1.RecentRounds.length ≤ 4 :=
  ⟨by decide,
    (AddRound_bounds_recent (sampleManager DefaultConfig none) 10 11 () sampleRecord "q5" "hold"
      [] (by decide) (fun summarizer hsum => by simp [sampleManager] at hsum)).2.1 rfl none
      (by decide)⟩


/-! ## Round numbering -/

theorem consecutiveRounds_drop (mem mem' : StockMemory) (d : Nat)
    (h : consecutiveRounds mem) (htotal : mem'.TotalRounds = mem.TotalRounds)
    (hrounds : mem'.RecentRounds = mem.RecentRounds.drop d) : consecutiveRounds mem' := by
  intro i round hround
  rw [hrounds, List.getElem?_drop] at hround
  have hlt : d + i < mem.RecentRounds.length := by
    by_contra hge
    rw [List.getElem?_eq_none (by omega)] at hround
    simp at hround
  have hnum := h (d + i) round hround
  rw [hnum, htotal, hrounds, List.length_drop]
  push_cast
  omega

theorem compress_rounds {σ : Type} (m : Manager σ) (mem : StockMemory) :
    ∃ d, (compress m mem).1.RecentRounds = mem.RecentRounds.drop d := by
  by_cases hle : (mem.RecentRounds.length : Int) ≤ m.config.MaxRecentRounds
  · exact ⟨0, by rw [compress_of_le m mem hle]; rfl⟩
  · by_cases hneg : m.config.MaxRecentRounds < 0
    · exact ⟨0, by rw [compress_of_neg m mem hneg]; rfl⟩
    · rw [compress_of_lt m mem (by omega) (by omega)]
      cases m.summarizer with
      | none => exact ⟨_, rfl⟩
      | some summarizer =>
        simp only
        cases summarizer.SummarizeRounds _ with
        | error err => exact ⟨0, rfl⟩
        | ok newSummary =>
          simp only
          cases mergeSummaries m mem.Summary newSummary with
          | none => exact ⟨0, rfl⟩
          | some merged => exact ⟨_, rfl⟩

theorem consecutiveRounds_compressCheck {σ : Type} (m : Manager σ) (mem : StockMemory)
    (h : consecutiveRounds mem) : consecutiveRounds (compressCheck m mem).1 := by
  unfold compressCheck
  split_ifs
  · obtain ⟨d, hd⟩ := compress_rounds m mem
    exact consecutiveRounds_drop mem _ d h (compress_total m mem) hd
  · exact h

theorem consecutiveRounds_appendRound (mem : StockMemory) (now : Int)
    (query consensus : String) (keyPoints : List String) (h : consecutiveRounds mem)
    (h1 : -9223372036854775808 ≤ mem.TotalRounds + 1)
    (h2 : mem.TotalRounds + 1 < 9223372036854775808) :
    consecutiveRounds (appendRound mem now query consensus keyPoints) := by
  intro i round hround
  unfold appendRound at hround ⊢
  simp only [wrapInt_of_range _ h1 h2, List.length_append, List.length_singleton] at hround ⊢
  by_cases hi : i < mem.RecentRounds.length
  · rw [List.getElem?_append_left hi] at hround
    rw [h i round hround]
    push_cast
    omega
  · rw [List.getElem?_append_right (by omega)] at hround
    cases hk : i - mem.RecentRounds.length with
    | zero =>
      rw [hk] at hround
      simp only [List.getElem?_cons_zero, Option.some.injEq] at hround
      rw [← hround]
      push_cast
      omega
    | succ k =>
      rw [hk] at hround
      simp at hround

theorem consecutiveRounds_AddRound {σ : Type} (m : Manager σ) (now saveNow : Int) (st : σ)
    (mem : StockMemory) (query consensus : String) (keyPoints : List String)
    (h : consecutiveRounds mem)
    (h1 : -9223372036854775808 ≤ mem.TotalRounds + 1)
    (h2 : mem.TotalRounds + 1 < 9223372036854775808) :
    consecutiveRounds (AddRound m now saveNow st mem query consensus keyPoints).1 := by
  have hc := consecutiveRounds_compressCheck m _
    (consecutiveRounds_appendRound mem now query consensus keyPoints h h1 h2)
  cases hs : (compressCheck m (appendRound mem now query consensus keyPoints)).2 with
  | returned err =>
    rw [AddRound_of_returned m now saveNow st mem query consensus keyPoints err hs]
    exact hc
  | aborted =>
    rw [AddRound_of_aborted m now saveNow st mem query consensus keyPoints hs]
    exact hc

theorem consecutiveRounds_AddRoundAll {σ : Type} (m : Manager σ) (calls : List RoundCall) :
    ∀ (st : σ) (mem : StockMemory), consecutiveRounds mem → 0 ≤ mem.TotalRounds →
      mem.TotalRounds + (calls.length : Int) < 9223372036854775808 →
      consecutiveRounds (AddRoundAll m st mem calls).1 := by
  induction calls with
  | nil =>
    intro st mem h _ _
    exact h
  | cons call rest ih =>
    intro st mem h h0 hlt
    rw [List.length_cons] at hlt
    have htotal := AddRound_total { m with summarizer := call.summarizer } call.now
      call.saveNow st mem call.query call.consensus call.keyPoints
    rw [wrapInt_of_range _ (by omega) (by omega)] at htotal
    rw [AddRoundAll]
    exact ih _ _
      (consecutiveRounds_AddRound { m with summarizer := call.summarizer } call.now call.saveNow
        st mem call.query call.consensus call.keyPoints h (by omega) (by omega))
      (by omega) (by omega)

/-- C20: in the record reached from a fresh one (`TotalRounds = 0`, no recent
round) by `N` calls of `AddRound` (`N` a count a Go `int` can hold), with any
configuration and summarizer behaviour, `TotalRounds = N` and the `i`-th recent
round carries the number `TotalRounds - len + 1 + i`: the numbers are
consecutive and strictly increasing along the list, the last one is
`TotalRounds`, and no two rounds of the record share a number. -/
theorem AddRound_numbers_rounds {σ : Type} (m : Manager σ) (st : σ) (mem : StockMemory)
    (calls : List RoundCall) (htotal : mem.TotalRounds = 0) (hrounds : mem.RecentRounds = [])
    (hN : (calls.length : Int) < 9223372036854775808) :
    (AddRoundAll m st mem calls).1.TotalRounds = (calls.length : Int) ∧
    (∀ (i : Nat) (round : RoundMemory),
      (AddRoundAll m st mem calls).1.RecentRounds[i]? = some round →
      round.Round =
        (AddRoundAll m st mem calls).1.TotalRounds -
          ((AddRoundAll m st mem calls).1.RecentRounds.length : Int) + 1 + (i : Int)) ∧
    (∀ (i j : Nat) (ri rj : RoundMemory),
      (AddRoundAll m st mem calls).1.RecentRounds[i]? = some ri →
      (AddRoundAll m st mem calls).1.RecentRounds[j]? = some rj →
      (i < j ↔ ri.Round < rj.Round)) ∧
    (∀ round : RoundMemory,
      (AddRoundAll m st mem calls).1.RecentRounds.getLast? = some round →
      round.Round = (AddRoundAll m st mem calls).1.TotalRounds) := by
  have hfresh : consecutiveRounds mem := by
    intro i round hround
    rw [hrounds] at hround
    simp at hround
  have hcons := consecutiveRounds_AddRoundAll m calls st mem hfresh (by omega) (by omega)
  have hcount := AddRoundAll_total m calls st mem (by omega) (by omega)
  rw [htotal, zero_add] at hcount
  refine ⟨hcount, hcons, ?_, ?_⟩
  · intro i j ri rj hi hj
    rw [hcons i ri hi, hcons j rj hj]
    omega
  · intro round hlast
    rw [List.getLast?_eq_getElem?] at hlast
    have hpos : 0 < (AddRoundAll m st mem calls).1.RecentRounds.length := by
      by_contra hzero
      rw [List.getElem?_eq_none (by omega)] at hlast
      simp at hlast
    rw [hcons _ round hlast]
    omega

/-- C20 on seven calls with thresholds 2 and 1, compressions succeeding and
failing in turn: the one round left is the seventh. -/
theorem AddRound_numbers_rounds_witness :
    (AddRoundAll
        (sampleManager { DefaultConfig with MaxRecentRounds := 1, CompressThreshold := 2 } none)
        () (NewStockMemory 0 "AAA" "Alpha")
        [sampleCall "q1" 10 none, sampleCall "q2" 20 (some failingSummarizer),
          sampleCall "q3" 30 (some (constSummarizer "s")), sampleCall "q4" 40 none,
          sampleCall "q5" 50 (some (constSummarizer "t")),
          sampleCall "q6" 60 (some failingSummarizer),
          sampleCall "q7" 70 none]).1.TotalRounds = 7 ∧
    ((AddRoundAll
        (sampleManager { DefaultConfig with MaxRecentRounds := 1, CompressThreshold := 2 } none)
        () (NewStockMemory 0 "AAA" "Alpha")
        [sampleCall "q1" 10 none, sampleCall "q2" 20 (some failingSummarizer),
          sampleCall "q3" 30 (some (constSummarizer "s")), sampleCall "q4" 40 none,
          sampleCall "q5" 50 (some (constSummarizer "t")),
          sampleCall "q6" 60 (some failingSummarizer),
          sampleCall "q7" 70 none]).1.RecentRounds.map fun round => round.Round) = [7] :=
  ⟨(AddRound_numbers_rounds
      (sampleManager { DefaultConfig with MaxRecentRounds := 1, CompressThreshold := 2 } none)
      () (NewStockMemory 0 "AAA" "Alpha")
      [sampleCall "q1" 10 none, sampleCall "q2" 20 (some failingSummarizer),
        sampleCall "q3" 30 (some (constSummarizer "s")), sampleCall "q4" 40 none,
        sampleCall "q5" 50 (some (constSummarizer "t")),
        sampleCall "q6" 60 (some failingSummarizer),
        sampleCall "q7" 70 none] rfl rfl (by decide)).1,
    by decide⟩


end Memory
